import Mathlib

/-!
# OpenMS `MRMFeatureSelector`: a shallow embedding

Source: `src/openms/source/ANALYSIS/OPENSWATH/MRMFeatureSelector.cpp`.

* `double` values are exact rationals `ℚ` (the score functions are generic in the
  number type so that they can also be read over `ℝ`).
* `int` and `size_t` values are `ℤ` and `ℕ`; the casts `(int)` are taken on values that
  fit the type.
* `LPWrapper`, the solver interface, is not part of the sources; it is modelled as a
  list of columns and a list of rows, and a solver run is an arbitrary assignment of
  values to the column indices.
* A C++ exception (`throw`, `std::map::at` on a missing key, an out-of-range read)
  is the result `none`.
-/

set_option autoImplicit false

namespace OpenMS

/-! ## Features -/

/-- A feature with the attributes read by the selector: its unique id, its retention
time, the meta values `PeptideRef`, `native_id`, `assay_rt`, `peak_apices_sum` and
`sn_ratio`, and its subordinate features. -/
inductive Feature (K : Type) where
  | mk (uniqueId : Nat) (RT : K) (PeptideRef : String) (native_id : String)
      (assay_rt : K) (peak_apices_sum : K) (sn_ratio : K)
      (subordinates : List (Feature K)) : Feature K

namespace Feature

variable {K : Type}

/-- `feature.getUniqueId()` -/
def getUniqueId : Feature K → Nat
  | mk u _ _ _ _ _ _ _ => u

/-- `feature.getRT()` -/
def getRT : Feature K → K
  | mk _ rt _ _ _ _ _ _ => rt

/-- `feature.getMetaValue("PeptideRef").toString()` -/
def PeptideRef : Feature K → String
  | mk _ _ p _ _ _ _ _ => p

/-- `feature.getMetaValue("native_id").toString()` -/
def native_id : Feature K → String
  | mk _ _ _ n _ _ _ _ => n

/-- `feature.getMetaValue("assay_rt")` -/
def assay_rt : Feature K → K
  | mk _ _ _ _ a _ _ _ => a

/-- `(double)feature.getMetaValue("peak_apices_sum")` -/
def peak_apices_sum : Feature K → K
  | mk _ _ _ _ _ p _ _ => p

/-- `(double)feature.getMetaValue("sn_ratio")` -/
def sn_ratio : Feature K → K
  | mk _ _ _ _ _ _ s _ => s

/-- `feature.getSubordinates()` -/
def getSubordinates : Feature K → List (Feature K)
  | mk _ _ _ _ _ _ _ subs => subs

end Feature

/-- The functions of `<cmath>` used by the score functions (`std::log`, `std::log10`,
`pow`); they are parameters of the embedding. -/
structure CMath (K : Type) where
  log : K → K
  log10 : K → K
  pow : K → K → K

/-! ## The solver interface -/

/-- Modelled from the spec: `LPWrapper::Type`, the bound kind of a column or a row
("double-bounded (`lb ≤ row ≤ ub`), lower-only, upper-only, or unbounded"). -/
inductive LPType where
  | UNBOUNDED
  | LOWER_BOUND_ONLY
  | UPPER_BOUND_ONLY
  | DOUBLE_BOUNDED
  | FIXED
  deriving DecidableEq, Repr

/-- Modelled from the spec: `LPWrapper::VariableType` ("integer vs. continuous
relaxation"). -/
inductive VariableType where
  | CONTINUOUS
  | INTEGER
  | BINARY
  deriving DecidableEq, Repr

/-- Modelled from the spec: `LPWrapper::Sense`. -/
inductive Sense where
  | MIN
  | MAX
  deriving DecidableEq, Repr

/-- One column (decision variable) of the model. -/
structure Column where
  name : String
  lb : ℚ
  ub : ℚ
  boundType : LPType
  varType : VariableType
  obj : ℚ
  deriving DecidableEq

/-- One row (constraint) of the model: `indices[k]` is the column that carries the
coefficient `values[k]`. -/
structure Row where
  indices : List Nat
  values : List ℚ
  name : String
  lb : ℚ
  ub : ℚ
  type : LPType
  deriving DecidableEq

/-- Modelled from the spec: the model held by an `LPWrapper` ("build model / set
objective / add variable / add constraint / solve / read solution"). -/
structure LPWrapper where
  sense : Sense
  cols : List Column
  rows : List Row
  deriving DecidableEq

/-- Apply `f` to the element at position `i` of a list. -/
def updateAt {α : Type} (f : α → α) : List α → Nat → List α
  | [], _ => []
  | a :: l, 0 => f a :: l
  | a :: l, i + 1 => a :: updateAt f l i

namespace LPWrapper

/-- `LPWrapper problem;` -/
def new : LPWrapper := ⟨Sense.MIN, [], []⟩

/-- `problem.setObjectiveSense(sense)` -/
def setObjectiveSense (p : LPWrapper) (s : Sense) : LPWrapper := { p with sense := s }

/-- Modelled from the spec: `problem.addColumn()` appends one column and returns its
index. -/
def addColumn (p : LPWrapper) : LPWrapper × Nat :=
  ({ p with cols := p.cols ++ [⟨"", 0, 0, LPType.FIXED, VariableType.CONTINUOUS, 0⟩] },
    p.cols.length)

/-- `problem.setColumnBounds(index, lb, ub, type)` -/
def setColumnBounds (p : LPWrapper) (index : Nat) (lb ub : ℚ) (t : LPType) : LPWrapper :=
  { p with cols := updateAt (fun c => { c with lb := lb, ub := ub, boundType := t }) p.cols index }

/-- `problem.setColumnName(index, name)` -/
def setColumnName (p : LPWrapper) (index : Nat) (name : String) : LPWrapper :=
  { p with cols := updateAt (fun c => { c with name := name }) p.cols index }

/-- `problem.setColumnType(index, type)` -/
def setColumnType (p : LPWrapper) (index : Nat) (t : VariableType) : LPWrapper :=
  { p with cols := updateAt (fun c => { c with varType := t }) p.cols index }

/-- `problem.setObjective(index, obj)` -/
def setObjective (p : LPWrapper) (index : Nat) (obj : ℚ) : LPWrapper :=
  { p with cols := updateAt (fun c => { c with obj := obj }) p.cols index }

/-- Modelled from the spec: `problem.addRow(indices, values, name, lb, ub, type)`
"appends a row". -/
def addRow (p : LPWrapper) (indices : List Nat) (values : List ℚ) (name : String)
    (lb ub : ℚ) (t : LPType) : LPWrapper :=
  { p with rows := p.rows ++ [⟨indices, values, name, lb, ub, t⟩] }

/-- The names of the columns, in column order. -/
def colNames (p : LPWrapper) : List String := p.cols.map Column.name

/-- Modelled from the spec: `problem.getColumnIndex(name)`, the index of the (first)
column that carries the name. -/
def getColumnIndex (p : LPWrapper) (name : String) : Nat := p.colNames.indexOf name

/-- `problem.getNumberOfColumns()` -/
def getNumberOfColumns (p : LPWrapper) : Nat := p.cols.length

/-- `problem.getObjective(c)`, the objective coefficient of the column `c`. -/
def getObjective (p : LPWrapper) (c : Nat) : ℚ := (p.cols[c]?.map Column.obj).getD 0

/-- `problem.getColumnName(c)` -/
def getColumnName (p : LPWrapper) (c : Nat) : String := p.colNames[c]?.getD ""

end LPWrapper

/-! ## What a solution of a model is -/

/-- A value `v` respects the bounds `lb`, `ub` under the bound kind `t`. -/
def boundOK (t : LPType) (lb ub v : ℚ) : Prop :=
  match t with
  | LPType.UNBOUNDED => True
  | LPType.LOWER_BOUND_ONLY => lb ≤ v
  | LPType.UPPER_BOUND_ONLY => v ≤ ub
  | LPType.DOUBLE_BOUNDED => lb ≤ v ∧ v ≤ ub
  | LPType.FIXED => v = lb

instance (t : LPType) (lb ub v : ℚ) : Decidable (boundOK t lb ub v) := by
  cases t <;> unfold boundOK <;> infer_instance

/-- A value `v` has the type of the column. -/
def typeOK (t : VariableType) (v : ℚ) : Prop :=
  match t with
  | VariableType.CONTINUOUS => True
  | VariableType.INTEGER => v.den = 1
  | VariableType.BINARY => v = 0 ∨ v = 1

instance (t : VariableType) (v : ℚ) : Decidable (typeOK t v) := by
  cases t <;> unfold typeOK <;> infer_instance

/-- The value of a row under the assignment `x`: the sum of `values[k] * x indices[k]`. -/
def Row.eval (r : Row) (x : Nat → ℚ) : ℚ :=
  ((r.indices.zip r.values).map fun iv => iv.2 * x iv.1).sum

/-- The assignment `x` satisfies the row. -/
def Row.OK (r : Row) (x : Nat → ℚ) : Prop := boundOK r.type r.lb r.ub (r.eval x)

instance (r : Row) (x : Nat → ℚ) : Decidable (r.OK x) := by
  unfold Row.OK; infer_instance

/-- The value `v` is admissible for the column: inside its bounds and of its type. -/
def Column.OK (c : Column) (v : ℚ) : Prop :=
  boundOK c.boundType c.lb c.ub v ∧ typeOK c.varType v

instance (c : Column) (v : ℚ) : Decidable (c.OK v) := by
  unfold Column.OK; infer_instance

namespace LPWrapper

/-- The assignment `x` satisfies all rows of the model. -/
def RowsOK (p : LPWrapper) (x : Nat → ℚ) : Prop := ∀ r ∈ p.rows, r.OK x

/-- The assignment `x` respects the bounds and the type of every column. -/
def ColsOK (p : LPWrapper) (x : Nat → ℚ) : Prop :=
  ∀ ic ∈ p.cols.enum, ic.2.OK (x ic.1)

/-- The assignment `x` is a feasible point of the model. -/
def Feasible (p : LPWrapper) (x : Nat → ℚ) : Prop := p.ColsOK x ∧ p.RowsOK x

instance (p : LPWrapper) (x : Nat → ℚ) : Decidable (p.RowsOK x) := by
  unfold RowsOK; infer_instance

instance (p : LPWrapper) (x : Nat → ℚ) : Decidable (p.ColsOK x) := by
  unfold ColsOK; infer_instance

instance (p : LPWrapper) (x : Nat → ℚ) : Decidable (p.Feasible x) := by
  unfold Feasible; infer_instance

/-- The objective value of the assignment `x`: the sum of `getObjective c * x c` over
the columns. -/
def objective (p : LPWrapper) (x : Nat → ℚ) : ℚ :=
  ((List.range p.getNumberOfColumns).map fun c => p.getObjective c * x c).sum

/-- The assignment `x` is an optimal solution: feasible, and no feasible point is better
in the objective sense of the model. -/
def Optimal (p : LPWrapper) (x : Nat → ℚ) : Prop :=
  p.Feasible x ∧ ∀ y, p.Feasible y →
    match p.sense with
    | Sense.MIN => p.objective x ≤ p.objective y
    | Sense.MAX => p.objective y ≤ p.objective x

end LPWrapper

/-! ## The selector -/

/-- Modelled from the spec: the constant `s_integer` (`variableType` is
"integer" | "continuous"). -/
def s_integer : String := "integer"

/-- Modelled from the spec: the constant `s_continuous`. -/
def s_continuous : String := "continuous"

/-- The members of `MRMFeatureSelector`. -/
structure MRMFeatureSelector where
  nn_threshold_ : ℚ
  locality_weight_ : Bool
  select_transition_group_ : Bool
  segment_window_length_ : ℚ
  segment_step_length_ : ℚ
  select_highest_count_ : Bool
  variable_type_ : String
  optimal_threshold_ : ℚ

/-- The state of one model build: the problem and the set `variables`. -/
abbrev BuildState : Type := LPWrapper × List String

/-- A `for` loop over the elements of a list whose body may throw. -/
def forEach {α σ : Type} (body : α → σ → Option σ) : List α → σ → Option σ
  | [], s => some s
  | a :: as, s =>
    match body a s with
    | none => none
    | some s' => forEach body as s'

namespace MRMFeatureSelector

/-- `getDefaultParameters` -/
def getDefaultParameters : MRMFeatureSelector :=
  { nn_threshold_ := 4
    locality_weight_ := false
    select_transition_group_ := true
    segment_window_length_ := 8
    segment_step_length_ := 4
    select_highest_count_ := false
    variable_type_ := s_continuous
    optimal_threshold_ := 1 / 2 }

/-- `MRMFeatureSelector::_addVariable` -/
def _addVariable (self : MRMFeatureSelector) (problem : LPWrapper) (name : String)
    (bounded : Bool) (obj : ℚ) : Option (LPWrapper × Nat) :=
  let (problem, index) := problem.addColumn
  let problem :=
    if bounded then problem.setColumnBounds index 0 1 LPType.DOUBLE_BOUNDED
    else problem.setColumnBounds index 0 1 LPType.UNBOUNDED
  let problem := problem.setColumnName index name
  if self.variable_type_ = s_integer then
    some ((problem.setColumnType index VariableType.INTEGER).setObjective index obj, index)
  else if self.variable_type_ = s_continuous then
    some ((problem.setColumnType index VariableType.CONTINUOUS).setObjective index obj, index)
  else
    none

/-- `MRMFeatureSelector::_addConstraint` -/
def _addConstraint (problem : LPWrapper) (indices : List Nat) (values : List ℚ)
    (name : String) (lb ub : ℚ) (param : LPType) : LPWrapper :=
  problem.addRow indices values name lb ub param

/-- `MRMFeatureSelector::remove_spaces` -/
def remove_spaces (str : String) : String :=
  String.mk (str.data.filter fun c => c != ' ')

/-- The name `group + "_" + (String)id` of a variable. -/
def varName (group : String) (id : Nat) : String :=
  group ++ "_" ++ toString id

/-- The set of variable types that `_addVariable` accepts. -/
def Supported (self : MRMFeatureSelector) : Prop :=
  self.variable_type_ = s_integer ∨ self.variable_type_ = s_continuous

instance (self : MRMFeatureSelector) : Decidable self.Supported := by
  unfold Supported; infer_instance

/-- Conversion `(int)d` of a `double` to `int`: truncation towards zero. This is the
value of the conversion when it fits `int`; the conversion of a value outside the range
of `int` is not defined, see `iter_range`. -/
def toInt (d : ℚ) : ℤ := if 0 ≤ d then ⌊d⌋ else ⌈d⌉

/-- `start_iter`, the first neighbour position of `cnt1`
(`std::max((int)cnt1 - (int)nn_threshold_, 0)`), for operands and a difference that fit
`int`; `iter_range` has the arithmetic of `int`. -/
def start_iter (self : MRMFeatureSelector) (cnt1 : Nat) : Nat :=
  (max ((cnt1 : ℤ) - toInt self.nn_threshold_) 0).toNat

/-- `stop_iter`, one past the last neighbour position of `cnt1`
(`std::min((int)cnt1 + (int)nn_threshold_ + 1, (int)time_to_name.size())`), for operands
and sums that fit `int` and a minimum that is not negative; `iter_range` has the
arithmetic of `int` and the conversion to `size_t`. -/
def stop_iter (self : MRMFeatureSelector) (cnt1 size : Nat) : Nat :=
  (min ((cnt1 : ℤ) + toInt self.nn_threshold_ + 1) (size : ℤ)).toNat

/-- The positions `cnt2` for which the body of the neighbour loop runs:
`start_iter ≤ cnt2 < stop_iter`, without `cnt1` (`if (cnt1 == cnt2) continue;`). -/
def neighbours (self : MRMFeatureSelector) (cnt1 size : Nat) : List Nat :=
  (List.range' (self.start_iter cnt1) (self.stop_iter cnt1 size - self.start_iter cnt1)).filter
    fun cnt2 => cnt1 != cnt2

/-- The locality weight of the pair of positions `(cnt1, cnt2)`. -/
def locality_weight (self : MRMFeatureSelector) (start_iter cnt1 cnt2 : Nat) : ℚ :=
  if self.locality_weight_ then
    1 / (self.nn_threshold_ - ((|(start_iter : ℤ) + (cnt2 : ℤ) - (cnt1 : ℤ)| : ℤ) : ℚ) + 1)
  else 1

/-- The number of segments, `std::ceil(time_to_name.size() / step_length)`. -/
def n_segments (size : Nat) (step_length : ℚ) : Nat := ⌈(size : ℚ) / step_length⌉₊

/-- The first index of segment `i`, `const size_t start = step_length * i`. -/
def segment_start (step_length : ℚ) (i : Nat) : Nat := ⌊step_length * (i : ℚ)⌋₊

/-- One past the last index of segment `i`,
`const size_t end = std::min(start + window_length, (double)time_to_name.size())`. -/
def segment_end (size : Nat) (window_length step_length : ℚ) (i : Nat) : Nat :=
  ⌊min ((segment_start step_length i : ℚ) + window_length) (size : ℚ)⌋₊

/-- The window and step lengths used by `select_MRMFeature` for a series of the given
size: the configured ones, or the size itself when both are `-1`. -/
def segment_lengths (self : MRMFeatureSelector) (size : Nat) : ℚ × ℚ :=
  if self.segment_window_length_ = -1 ∧ self.segment_step_length_ = -1 then
    ((size : ℚ), (size : ℚ))
  else (self.segment_window_length_, self.segment_step_length_)

/-- The index ranges `(start, end)` of the segments that `select_MRMFeature` iterates
over. -/
def segments (self : MRMFeatureSelector) (size : Nat) : List (Nat × Nat) :=
  (List.range (n_segments size (self.segment_lengths size).2)).map fun i =>
    (segment_start (self.segment_lengths size).2 i,
      segment_end size (self.segment_lengths size).1 (self.segment_lengths size).2 i)

/-- The slice `time_slice(time_to_name.begin() + start, time_to_name.begin() + end)`. -/
def time_slice (time_to_name : List (ℚ × String)) (se : Nat × Nat) : List (ℚ × String) :=
  (time_to_name.take se.2).drop se.1

end MRMFeatureSelector

open MRMFeatureSelector

/-! ### Strategy A: `MRMFeatureSelectorScore` -/

namespace MRMFeatureSelectorScore

/-- `MRMFeatureSelectorScore::make_score` -/
def make_score {K : Type} [LinearOrderedField K] (m : CMath K) (feature : Feature K) : K :=
  let peak_apices_sum := m.log feature.peak_apices_sum
  let sn_ratio := m.log feature.sn_ratio
  let peak_apices_sum := if peak_apices_sum ≤ 0 then 1 else peak_apices_sum
  let sn_ratio := if sn_ratio ≤ 0 then 1 else sn_ratio
  peak_apices_sum * sn_ratio

/-- The body of the loop over the features of one group: the state is the problem, the
set `variables` and the vector `constraints`. -/
def addFeature (self : MRMFeatureSelector) (m : CMath ℚ) (elem : ℚ × String)
    (feature : Feature ℚ) (s : BuildState × List Nat) : Option (BuildState × List Nat) :=
  let name1 := varName elem.2 feature.getUniqueId
  if name1 ∈ s.1.2 then some s
  else
    match self._addVariable s.1.1 name1 true (make_score m feature) with
    | none => none
    | some (problem, index) => some ((problem, name1 :: s.1.2), s.2 ++ [index])

/-- The body of the loop over `time_to_name`. -/
def addGroup (self : MRMFeatureSelector) (m : CMath ℚ)
    (feature_name_map : String → Option (List (Feature ℚ))) (elem : ℚ × String)
    (s : BuildState) : Option BuildState :=
  match feature_name_map elem.2 with
  | none => none
  | some features =>
    match forEach (addFeature self m elem) features (s, []) with
    | none => none
    | some (s', constraints) =>
      let constraints_values := List.replicate constraints.length (1 : ℚ)
      some (_addConstraint s'.1 constraints constraints_values (elem.2 ++ "_constraint")
        1 1 LPType.DOUBLE_BOUNDED, s'.2)

/-- The model that `MRMFeatureSelectorScore::optimize` hands to the solver, with the set
`variables`. -/
def buildProblem (self : MRMFeatureSelector) (m : CMath ℚ)
    (time_to_name : List (ℚ × String))
    (feature_name_map : String → Option (List (Feature ℚ))) : Option BuildState :=
  forEach (addGroup self m feature_name_map) time_to_name
    (LPWrapper.new.setObjectiveSense Sense.MIN, [])

/-- The names pushed to `result` once the column values `x` are known. -/
def extract (self : MRMFeatureSelector) (problem : LPWrapper) (x : Nat → ℚ) : List String :=
  ((List.range problem.getNumberOfColumns).filter fun c =>
    decide (self.optimal_threshold_ ≤ x c)).map problem.getColumnName

/-- `MRMFeatureSelectorScore::optimize`: the names it appends to `result`, for a solver
that returns the column values `solve problem`. -/
def optimize (self : MRMFeatureSelector) (m : CMath ℚ) (solve : LPWrapper → Nat → ℚ)
    (time_to_name : List (ℚ × String))
    (feature_name_map : String → Option (List (Feature ℚ))) : Option (List String) :=
  match buildProblem self m time_to_name feature_name_map with
  | none => none
  | some (problem, _) => some (extract self problem (solve problem))

end MRMFeatureSelectorScore

/-! ### Strategy B: `MRMFeatureSelectorQMIP` -/

namespace MRMFeatureSelectorQMIP

/-- `MRMFeatureSelectorQMIP::make_score` -/
def make_score {K : Type} [LinearOrderedField K] (m : CMath K) (feature : Feature K) : K :=
  let peak_apices_sum := m.pow (m.log10 feature.peak_apices_sum) (-1)
  let sn_ratio := m.pow (m.log feature.sn_ratio) (-1)
  let peak_apices_sum := if peak_apices_sum ≤ 0 then 1 else peak_apices_sum
  let sn_ratio := if sn_ratio ≤ 0 then 1 else sn_ratio
  m.pow (peak_apices_sum * sn_ratio) (1 / 2)

/-- The name of the pair variable of candidate `i` of group `g1` and candidate `j` of
group `g2`. -/
def qpName (g1 : String) (i : Nat) (g2 : String) (j : Nat) : String :=
  g1 ++ "_" ++ toString i ++ "-" ++ g2 ++ "_" ++ toString j

/-- The score of a pair of candidates. -/
def pairScore (self : MRMFeatureSelector) (m : CMath ℚ) (start_iter cnt1 cnt2 : Nat)
    (e1 e2 : ℚ × String) (f1 f2 : Feature ℚ) : ℚ :=
  let locality_weight := self.locality_weight start_iter cnt1 cnt2
  let tr_delta := f1.getRT - f2.getRT
  let tr_delta_expected := e1.1 - e2.1
  locality_weight * make_score m f1 * make_score m f2 * (tr_delta - tr_delta_expected)

/-- The body of the loop over the features `feature_row2[j]` of a neighbour group. -/
def addPair (self : MRMFeatureSelector) (m : CMath ℚ) (cnt1 cnt2 : Nat)
    (e1 e2 : ℚ × String) (i : Nat) (f1 : Feature ℚ) (jf : Nat × Feature ℚ)
    (s : BuildState) : Option BuildState := do
  let name1 := varName e1.2 f1.getUniqueId
  let name2 := varName e2.2 jf.2.getUniqueId
  let (problem, vars) ←
    if name2 ∈ s.2 then some s
    else (self._addVariable s.1 name2 true 0).map fun r => (r.1, name2 :: s.2)
  let var_qp_name := qpName e1.2 i e2.2 jf.1
  let var_abs_name := var_qp_name ++ "-ABS"
  let (problem, index_var_qp) ← self._addVariable problem var_qp_name true 0
  let (problem, index_var_abs) ← self._addVariable problem var_abs_name false 1
  let index1 := problem.getColumnIndex name1
  let index2 := problem.getColumnIndex name2
  let score := pairScore self m (self.start_iter cnt1) cnt1 cnt2 e1 e2 f1 jf.2
  let problem := _addConstraint problem [index1, index_var_qp] [1, -1]
    (var_qp_name ++ "-QP1") 0 1 LPType.LOWER_BOUND_ONLY
  let problem := _addConstraint problem [index2, index_var_qp] [1, -1]
    (var_qp_name ++ "-QP2") 0 1 LPType.LOWER_BOUND_ONLY
  let problem := _addConstraint problem [index1, index2, index_var_qp] [1, 1, -1]
    (var_qp_name ++ "-QP3") 0 1 LPType.UPPER_BOUND_ONLY
  let problem := _addConstraint problem [index_var_abs, index_var_qp] [-1, score]
    (var_qp_name ++ "-obj+") (-1) 0 LPType.UPPER_BOUND_ONLY
  let problem := _addConstraint problem [index_var_abs, index_var_qp] [-1, -score]
    (var_qp_name ++ "-obj-") (-1) 0 LPType.UPPER_BOUND_ONLY
  some (problem, vars)

/-- The body of the loop over the neighbour positions `cnt2` of `cnt1`. -/
def addNeighbour (self : MRMFeatureSelector) (m : CMath ℚ)
    (time_to_name : List (ℚ × String))
    (feature_name_map : String → Option (List (Feature ℚ))) (cnt1 : Nat)
    (e1 : ℚ × String) (i : Nat) (f1 : Feature ℚ) (cnt2 : Nat)
    (s : BuildState) : Option BuildState := do
  let e2 ← time_to_name[cnt2]?
  let feature_row2 ← feature_name_map e2.2
  forEach (addPair self m cnt1 cnt2 e1 e2 i f1) feature_row2.enum s

/-- The body of the loop over the features `feature_row1[i]` of the group at `cnt1`. -/
def addCandidate (self : MRMFeatureSelector) (m : CMath ℚ)
    (time_to_name : List (ℚ × String))
    (feature_name_map : String → Option (List (Feature ℚ))) (cnt1 : Nat)
    (e1 : ℚ × String) (ifeat : Nat × Feature ℚ)
    (s : BuildState × List Nat) : Option (BuildState × List Nat) := do
  let name1 := varName e1.2 ifeat.2.getUniqueId
  let (st, constraints) ←
    if name1 ∈ s.1.2 then some (s.1, s.2 ++ [s.1.1.getColumnIndex name1])
    else (self._addVariable s.1.1 name1 true 0).map fun r =>
      ((r.1, name1 :: s.1.2), s.2 ++ [r.2])
  let st ← forEach (addNeighbour self m time_to_name feature_name_map cnt1 e1 ifeat.1 ifeat.2)
    (self.neighbours cnt1 time_to_name.length) st
  some (st, constraints)

/-- The body of the loop over the positions `cnt1` of `time_to_name`. -/
def addPosition (self : MRMFeatureSelector) (m : CMath ℚ)
    (time_to_name : List (ℚ × String))
    (feature_name_map : String → Option (List (Feature ℚ))) (cnt1 : Nat)
    (s : BuildState) : Option BuildState := do
  let e1 ← time_to_name[cnt1]?
  let feature_row1 ← feature_name_map e1.2
  let (st, constraints) ←
    forEach (addCandidate self m time_to_name feature_name_map cnt1 e1) feature_row1.enum (s, [])
  let constraints_values := List.replicate constraints.length (1 : ℚ)
  some (_addConstraint st.1 constraints constraints_values (e1.2 ++ "_constraint")
    1 1 LPType.DOUBLE_BOUNDED, st.2)

/-- The model that `MRMFeatureSelectorQMIP::optimize` hands to the solver, with the set
`variables`. -/
def buildProblem (self : MRMFeatureSelector) (m : CMath ℚ)
    (time_to_name : List (ℚ × String))
    (feature_name_map : String → Option (List (Feature ℚ))) : Option BuildState :=
  forEach (addPosition self m time_to_name feature_name_map) (List.range time_to_name.length)
    (LPWrapper.new.setObjectiveSense Sense.MIN, [])

/-- The names pushed to `result` once the column values `x` are known. -/
def extract (self : MRMFeatureSelector) (problem : LPWrapper) (vars : List String)
    (x : Nat → ℚ) : List String :=
  ((List.range problem.getNumberOfColumns).filter fun c =>
    decide (x c - self.optimal_threshold_ > 1 / 1000000) &&
      decide (problem.getColumnName c ∈ vars)).map problem.getColumnName

/-- `MRMFeatureSelectorQMIP::optimize`: the names it appends to `result`, for a solver
that returns the column values `solve problem`. -/
def optimize (self : MRMFeatureSelector) (m : CMath ℚ) (solve : LPWrapper → Nat → ℚ)
    (time_to_name : List (ℚ × String))
    (feature_name_map : String → Option (List (Feature ℚ))) : Option (List String) :=
  match buildProblem self m time_to_name feature_name_map with
  | none => none
  | some (problem, vars) => some (extract self problem vars (solve problem))

end MRMFeatureSelectorQMIP

/-! ### `MRMFeatureSelector::select_MRMFeature` -/

/-- `feature.setSubordinates(subordinates)` on a copy of the feature. -/
def Feature.setSubordinates {K : Type} : Feature K → List (Feature K) → Feature K
  | Feature.mk u rt p n a pk s _, subs => Feature.mk u rt p n a pk s subs

namespace MRMFeatureSelector

/-- The local variables `names`, `time_to_name` and `feature_name_map` of
`select_MRMFeature`. -/
structure SeriesState where
  names : List String
  time_to_name : List (ℚ × String)
  feature_name_map : String → Option (List (Feature ℚ))

/-- The two statements `if (feature_name_map.count(name) == 0) feature_name_map[name] =
std::vector<Feature>(); feature_name_map[name].push_back(feature);`. -/
def push_back_at (feature_name_map : String → Option (List (Feature ℚ))) (name : String)
    (feature : Feature ℚ) : String → Option (List (Feature ℚ)) :=
  fun key =>
    if key = name then
      match feature_name_map name with
      | none => some ([] ++ [feature])
      | some features => some (features ++ [feature])
    else feature_name_map key

/-- The body of the loop over the subordinates of a feature. -/
def addSubordinate (assay_retention_time : ℚ) (s : SeriesState) (subordinate : Feature ℚ) :
    SeriesState :=
  let component_name := remove_spaces subordinate.native_id
  let s : SeriesState :=
    if component_name ∈ s.names then
      { s with
        time_to_name := s.time_to_name ++ [(assay_retention_time, component_name)]
        names := s.names.insert component_name }
    else s
  { s with feature_name_map := push_back_at s.feature_name_map component_name subordinate }

/-- The body of the first loop over the features. -/
def addTopLevel (self : MRMFeatureSelector) (s : SeriesState) (feature : Feature ℚ) :
    SeriesState :=
  let component_group_name := remove_spaces feature.PeptideRef
  let assay_retention_time := feature.assay_rt
  let s : SeriesState :=
    if component_group_name ∉ s.names then
      { s with
        time_to_name := s.time_to_name ++ [(assay_retention_time, component_group_name)]
        names := s.names.insert component_group_name }
    else s
  let s : SeriesState :=
    { s with
      feature_name_map := push_back_at s.feature_name_map component_group_name feature }
  if self.select_transition_group_ then s
  else feature.getSubordinates.foldl (addSubordinate assay_retention_time) s

/-- The state after the first loop of `select_MRMFeature`. -/
def buildSeries (self : MRMFeatureSelector) (features : List (Feature ℚ)) : SeriesState :=
  features.foldl (addTopLevel self) ⟨[], [], fun _ => none⟩

/-- The comparison `operator<` of `std::pair<double, String>`. -/
def pair_lt (a b : ℚ × String) : Prop := a.1 < b.1 ∨ (¬ b.1 < a.1 ∧ a.2 < b.2)

instance (a b : ℚ × String) : Decidable (pair_lt a b) := by
  unfold pair_lt; infer_instance

/-- `sort(time_to_name.begin(), time_to_name.end())`: the entries in ascending order. -/
def sort (time_to_name : List (ℚ × String)) : List (ℚ × String) :=
  time_to_name.insertionSort fun a b => ¬ pair_lt b a

/-- The loop over the segments: `optimize` runs on every slice and its result is
appended to `result_names`. -/
def run_segments
    (optimize : List (ℚ × String) → (String → Option (List (Feature ℚ))) →
      Option (List String))
    (self : MRMFeatureSelector) (time_to_name : List (ℚ × String))
    (feature_name_map : String → Option (List (Feature ℚ))) : Option (List String) :=
  forEach (fun se result_names =>
      match optimize (time_slice time_to_name se) feature_name_map with
      | none => none
      | some result => some (result_names ++ result))
    (self.segments time_to_name.length) []

/-- The name `feature_name` looked up in `result_names_set` for a subordinate of a
feature. -/
def feature_name (self : MRMFeatureSelector) (feature subordinate : Feature ℚ) : String :=
  if self.select_transition_group_ then varName feature.PeptideRef feature.getUniqueId
  else varName subordinate.native_id subordinate.getUniqueId

/-- The body of the loop over the subordinates in the second loop over the features. -/
def keepSubordinate (self : MRMFeatureSelector) (result_names_set : List String)
    (feature : Feature ℚ) (subordinates_filtered : List (Feature ℚ))
    (subordinate : Feature ℚ) : List (Feature ℚ) :=
  if feature_name self feature subordinate ∈ result_names_set then
    subordinates_filtered ++ [subordinate]
  else subordinates_filtered

/-- The body of the second loop over the features. -/
def keepFeature (self : MRMFeatureSelector) (result_names_set : List String)
    (features_filtered : List (Feature ℚ)) (feature : Feature ℚ) : List (Feature ℚ) :=
  let subordinates_filtered :=
    feature.getSubordinates.foldl (keepSubordinate self result_names_set feature) []
  if subordinates_filtered.length ≠ 0 then
    features_filtered ++ [feature.setSubordinates subordinates_filtered]
  else features_filtered

/-- The second loop over the features: `features_filtered` for the names in
`result_names_set`. -/
def filter_features (self : MRMFeatureSelector) (result_names_set : List String)
    (features : List (Feature ℚ)) : List (Feature ℚ) :=
  features.foldl (keepFeature self result_names_set) []

/-- `MRMFeatureSelector::select_MRMFeature`, for the method `optimize` of the strategy:
the collection `features_filtered`. -/
def select_MRMFeature
    (optimize : List (ℚ × String) → (String → Option (List (Feature ℚ))) →
      Option (List String))
    (self : MRMFeatureSelector) (features : List (Feature ℚ)) : Option (List (Feature ℚ)) :=
  let s := buildSeries self features
  let time_to_name := sort s.time_to_name
  match run_segments optimize self time_to_name s.feature_name_map with
  | none => none
  | some result_names => some (filter_features self result_names features)

end MRMFeatureSelector

/-- `MRMFeatureSelectorScore::select_MRMFeature`: the inherited method with the
`optimize` of Strategy A. -/
def MRMFeatureSelectorScore.select_MRMFeature (self : MRMFeatureSelector) (m : CMath ℚ)
    (solve : LPWrapper → Nat → ℚ) (features : List (Feature ℚ)) :
    Option (List (Feature ℚ)) :=
  MRMFeatureSelector.select_MRMFeature (MRMFeatureSelectorScore.optimize self m solve) self
    features

/-- `MRMFeatureSelectorQMIP::select_MRMFeature`: the inherited method with the `optimize`
of Strategy B. -/
def MRMFeatureSelectorQMIP.select_MRMFeature (self : MRMFeatureSelector) (m : CMath ℚ)
    (solve : LPWrapper → Nat → ℚ) (features : List (Feature ℚ)) :
    Option (List (Feature ℚ)) :=
  MRMFeatureSelector.select_MRMFeature (MRMFeatureSelectorQMIP.optimize self m solve) self
    features

/-! ### The arithmetic of `int` in the neighbour range -/

/-- `INT_MAX` of the 32-bit type `int`. -/
def INT_MAX : ℤ := 2147483647

/-- `INT_MIN` of the 32-bit type `int`. -/
def INT_MIN : ℤ := -2147483648

/-- The value fits the type `int`. -/
def fitsInt (z : ℤ) : Prop := INT_MIN ≤ z ∧ z ≤ INT_MAX

instance (z : ℤ) : Decidable (fitsInt z) := by
  unfold fitsInt; infer_instance

/-- The result of an operation of type `int` with the exact value `z`: `none` when `z`
does not fit `int` (a signed overflow, or a conversion of a `double` out of the range of
`int`: undefined behaviour). -/
def checkedInt (z : ℤ) : Option ℤ := if fitsInt z then some z else none

/-- The conversion `(int)x` of a `size_t` value: the value modulo `2^32`, in the range
of `int`. -/
def sizeToInt (x : Nat) : ℤ := ((x : ℤ) + 2147483648) % 4294967296 - 2147483648

/-- The conversion of an `int` to the 64-bit type `size_t`: the value modulo `2^64`. -/
def intToSize (z : ℤ) : Nat := (z % 18446744073709551616).toNat

/-- The two statements
`const size_t start_iter = std::max((int)cnt1 - (int)nn_threshold_, 0);` and
`const size_t stop_iter = std::min((int)cnt1 + (int)nn_threshold_ + 1,
(int)time_to_name.size());` with the arithmetic of `int`: the pair
`(start_iter, stop_iter)`, or `none` when a conversion or a sum is not defined. -/
def MRMFeatureSelector.iter_range (self : MRMFeatureSelector) (cnt1 size : Nat) :
    Option (Nat × Nat) :=
  (checkedInt (MRMFeatureSelector.toInt self.nn_threshold_)).bind fun nn =>
  (checkedInt (sizeToInt cnt1 - nn)).bind fun a =>
  (checkedInt (sizeToInt cnt1 + nn)).bind fun b =>
  (checkedInt (b + 1)).bind fun c =>
  some (intToSize (max a 0), intToSize (min c (sizeToInt size)))

/-! ## Notions used to state the properties -/

/-- The number written by a list of decimal digits. -/
def digitsVal (l : List Char) : Nat := l.foldl (fun acc c => 10 * acc + (c.toNat - 48)) 0

/-- The type given to the columns of a model. -/
def MRMFeatureSelector.columnType (self : MRMFeatureSelector) : VariableType :=
  if self.variable_type_ = s_integer then VariableType.INTEGER else VariableType.CONTINUOUS

/-- The column that `_addVariable` appends. -/
def MRMFeatureSelector.newColumn (self : MRMFeatureSelector) (name : String) (bounded : Bool)
    (obj : ℚ) : Column :=
  ⟨name, 0, 1, if bounded then LPType.DOUBLE_BOUNDED else LPType.UNBOUNDED, self.columnType, obj⟩

/-- The model `p'` is the model `p` with further columns and rows appended. -/
def LPWrapper.Extends (p p' : LPWrapper) : Prop :=
  (∃ c, p'.cols = p.cols ++ c) ∧ (∃ r, p'.rows = p.rows ++ r) ∧ p'.sense = p.sense

/-- The build state `s'` is reached from `s` by appending columns and rows and inserting
names. -/
def Grows (s s' : BuildState) : Prop := s.1.Extends s'.1 ∧ s.2 ⊆ s'.2

/-- Every name of the set `variables` is the name of a column. -/
def Named (s : BuildState) : Prop := ∀ n ∈ s.2, n ∈ s.1.colNames

/-- A step of the build: the state grows and keeps `Named`. -/
def Step (s s' : BuildState) : Prop := Grows s s' ∧ (Named s → Named s')

/-- The assignment row of a group: coefficient `1` on the given columns, equal to `1`. -/
def assignmentRow (group : String) (indices : List Nat) : Row :=
  ⟨indices, List.replicate indices.length 1, group ++ "_constraint", 1, 1,
    LPType.DOUBLE_BOUNDED⟩

/-- The columns and the five rows that encode one pair of candidates are present in the
model `P`, the rows on the column indices `index1`, `index2`, `index_var_qp` and
`index_var_abs`. -/
def PairEncoded (self : MRMFeatureSelector) (P : LPWrapper) (name1 name2 qp : String)
    (score : ℚ) (index1 index2 index_var_qp index_var_abs : Nat) : Prop :=
  P.colNames[index1]? = some name1 ∧ P.colNames[index2]? = some name2 ∧
  P.cols[index_var_qp]? = some (self.newColumn qp true 0) ∧
  P.cols[index_var_abs]? = some (self.newColumn (qp ++ "-ABS") false 1) ∧
  (⟨[index1, index_var_qp], [1, -1], qp ++ "-QP1", 0, 1, LPType.LOWER_BOUND_ONLY⟩ : Row)
    ∈ P.rows ∧
  (⟨[index2, index_var_qp], [1, -1], qp ++ "-QP2", 0, 1, LPType.LOWER_BOUND_ONLY⟩ : Row)
    ∈ P.rows ∧
  (⟨[index1, index2, index_var_qp], [1, 1, -1], qp ++ "-QP3", 0, 1,
    LPType.UPPER_BOUND_ONLY⟩ : Row) ∈ P.rows ∧
  (⟨[index_var_abs, index_var_qp], [-1, score], qp ++ "-obj+", -1, 0,
    LPType.UPPER_BOUND_ONLY⟩ : Row) ∈ P.rows ∧
  (⟨[index_var_abs, index_var_qp], [-1, -score], qp ++ "-obj-", -1, 0,
    LPType.UPPER_BOUND_ONLY⟩ : Row) ∈ P.rows

/-! ## Example data -/

/-- Stand-ins for the functions of `<cmath>` in the examples (the identity for the
logarithms, the base for the power). -/
def exMath : CMath ℚ := ⟨fun x => x, fun x => x, fun x _ => x⟩

/-- A feature without subordinates, with the given unique id, retention time, peak area
and signal-to-noise ratio. -/
def exFeature (uid : Nat) (rt peak sn : ℚ) : Feature ℚ := Feature.mk uid rt "" "" 0 peak sn []

/-- The default parameters with variable type "integer". -/
def exInteger : MRMFeatureSelector := { getDefaultParameters with variable_type_ := s_integer }

/-- Two groups: `A` with two candidates and `B` with one, all at retention time `5`; the
group `E` has no candidate. -/
def exMap : String → Option (List (Feature ℚ)) := fun g =>
  if g = "A" then some [exFeature 1 5 2 3, exFeature 2 5 3 4]
  else if g = "B" then some [exFeature 3 5 2 2]
  else if g = "E" then some []
  else none

/-- The window of the groups `A` and `B`, both expected at time `5`. -/
def exWindow : List (ℚ × String) := [(5, "A"), (5, "B")]

/-- The model of Strategy B for the example window. -/
def exQMIP : BuildState :=
  (MRMFeatureSelectorQMIP.buildProblem exInteger exMath exWindow exMap).getD (LPWrapper.new, [])

/-- Window length `1` with step length `2`. -/
def exShortWindow : MRMFeatureSelector :=
  { getDefaultParameters with segment_window_length_ := 1, segment_step_length_ := 2 }

/-- Window and step length `5/2`. -/
def exFractionalStep : MRMFeatureSelector :=
  { getDefaultParameters with segment_window_length_ := 5 / 2, segment_step_length_ := 5 / 2 }


/-- The default parameters with the locality weighting switched on. -/
def exLocality : MRMFeatureSelector := { getDefaultParameters with locality_weight_ := true }


/-- A window that refers to the group `A` twice. -/
def exRepeated : List (ℚ × String) := [(5, "A"), (6, "A")]

/-- A window with the group `E`, which has no candidate. -/
def exEmptyGroup : List (ℚ × String) := [(5, "A"), (5, "E")]

/-- The assignment `1, 0, 0, …` of values to the column indices. -/
def exFirstOnly : Nat → ℚ := fun c => if c = 0 then 1 else 0


/-- The columns `idxs` of the model `p` are the selection variables of the candidates
`feats` of the group `g`, each with the linear score as objective coefficient. -/
def ColumnsOf (self : MRMFeatureSelector) (m : CMath ℚ) (p : LPWrapper) (g : String)
    (idxs : List Nat) (feats : List (Feature ℚ)) : Prop :=
  List.Forall₂ (fun idx f => p.cols[idx]? =
    some (self.newColumn (varName g f.getUniqueId) true
      (MRMFeatureSelectorScore.make_score m f))) idxs feats

/-- The state of the build of Strategy A after the groups `pre` of the window and the
candidates `fpre` of the next group `g`: `cs` is the vector `constraints`. -/
def ScoreState (self : MRMFeatureSelector) (m : CMath ℚ)
    (fm : String → Option (List (Feature ℚ))) (pre : List (ℚ × String)) (g : String)
    (fpre : List (Feature ℚ)) (cs : List Nat) (s : BuildState) : Prop :=
  s.1.colNames.Nodup ∧
  (∀ n, n ∈ s.2 ↔ n ∈ s.1.colNames) ∧
  (∀ n ∈ s.2, (∃ e ∈ pre, ∃ u, n = varName e.2 u) ∨
    ∃ f ∈ fpre, n = varName g f.getUniqueId) ∧
  (∀ c ∈ s.1.cols, c.lb = 0 ∧ c.ub = 1 ∧ c.boundType = LPType.DOUBLE_BOUNDED ∧
    c.varType = self.columnType) ∧
  (∀ r ∈ s.1.rows, ∃ e ∈ pre, ∃ feats idxs, fm e.2 = some feats ∧
    r = assignmentRow e.2 idxs ∧ ColumnsOf self m s.1 e.2 idxs feats) ∧
  (∀ e ∈ pre, ∀ feats, fm e.2 = some feats →
    ∃ idxs, assignmentRow e.2 idxs ∈ s.1.rows ∧ ColumnsOf self m s.1 e.2 idxs feats) ∧
  ColumnsOf self m s.1 g cs fpre ∧
  s.1.sense = Sense.MIN


/-- The model `p` with the columns and the five rows of one pair of candidates, as
appended by the body of the innermost loop of Strategy B. -/
def MRMFeatureSelectorQMIP.withPair (self : MRMFeatureSelector) (p : LPWrapper)
    (name1 name2 qp : String) (score : ℚ) : LPWrapper :=
  { sense := p.sense
    cols := p.cols ++ [self.newColumn qp true 0, self.newColumn (qp ++ "-ABS") false 1]
    rows := p.rows ++
      [⟨[(p.colNames ++ [qp, qp ++ "-ABS"]).indexOf name1, p.cols.length], [1, -1],
          qp ++ "-QP1", 0, 1, LPType.LOWER_BOUND_ONLY⟩,
        ⟨[(p.colNames ++ [qp, qp ++ "-ABS"]).indexOf name2, p.cols.length], [1, -1],
          qp ++ "-QP2", 0, 1, LPType.LOWER_BOUND_ONLY⟩,
        ⟨[(p.colNames ++ [qp, qp ++ "-ABS"]).indexOf name1,
            (p.colNames ++ [qp, qp ++ "-ABS"]).indexOf name2, p.cols.length], [1, 1, -1],
          qp ++ "-QP3", 0, 1, LPType.UPPER_BOUND_ONLY⟩,
        ⟨[p.cols.length + 1, p.cols.length], [-1, score], qp ++ "-obj+", -1, 0,
          LPType.UPPER_BOUND_ONLY⟩,
        ⟨[p.cols.length + 1, p.cols.length], [-1, -score], qp ++ "-obj-", -1, 0,
          LPType.UPPER_BOUND_ONLY⟩] }

/-- The state `s` with the selection variable `name` added. -/
def withSelection (self : MRMFeatureSelector) (s : BuildState) (name : String) : BuildState :=
  ({ s.1 with cols := s.1.cols ++ [self.newColumn name true 0] }, name :: s.2)

/-- The state `s` with the assignment row of a group added. -/
def withAssignment (s : BuildState) (group : String) (indices : List Nat) : BuildState :=
  ({ s.1 with rows := s.1.rows ++ [assignmentRow group indices] }, s.2)

/-- The name `n` is the name of the selection variable of a candidate of a group of the
window. -/
def SelectionName (time_to_name : List (ℚ × String))
    (fm : String → Option (List (Feature ℚ))) (n : String) : Prop :=
  ∃ e ∈ time_to_name, ∃ feats, fm e.2 = some feats ∧ ∃ f ∈ feats, n = varName e.2 f.getUniqueId

/-- The columns `idxs` carry the names of the selection variables of the candidates
`feats` of the group `g`, and these names are in the set `variables`. -/
def SelectionColumns (s : BuildState) (g : String) (idxs : List Nat)
    (feats : List (Feature ℚ)) : Prop :=
  List.Forall₂ (fun idx f => s.1.colNames[idx]? = some (varName g f.getUniqueId) ∧
    varName g f.getUniqueId ∈ s.2) idxs feats


/-- A property of build states that is kept by the three kinds of steps of the build of
Strategy B: a new selection variable, the columns and rows of a pair, and the assignment
row of a group. -/
structure QMIPInvariant (cfg : MRMFeatureSelector) (m : CMath ℚ)
    (time_to_name : List (ℚ × String)) (fm : String → Option (List (Feature ℚ)))
    (I : BuildState → Prop) : Prop where
  sel : ∀ s n, I s → Named s → n ∉ s.2 → SelectionName time_to_name fm n →
    I (withSelection cfg s n)
  pair : ∀ s cnt1 cnt2 e1 e2 row1 row2 i j f1 f2, I s → Named s →
    time_to_name[cnt1]? = some e1 → fm e1.2 = some row1 → row1[i]? = some f1 →
    cnt2 ∈ cfg.neighbours cnt1 time_to_name.length →
    time_to_name[cnt2]? = some e2 → fm e2.2 = some row2 → row2[j]? = some f2 →
    varName e1.2 f1.getUniqueId ∈ s.2 → varName e2.2 f2.getUniqueId ∈ s.2 →
    I (MRMFeatureSelectorQMIP.withPair cfg s.1 (varName e1.2 f1.getUniqueId)
      (varName e2.2 f2.getUniqueId) (MRMFeatureSelectorQMIP.qpName e1.2 i e2.2 j)
      (MRMFeatureSelectorQMIP.pairScore cfg m (cfg.start_iter cnt1) cnt1 cnt2 e1 e2 f1 f2),
      s.2)
  row : ∀ s e feats cs, I s → Named s → e ∈ time_to_name → fm e.2 = some feats →
    SelectionColumns s e.2 cs feats → I (withAssignment s e.2 cs)


/-- The model of Strategy A for the example window. -/
def exScore : BuildState :=
  (MRMFeatureSelectorScore.buildProblem exInteger exMath exWindow exMap).getD (LPWrapper.new, [])

/-- Every name of the set `variables` has a bounded column. -/
def SelectionBounded (self : MRMFeatureSelector) (s : BuildState) : Prop :=
  ∀ n ∈ s.2, self.newColumn n true 0 ∈ s.1.cols


/-- Three groups, one of them named `A_0-B` like the pair variable of the candidates `0`
of the groups `A` and `B`; all candidates are at the expected time. -/
def exCollisionMap : String → Option (List (Feature ℚ)) := fun g =>
  if g = "A_0-B" then some [exFeature 0 5 2 3, exFeature 1 5 2 3]
  else if g = "A" then some [exFeature 7 5 2 3]
  else if g = "B" then some [exFeature 8 5 2 3]
  else none

/-- The window of the three groups `A_0-B`, `A` and `B`. -/
def exCollisionWindow : List (ℚ × String) := [(5, "A_0-B"), (5, "A"), (5, "B")]

/-- An assignment for the model of Strategy B of the window `exCollisionWindow`: the
candidates `A_0-B_1`, `A_7` and `B_8` are chosen, every pair variable is the product of
its two selection variables, every deviation variable is `0`. -/
def exCollisionValues : Nat → ℚ := fun c =>
  ([0, 1, 0, 0, 1, 0, 0, 1, 1, 0, 1, 0, 0, 0, 1, 0, 1, 0, 0, 0, 1, 0, 1, 0] : List ℚ).getD c 0

/-- The assignment `1/2, 1/2, 1` for the model of Strategy A of the example window. -/
def exHalves : Nat → ℚ := fun c => ([1 / 2, 1 / 2, 1] : List ℚ).getD c 0

/-- The assignment that chooses the first candidate of `A` and the candidate of `B` in
the model of Strategy A of the example window. -/
def exScoreValues : Nat → ℚ := fun c => ([1, 0, 1] : List ℚ).getD c 0

/-- The assignment that chooses the first candidate of `A` and the candidate of `B` in
the model of Strategy B of the example window. -/
def exQMIPValues : Nat → ℚ := fun c => ([1, 1, 1, 0, 0, 0, 0, 1, 0, 0, 0] : List ℚ).getD c 0


/-- The name `n` is the name of the selection variable of the first candidate of a group
of the window. -/
def Chosen (time_to_name : List (ℚ × String)) (fm : String → Option (List (Feature ℚ)))
    (n : String) : Prop :=
  ∃ e ∈ time_to_name, ∃ f rest, fm e.2 = some (f :: rest) ∧ n = varName e.2 f.getUniqueId

/-- The model of the build state has a feasible point `v` with objective value `0` (each
column contributes `0`) that gives the value `1` to the selection variable of the first
candidate of every group and `0` to the selection variables of the other candidates. -/
def ZeroSolvable (time_to_name : List (ℚ × String)) (fm : String → Option (List (Feature ℚ)))
    (s : BuildState) : Prop :=
  ∃ v : List ℚ, v.length = s.1.cols.length ∧
    (∀ (i : Nat) (c : Column), s.1.cols[i]? = some c →
      c.OK (v.getD i 0) ∧ c.obj * v.getD i 0 = 0) ∧
    (∀ r ∈ s.1.rows, r.OK (fun i => v.getD i 0) ∧ ∀ i ∈ r.indices, i < s.1.cols.length) ∧
    (∀ (i : Nat) (n : String), s.1.colNames[i]? = some n → SelectionName time_to_name fm n →
      (Chosen time_to_name fm n → v.getD i 0 = 1) ∧
      (¬ Chosen time_to_name fm n → v.getD i 0 = 0))

/-- No pair or deviation variable of the window has the name of a selection variable. -/
def NoCollision (self : MRMFeatureSelector) (time_to_name : List (ℚ × String))
    (fm : String → Option (List (Feature ℚ))) : Prop :=
  ∀ (cnt1 cnt2 i j : Nat) (e1 e2 : ℚ × String) (n : String),
    time_to_name[cnt1]? = some e1 → time_to_name[cnt2]? = some e2 →
    cnt2 ∈ self.neighbours cnt1 time_to_name.length → SelectionName time_to_name fm n →
    n ≠ MRMFeatureSelectorQMIP.qpName e1.2 i e2.2 j ∧
    n ≠ MRMFeatureSelectorQMIP.qpName e1.2 i e2.2 j ++ "-ABS"

/-- Every pair of candidates that the build visits has the score `0`. -/
def ZeroScores (self : MRMFeatureSelector) (m : CMath ℚ) (time_to_name : List (ℚ × String))
    (fm : String → Option (List (Feature ℚ))) : Prop :=
  ∀ (cnt1 cnt2 i j : Nat) (e1 e2 : ℚ × String) (row1 row2 : List (Feature ℚ))
    (f1 f2 : Feature ℚ),
    time_to_name[cnt1]? = some e1 → fm e1.2 = some row1 → row1[i]? = some f1 →
    cnt2 ∈ self.neighbours cnt1 time_to_name.length →
    time_to_name[cnt2]? = some e2 → fm e2.2 = some row2 → row2[j]? = some f2 →
    MRMFeatureSelectorQMIP.pairScore self m (self.start_iter cnt1) cnt1 cnt2 e1 e2 f1 f2 = 0


/-- Every column has the objective coefficient `0`, or it has the coefficient `1` and is
the deviation variable of a pair of rows `-e + sc * q ≤ 0` and `-e - sc * q ≤ 0`. -/
def DeviationBounded (s : BuildState) : Prop :=
  ∀ (i : Nat) (c : Column), s.1.cols[i]? = some c → c.obj = 0 ∨
    (c.obj = 1 ∧ ∃ (iq : Nat) (sc : ℚ) (np nm : String),
      (⟨[i, iq], [-1, sc], np, -1, 0, LPType.UPPER_BOUND_ONLY⟩ : Row) ∈ s.1.rows ∧
      (⟨[i, iq], [-1, -sc], nm, -1, 0, LPType.UPPER_BOUND_ONLY⟩ : Row) ∈ s.1.rows)


/-- Two groups at retention time `5`: `D` with two candidates of the same unique id `1`,
and `B` with one candidate. -/
def exDuplicateMap : String → Option (List (Feature ℚ)) := fun g =>
  if g = "D" then some [exFeature 1 5 2 3, exFeature 1 5 3 4]
  else if g = "B" then some [exFeature 3 5 2 2]
  else none

/-- The window of the groups `D` and `B`, both expected at time `5`. -/
def exDuplicateWindow : List (ℚ × String) := [(5, "D"), (5, "B")]

/-- The default parameters with the window and step lengths `-1`. -/
def exAuto : MRMFeatureSelector :=
  { getDefaultParameters with segment_window_length_ := -1, segment_step_length_ := -1 }

/-- The default parameters with `select_transition_group_` switched off. -/
def exTransitions : MRMFeatureSelector :=
  { getDefaultParameters with select_transition_group_ := false }

/-- A subordinate feature with the given unique id and `native_id`. -/
def exSub (uid : Nat) (native_id : String) : Feature ℚ :=
  Feature.mk uid 5 "" native_id 0 2 3 []

/-- A top-level feature with the given unique id, `PeptideRef`, `assay_rt` and
subordinates. -/
def exTop (uid : Nat) (ref : String) (assay_rt : ℚ) (subs : List (Feature ℚ)) : Feature ℚ :=
  Feature.mk uid assay_rt ref "" assay_rt 2 3 subs

/-- Two top-level features of the groups `A` and `B`, each with subordinates. -/
def exFeatures : List (Feature ℚ) :=
  [exTop 1 "A" 5 [exSub 11 "a1", exSub 12 "a2"], exTop 2 "B" 6 [exSub 21 "b1"]]

/-- The subordinates of `feature` that the second loop of `select_MRMFeature` keeps, as a
filter of the list of subordinates. -/
def keptSubordinates (self : MRMFeatureSelector) (result_names_set : List String)
    (feature : Feature ℚ) : List (Feature ℚ) :=
  feature.getSubordinates.filter fun subordinate =>
    decide (feature_name self feature subordinate ∈ result_names_set)

/-- The entry of the output for `feature`, if any: the feature with its kept
subordinates, unless there is none. -/
def keptFeature (self : MRMFeatureSelector) (result_names_set : List String)
    (feature : Feature ℚ) : Option (Feature ℚ) :=
  if (keptSubordinates self result_names_set feature).length ≠ 0 then
    some (feature.setSubordinates (keptSubordinates self result_names_set feature))
  else none

/-- The state `s'` is reached from `s` by appending columns: the auxiliary columns with
the names `aux`, and one column for every name that has been inserted into the set
`variables`. -/
def Adds (s s' : BuildState) (aux : List String) : Prop :=
  s.2 ⊆ s'.2 ∧ ∀ n, s'.1.colNames.count n + (if n ∈ s.2 then 1 else 0) =
    s.1.colNames.count n + aux.count n + (if n ∈ s'.2 then 1 else 0)

/-- The names of the pair variable and of the deviation variable of candidate `i` of the
group of `e1` and candidate `j` of the group of `e2`. -/
def pairNames (e1 : ℚ × String) (i : Nat) (e2 : ℚ × String) (j : Nat) : List String :=
  [MRMFeatureSelectorQMIP.qpName e1.2 i e2.2 j,
    MRMFeatureSelectorQMIP.qpName e1.2 i e2.2 j ++ "-ABS"]

/-- The names of the auxiliary variables of candidate `i` of the group of `e1` with the
candidates of the group at the position `cnt2`. -/
def neighbourNames (time_to_name : List (ℚ × String))
    (fm : String → Option (List (Feature ℚ))) (e1 : ℚ × String) (i : Nat) (cnt2 : Nat) :
    List String :=
  match time_to_name[cnt2]? with
  | none => []
  | some e2 =>
    match fm e2.2 with
    | none => []
    | some row2 => row2.enum.flatMap fun jf => pairNames e1 i e2 jf.1

/-- The names of the auxiliary variables of candidate `i` of the group of `e1`, at the
position `cnt1`, with the candidates of the neighbour groups. -/
def candidateNames (self : MRMFeatureSelector) (time_to_name : List (ℚ × String))
    (fm : String → Option (List (Feature ℚ))) (cnt1 : Nat) (e1 : ℚ × String) (i : Nat) :
    List String :=
  (self.neighbours cnt1 time_to_name.length).flatMap (neighbourNames time_to_name fm e1 i)

/-- The names of the auxiliary variables of the candidates of the group at the position
`cnt1`. -/
def positionNames (self : MRMFeatureSelector) (time_to_name : List (ℚ × String))
    (fm : String → Option (List (Feature ℚ))) (cnt1 : Nat) : List String :=
  match time_to_name[cnt1]? with
  | none => []
  | some e1 =>
    match fm e1.2 with
    | none => []
    | some row1 => row1.enum.flatMap fun ifeat =>
        candidateNames self time_to_name fm cnt1 e1 ifeat.1

/-- The names of the pair and deviation variables of all pairs of candidates that the
build of Strategy B visits, in the order of the visits. -/
def auxNames (self : MRMFeatureSelector) (time_to_name : List (ℚ × String))
    (fm : String → Option (List (Feature ℚ))) : List String :=
  (List.range time_to_name.length).flatMap (positionNames self time_to_name fm)

/-- A solver that returns the value `1` for every column. -/
def exOnes : LPWrapper → Nat → ℚ := fun _ _ => 1

/-- The model of Strategy B for the window `exDuplicateWindow`. -/
def exDuplicate : BuildState :=
  (MRMFeatureSelectorQMIP.buildProblem exInteger exMath exDuplicateWindow
    exDuplicateMap).getD (LPWrapper.new, [])

/-- The divisor `nn_threshold_ - std::abs((int)start_iter + (int)cnt2 - (int)cnt1) + 1`
of the locality weight. -/
def MRMFeatureSelector.locality_denominator (self : MRMFeatureSelector)
    (start_iter cnt1 cnt2 : Nat) : ℚ :=
  self.nn_threshold_ - ((|(start_iter : ℤ) + (cnt2 : ℤ) - (cnt1 : ℤ)| : ℤ) : ℚ) + 1

/-- The default parameters with the locality weighting switched on and `nn_threshold_`
`1`. -/
def exNarrow : MRMFeatureSelector :=
  { getDefaultParameters with nn_threshold_ := 1, locality_weight_ := true }

/-- A top-level feature whose `PeptideRef` contains a space, with one subordinate. -/
def exSpaced : Feature ℚ := exTop 1 "A B" 5 [exSub 11 "a1"]

/-- The default parameters with `nn_threshold_` `3000000000`, which exceeds `INT_MAX`. -/
def exHuge : MRMFeatureSelector := { getDefaultParameters with nn_threshold_ := 3000000000 }

/-- The window of the groups `A`, `B` and `A_0-B`, in this order. -/
def exPairFirst : List (ℚ × String) := [(5, "A"), (5, "B"), (5, "A_0-B")]

/-- The model of Strategy B for the window `exPairFirst`. -/
def exPairFirstModel : BuildState :=
  (MRMFeatureSelectorQMIP.buildProblem exInteger exMath exPairFirst exCollisionMap).getD
    (LPWrapper.new, [])

/-- The quality metrics of `f` give a finite quality score in
`MRMFeatureSelectorQMIP::make_score`: the peak area and the signal-to-noise ratio are
positive, so that `std::log10` and `std::log` return a number, and neither logarithm is
`0`, so that `pow(·, -1)` does not return an infinity. -/
def FiniteQualityScore (m : CMath ℚ) (f : Feature ℚ) : Prop :=
  0 < f.peak_apices_sum ∧ m.log10 f.peak_apices_sum ≠ 0 ∧
  0 < f.sn_ratio ∧ m.log f.sn_ratio ≠ 0

instance (m : CMath ℚ) (f : Feature ℚ) : Decidable (FiniteQualityScore m f) := by
  unfold FiniteQualityScore
  exact inferInstance

/-! # Lemmas -/

/-! ## Loops -/

theorem forEach_append {α σ : Type} (body : α → σ → Option σ) (l1 l2 : List α) (s : σ) :
    forEach body (l1 ++ l2) s = (forEach body l1 s).bind (forEach body l2) := by
  induction l1 generalizing s with
  | nil => rfl
  | cons a l ih =>
    simp only [List.cons_append, forEach]
    cases body a s with
    | none => rfl
    | some s' => exact ih s'

theorem forEach_rel {α σ : Type} (R : σ → σ → Prop) (hrefl : ∀ s, R s s)
    (htrans : ∀ a b c, R a b → R b c → R a c) (body : α → σ → Option σ) (l : List α)
    (hbody : ∀ a ∈ l, ∀ s s', body a s = some s' → R s s') :
    ∀ s s', forEach body l s = some s' → R s s' := by
  induction l with
  | nil =>
    intro s s' h
    simp only [forEach, Option.some.injEq] at h
    exact h ▸ hrefl s
  | cons a l ih =>
    intro s s' h
    simp only [forEach] at h
    cases hb : body a s with
    | none => rw [hb] at h; exact absurd h (by simp)
    | some t =>
      rw [hb] at h
      exact htrans _ _ _ (hbody a (List.mem_cons_self _ _) s t hb)
        (ih (fun b hb' => hbody b (List.mem_cons_of_mem _ hb')) t s' h)

theorem forEach_inv {α σ : Type} (I : σ → Prop) (body : α → σ → Option σ) (l : List α)
    (hbody : ∀ a ∈ l, ∀ s s', I s → body a s = some s' → I s') :
    ∀ s s', I s → forEach body l s = some s' → I s' := by
  induction l with
  | nil =>
    intro s s' hI h
    simp only [forEach, Option.some.injEq] at h
    exact h ▸ hI
  | cons a l ih =>
    intro s s' hI h
    simp only [forEach] at h
    cases hb : body a s with
    | none => rw [hb] at h; exact absurd h (by simp)
    | some t =>
      rw [hb] at h
      exact ih (fun b hb' => hbody b (List.mem_cons_of_mem _ hb')) t s'
        (hbody a (List.mem_cons_self _ _) s t hI hb) h

theorem forEach_total {α σ : Type} (I : σ → Prop) (body : α → σ → Option σ) (l : List α)
    (hbody : ∀ a ∈ l, ∀ s, I s → ∃ s', body a s = some s' ∧ I s') :
    ∀ s, I s → ∃ s', forEach body l s = some s' ∧ I s' := by
  induction l with
  | nil => intro s hI; exact ⟨s, rfl, hI⟩
  | cons a l ih =>
    intro s hI
    obtain ⟨t, ht, hIt⟩ := hbody a (List.mem_cons_self _ _) s hI
    obtain ⟨s', hs', hIs'⟩ := ih (fun b hb' => hbody b (List.mem_cons_of_mem _ hb')) t hIt
    exact ⟨s', by simp only [forEach, ht, hs'], hIs'⟩

/-- Every element of the list is the argument of one run of the body, which starts in a
state reached from the initial one and ends in a state from which the final one is
reached. -/
theorem forEach_mem {α σ : Type} (R : σ → σ → Prop) (hrefl : ∀ s, R s s)
    (htrans : ∀ a b c, R a b → R b c → R a c) (body : α → σ → Option σ) (l : List α)
    (hbody : ∀ a ∈ l, ∀ s s', body a s = some s' → R s s') (a : α) (ha : a ∈ l)
    (s s' : σ) (h : forEach body l s = some s') :
    ∃ sa sb, R s sa ∧ body a sa = some sb ∧ R sb s' := by
  obtain ⟨l1, l2, rfl⟩ := List.append_of_mem ha
  rw [forEach_append] at h
  cases h1 : forEach body l1 s with
  | none => rw [h1] at h; exact absurd h (by simp)
  | some sa =>
    rw [h1] at h
    simp only [Option.some_bind, forEach] at h
    cases hb : body a sa with
    | none => rw [hb] at h; exact absurd h (by simp)
    | some sb =>
      rw [hb] at h
      refine ⟨sa, sb, ?_, hb, ?_⟩
      · exact forEach_rel R hrefl htrans body l1
          (fun b hb' => hbody b (List.mem_append_left _ hb')) s sa h1
      · exact forEach_rel R hrefl htrans body l2
          (fun b hb' => hbody b (List.mem_append_right _ (List.mem_cons_of_mem _ hb'))) sb s' h

theorem forEach_prefix_inv {α σ : Type} (I : List α → σ → Prop) (body : α → σ → Option σ)
    (l : List α)
    (hbody : ∀ pre a post s s', l = pre ++ a :: post → I pre s → body a s = some s' →
      I (pre ++ [a]) s')
    (s s' : σ) (h0 : I [] s) (h : forEach body l s = some s') : I l s' := by
  have key : ∀ (post pre : List α) (s : σ), l = pre ++ post → I pre s →
      forEach body post s = some s' → I l s' := by
    intro post
    induction post with
    | nil =>
      intro pre s hl hI h
      simp only [forEach, Option.some.injEq] at h
      rw [hl, List.append_nil, ← h]
      exact hI
    | cons a post ih =>
      intro pre s hl hI h
      simp only [forEach] at h
      cases hb : body a s with
      | none => rw [hb] at h; exact absurd h (by simp)
      | some t =>
        rw [hb] at h
        exact ih (pre ++ [a]) t (by rw [hl, List.append_assoc]; rfl)
          (hbody pre a post s t hl hI hb) h
  exact key l [] s rfl h0 h

/-! ## Adding columns and rows -/

theorem updateAt_length_append {α : Type} (f : α → α) (l : List α) (a : α) :
    updateAt f (l ++ [a]) l.length = l ++ [f a] := by
  induction l with
  | nil => rfl
  | cons b l ih =>
    show b :: updateAt f (l ++ [a]) l.length = b :: (l ++ [f a])
    rw [ih]

theorem MRMFeatureSelector._addVariable_eq (self : MRMFeatureSelector) (h : self.Supported)
    (p : LPWrapper) (name : String) (bounded : Bool) (obj : ℚ) :
    self._addVariable p name bounded obj =
      some ({ p with cols := p.cols ++ [self.newColumn name bounded obj] }, p.cols.length) := by
  unfold _addVariable LPWrapper.addColumn
  simp only [LPWrapper.setColumnBounds, LPWrapper.setColumnName, LPWrapper.setColumnType,
    LPWrapper.setObjective, newColumn, columnType]
  cases bounded <;> rcases h with h | h <;>
    simp [h, updateAt_length_append, s_integer, s_continuous]

theorem MRMFeatureSelector._addVariable_none (self : MRMFeatureSelector) (h : ¬ self.Supported)
    (p : LPWrapper) (name : String) (bounded : Bool) (obj : ℚ) :
    self._addVariable p name bounded obj = none := by
  unfold _addVariable
  simp only [Supported, not_or] at h
  simp [h.1, h.2]

theorem getElem?_append_two {α : Type} (l : List α) (a b : α) :
    (l ++ [a, b])[l.length]? = some a ∧ (l ++ [a, b])[l.length + 1]? = some b := by
  constructor
  · rw [List.getElem?_append_right (Nat.le_refl _)]; simp
  · rw [List.getElem?_append_right (Nat.le_add_right _ _)]; simp

/-! ## Names of variables -/

theorem digitsVal_append (l : List Char) (c : Char) :
    digitsVal (l ++ [c]) = 10 * digitsVal l + (c.toNat - 48) := by
  simp [digitsVal, List.foldl_append]

theorem digitChar_val (k : Nat) (hk : k < 10) : (Nat.digitChar k).toNat - 48 = k := by
  interval_cases k <;> rfl

theorem digitChar_ne (k : Nat) (hk : k < 10) :
    Nat.digitChar k ≠ '_' ∧ Nat.digitChar k ≠ '-' := by
  interval_cases k <;> decide

theorem toDigitsCore_spec (fuel : Nat) : ∀ (n : Nat) (ds : List Char), n < fuel →
    ∃ l, Nat.toDigitsCore 10 fuel n ds = l ++ ds ∧ digitsVal l = n ∧
      ∀ c ∈ l, c ≠ '_' ∧ c ≠ '-' := by
  induction fuel with
  | zero => intro n ds h; exact absurd h (Nat.not_lt_zero _)
  | succ fuel ih =>
    intro n ds h
    have hd : n % 10 < 10 := Nat.mod_lt _ (by decide)
    by_cases h0 : n / 10 = 0
    · refine ⟨[Nat.digitChar (n % 10)], ?_, ?_, ?_⟩
      · simp [Nat.toDigitsCore, h0]
      · have : n % 10 = n := by omega
        simpa [digitsVal, this] using digitChar_val n (by omega)
      · intro c hc
        simp only [List.mem_singleton] at hc
        exact hc ▸ digitChar_ne _ hd
    · obtain ⟨l, hl, hv, hc⟩ := ih (n / 10) (Nat.digitChar (n % 10) :: ds) (by omega)
      refine ⟨l ++ [Nat.digitChar (n % 10)], ?_, ?_, ?_⟩
      · simp [Nat.toDigitsCore, h0, hl]
      · rw [digitsVal_append, hv, digitChar_val _ hd]; omega
      · intro c hc'
        rcases List.mem_append.1 hc' with h1 | h1
        · exact hc c h1
        · simp only [List.mem_singleton] at h1
          exact h1 ▸ digitChar_ne _ hd

theorem toString_data_spec (n : Nat) :
    digitsVal (toString n).data = n ∧ ∀ c ∈ (toString n).data, c ≠ '_' ∧ c ≠ '-' := by
  obtain ⟨l, hl, hv, hc⟩ := toDigitsCore_spec (n + 1) n [] (Nat.lt_succ_self n)
  have : (toString n).data = l := by
    show Nat.toDigitsCore 10 (n + 1) n [] = l
    simpa using hl
  rw [this]
  exact ⟨hv, hc⟩

theorem toString_nat_inj {u v : Nat} (h : toString u = toString v) : u = v := by
  have hu := (toString_data_spec u).1
  have hv := (toString_data_spec v).1
  rw [h] at hu
  exact hu.symm.trans hv

theorem split_at_first {α : Type} (x : α) : ∀ (l1 l2 r1 r2 : List α), x ∉ l1 → x ∉ l2 →
    l1 ++ x :: r1 = l2 ++ x :: r2 → l1 = l2 ∧ r1 = r2 := by
  intro l1
  induction l1 with
  | nil =>
    intro l2 r1 r2 _ h2 h
    cases l2 with
    | nil => simpa using h
    | cons b l2 =>
      simp only [List.nil_append, List.cons_append, List.cons.injEq] at h
      exact absurd (h.1 ▸ List.mem_cons_self _ _) h2
  | cons a l1 ih =>
    intro l2 r1 r2 h1 h2 h
    cases l2 with
    | nil =>
      simp only [List.nil_append, List.cons_append, List.cons.injEq] at h
      exact absurd (h.1 ▸ List.mem_cons_self _ _) h1
    | cons b l2 =>
      simp only [List.cons_append, List.cons.injEq] at h
      obtain ⟨e1, e2⟩ := ih l2 r1 r2 (fun hm => h1 (List.mem_cons_of_mem _ hm))
        (fun hm => h2 (List.mem_cons_of_mem _ hm)) h.2
      exact ⟨by rw [h.1, e1], e2⟩

theorem split_at_last {α : Type} (x : α) (a b d e : List α) (hd : x ∉ d) (he : x ∉ e)
    (h : a ++ x :: d = b ++ x :: e) : a = b ∧ d = e := by
  have h' := congrArg List.reverse h
  simp only [List.reverse_append, List.reverse_cons, List.append_assoc, List.singleton_append]
    at h'
  obtain ⟨e1, e2⟩ := split_at_first x d.reverse e.reverse a.reverse b.reverse
    (by simpa using hd) (by simpa using he) h'
  exact ⟨List.reverse_injective e2, List.reverse_injective e1⟩

theorem MRMFeatureSelector.varName_data (g : String) (u : Nat) :
    (varName g u).data = g.data ++ '_' :: (toString u).data := by
  simp [varName, String.data_append]

/-- The name of a variable determines the group and the id. -/
theorem MRMFeatureSelector.varName_inj {g1 g2 : String} {u1 u2 : Nat} (h : varName g1 u1 = varName g2 u2) :
    g1 = g2 ∧ u1 = u2 := by
  have h' := congrArg String.data h
  rw [varName_data, varName_data] at h'
  obtain ⟨e1, e2⟩ := split_at_last '_' _ _ _ _
    (fun hm => ((toString_data_spec u1).2 _ hm).1 rfl)
    (fun hm => ((toString_data_spec u2).2 _ hm).1 rfl) h'
  exact ⟨String.ext e1, toString_nat_inj (String.ext e2)⟩

/-! ## Growth of the model during a build -/

theorem LPWrapper.extends_refl (p : LPWrapper) : p.Extends p :=
  ⟨⟨[], (List.append_nil _).symm⟩, ⟨[], (List.append_nil _).symm⟩, rfl⟩

theorem LPWrapper.extends_trans {p q r : LPWrapper} (h1 : p.Extends q) (h2 : q.Extends r) :
    p.Extends r := by
  obtain ⟨⟨c1, hc1⟩, ⟨r1, hr1⟩, hs1⟩ := h1
  obtain ⟨⟨c2, hc2⟩, ⟨r2, hr2⟩, hs2⟩ := h2
  exact ⟨⟨c1 ++ c2, by rw [hc2, hc1, List.append_assoc]⟩,
    ⟨r1 ++ r2, by rw [hr2, hr1, List.append_assoc]⟩, hs2.trans hs1⟩

theorem LPWrapper.extends_row_mem {p q : LPWrapper} (h : p.Extends q) {r : Row}
    (hr : r ∈ p.rows) : r ∈ q.rows := by
  obtain ⟨_, ⟨r1, hr1⟩, _⟩ := h
  rw [hr1]
  exact List.mem_append_left _ hr

theorem LPWrapper.extends_col_get {p q : LPWrapper} (h : p.Extends q) {i : Nat} {c : Column}
    (hc : p.cols[i]? = some c) : q.cols[i]? = some c := by
  obtain ⟨⟨c1, hc1⟩, _, _⟩ := h
  rw [hc1]
  have hi : i < p.cols.length := by
    by_contra hcon
    rw [List.getElem?_eq_none (Nat.le_of_not_lt hcon)] at hc
    exact absurd hc (by simp)
  rw [List.getElem?_append_left hi]
  exact hc

theorem LPWrapper.colNames_of_col {p : LPWrapper} {i : Nat} {c : Column}
    (hc : p.cols[i]? = some c) : p.colNames[i]? = some c.name := by
  simp only [LPWrapper.colNames, List.getElem?_map, hc, Option.map_some']

theorem LPWrapper.extends_colNames_get {p q : LPWrapper} (h : p.Extends q) {i : Nat}
    {n : String} (hc : p.colNames[i]? = some n) : q.colNames[i]? = some n := by
  simp only [LPWrapper.colNames, List.getElem?_map, Option.map_eq_some'] at hc ⊢
  obtain ⟨c, hc1, hc2⟩ := hc
  exact ⟨c, LPWrapper.extends_col_get h hc1, hc2⟩

theorem LPWrapper.extends_colNames_mem {p q : LPWrapper} (h : p.Extends q) {n : String}
    (hn : n ∈ p.colNames) : n ∈ q.colNames := by
  obtain ⟨⟨c1, hc1⟩, _, _⟩ := h
  simp only [LPWrapper.colNames, hc1, List.map_append, List.mem_append]
  exact Or.inl hn

theorem LPWrapper.extends_length_le {p q : LPWrapper} (h : p.Extends q) :
    p.cols.length ≤ q.cols.length := by
  obtain ⟨⟨c1, hc1⟩, _, _⟩ := h
  simp [hc1]

theorem LPWrapper.extends_addCols (p : LPWrapper) (c : List Column) :
    p.Extends { p with cols := p.cols ++ c } :=
  ⟨⟨c, rfl⟩, ⟨[], (List.append_nil _).symm⟩, rfl⟩

theorem LPWrapper.extends_addRows (p : LPWrapper) (r : List Row) :
    p.Extends { p with rows := p.rows ++ r } :=
  ⟨⟨[], (List.append_nil _).symm⟩, ⟨r, rfl⟩, rfl⟩

theorem LPWrapper.getColumnIndex_get {p : LPWrapper} {n : String} (hn : n ∈ p.colNames) :
    p.colNames[p.getColumnIndex n]? = some n := by
  unfold LPWrapper.getColumnIndex
  have hlt : p.colNames.indexOf n < p.colNames.length := List.indexOf_lt_length.2 hn
  rw [List.getElem?_eq_getElem hlt]
  simp

theorem grows_refl (s : BuildState) : Grows s s :=
  ⟨LPWrapper.extends_refl _, fun _ h => h⟩

theorem grows_trans {a b c : BuildState} (h1 : Grows a b) (h2 : Grows b c) : Grows a c :=
  ⟨LPWrapper.extends_trans h1.1 h2.1, fun _ h => h2.2 (h1.2 h)⟩

theorem step_refl (s : BuildState) : Step s s := ⟨grows_refl s, fun h => h⟩

theorem step_trans {a b c : BuildState} (h1 : Step a b) (h2 : Step b c) : Step a c :=
  ⟨grows_trans h1.1 h2.1, fun h => h2.2 (h1.2 h)⟩

theorem MRMFeatureSelector._addVariable_some {self : MRMFeatureSelector} {p : LPWrapper}
    {name : String} {bounded : Bool} {obj : ℚ} {r : LPWrapper × Nat}
    (h : self._addVariable p name bounded obj = some r) :
    self.Supported ∧
      r = ({ p with cols := p.cols ++ [self.newColumn name bounded obj] }, p.cols.length) := by
  by_cases hs : self.Supported
  · rw [self._addVariable_eq hs] at h
    exact ⟨hs, (Option.some.inj h).symm⟩
  · rw [self._addVariable_none hs] at h
    exact absurd h (by simp)

theorem forEach_step {α : Type} (body : α → BuildState → Option BuildState) (l : List α)
    (hbody : ∀ a ∈ l, ∀ s s', body a s = some s' → Step s s') (s s' : BuildState)
    (h : forEach body l s = some s') : Step s s' :=
  forEach_rel Step step_refl (fun _ _ _ => step_trans) body l hbody s s' h

theorem forEach_stepC {α : Type}
    (body : α → BuildState × List Nat → Option (BuildState × List Nat)) (l : List α)
    (hbody : ∀ a ∈ l, ∀ s s', body a s = some s' → Step s.1 s'.1)
    (s s' : BuildState × List Nat) (h : forEach body l s = some s') : Step s.1 s'.1 :=
  forEach_rel (fun a b => Step a.1 b.1) (fun _ => step_refl _) (fun _ _ _ => step_trans)
    body l hbody s s' h

/-! ## Strategy A: the steps of the build -/

theorem columnsOf_mono {self : MRMFeatureSelector} {m : CMath ℚ} {p q : LPWrapper}
    (h : p.Extends q) {g : String} {idxs : List Nat} {feats : List (Feature ℚ)}
    (hc : ColumnsOf self m p g idxs feats) : ColumnsOf self m q g idxs feats := by
  unfold ColumnsOf at hc ⊢
  exact hc.imp fun _ _ hx => LPWrapper.extends_col_get h hx

theorem columnsOf_snoc {self : MRMFeatureSelector} {m : CMath ℚ} {p : LPWrapper}
    {g : String} {idxs : List Nat} {feats : List (Feature ℚ)}
    (hc : ColumnsOf self m p g idxs feats) (f : Feature ℚ) :
    ColumnsOf self m
      { p with cols := p.cols ++ [self.newColumn (varName g f.getUniqueId) true
        (MRMFeatureSelectorScore.make_score m f)] }
      g (idxs ++ [p.cols.length]) (feats ++ [f]) := by
  unfold ColumnsOf
  apply List.rel_append
  · exact (columnsOf_mono (LPWrapper.extends_addCols p _) hc)
  · refine List.Forall₂.cons ?_ List.Forall₂.nil
    simp

namespace MRMFeatureSelectorScore

theorem addFeature_some {self : MRMFeatureSelector} {m : CMath ℚ} {elem : ℚ × String}
    {feature : Feature ℚ} {s s' : BuildState × List Nat}
    (h : addFeature self m elem feature s = some s') :
    (varName elem.2 feature.getUniqueId ∈ s.1.2 ∧ s' = s) ∨
    (varName elem.2 feature.getUniqueId ∉ s.1.2 ∧ self.Supported ∧
      s' = (({ s.1.1 with cols := s.1.1.cols ++
        [self.newColumn (varName elem.2 feature.getUniqueId) true (make_score m feature)] },
        varName elem.2 feature.getUniqueId :: s.1.2), s.2 ++ [s.1.1.cols.length])) := by
  unfold addFeature at h
  by_cases hn : varName elem.2 feature.getUniqueId ∈ s.1.2
  · simp only [hn, if_true, Option.some.injEq] at h
    exact Or.inl ⟨hn, h.symm⟩
  · by_cases hs : self.Supported
    · simp only [hn, if_false, self._addVariable_eq hs, Option.some.injEq] at h
      exact Or.inr ⟨hn, hs, h.symm⟩
    · simp [hn, self._addVariable_none hs] at h

theorem addFeature_step {self : MRMFeatureSelector} {m : CMath ℚ} {elem : ℚ × String}
    {feature : Feature ℚ} {s s' : BuildState × List Nat}
    (h : addFeature self m elem feature s = some s') : Step s.1 s'.1 := by
  rcases addFeature_some h with ⟨_, rfl⟩ | ⟨_, _, rfl⟩
  · exact step_refl _
  · refine ⟨⟨LPWrapper.extends_addCols _ _, fun _ h => List.mem_cons_of_mem _ h⟩, ?_⟩
    intro hnamed n hmem
    simp only [LPWrapper.colNames, List.map_append, List.mem_append]
    rcases List.mem_cons.1 hmem with h | h
    · right; simp [h, newColumn]
    · left; exact hnamed n h

theorem addGroup_some {self : MRMFeatureSelector} {m : CMath ℚ}
    {fm : String → Option (List (Feature ℚ))} {elem : ℚ × String} {s s' : BuildState}
    (h : addGroup self m fm elem s = some s') :
    ∃ features st constraints, fm elem.2 = some features ∧
      forEach (addFeature self m elem) features (s, []) = some (st, constraints) ∧
      s' = ({ st.1 with rows := st.1.rows ++ [assignmentRow elem.2 constraints] }, st.2) := by
  unfold addGroup at h
  cases hr : fm elem.2 with
  | none => simp [hr] at h
  | some features =>
    cases hf : forEach (addFeature self m elem) features (s, []) with
    | none => simp [hr, hf] at h
    | some r =>
      simp only [hr, hf, Option.some.injEq] at h
      exact ⟨features, r.1, r.2, rfl, hf, h.symm⟩

theorem addGroup_step {self : MRMFeatureSelector} {m : CMath ℚ}
    {fm : String → Option (List (Feature ℚ))} {elem : ℚ × String} {s s' : BuildState}
    (h : addGroup self m fm elem s = some s') : Step s s' := by
  obtain ⟨features, st, cs, _, hf, rfl⟩ := addGroup_some h
  have h1 : Step s st := forEach_stepC _ _
    (fun _ _ _ _ hb => addFeature_step hb) _ _ hf
  exact step_trans h1 ⟨⟨LPWrapper.extends_addRows _ _, fun _ h => h⟩, fun hn => hn⟩

theorem addFeature_total (self : MRMFeatureSelector) (hs : self.Supported) (m : CMath ℚ)
    (elem : ℚ × String) (feature : Feature ℚ) (s : BuildState × List Nat) :
    ∃ s', addFeature self m elem feature s = some s' := by
  unfold addFeature
  by_cases hn : varName elem.2 feature.getUniqueId ∈ s.1.2
  · exact ⟨s, by simp [hn]⟩
  · apply Option.isSome_iff_exists.1
    simp [hn, self._addVariable_eq hs]

theorem addGroup_total (self : MRMFeatureSelector) (hs : self.Supported) (m : CMath ℚ)
    (fm : String → Option (List (Feature ℚ))) (elem : ℚ × String)
    (hfm : (fm elem.2).isSome) (s : BuildState) :
    ∃ s', addGroup self m fm elem s = some s' := by
  obtain ⟨features, hfeat⟩ := Option.isSome_iff_exists.1 hfm
  obtain ⟨s', hs', _⟩ := forEach_total (fun _ => True) (addFeature self m elem) features
    (fun f _ t _ => (addFeature_total self hs m elem f t).imp fun _ h => ⟨h, trivial⟩)
    (s, []) trivial
  apply Option.isSome_iff_exists.1
  simp [addGroup, hfeat, hs']

/-- The build of the model runs to its end when the variable type is supported and
every group of the window has an entry in the map. -/
theorem score_build_total (self : MRMFeatureSelector) (hs : self.Supported) (m : CMath ℚ)
    (time_to_name : List (ℚ × String)) (fm : String → Option (List (Feature ℚ)))
    (hfm : ∀ e ∈ time_to_name, (fm e.2).isSome) :
    ∃ s', buildProblem self m time_to_name fm = some s' := by
  obtain ⟨s', hs', _⟩ := forEach_total (fun _ => True)
    (addGroup self m fm) time_to_name
    (fun e he t _ => (addGroup_total self hs m fm e (hfm e he) t).imp
      fun _ h => ⟨h, trivial⟩)
    (LPWrapper.new.setObjectiveSense Sense.MIN, []) trivial
  exact ⟨s', hs'⟩


theorem scoreState_addFeature {self : MRMFeatureSelector} {m : CMath ℚ}
    {fm : String → Option (List (Feature ℚ))} {pre : List (ℚ × String)} {elem : ℚ × String}
    {fpre : List (Feature ℚ)} {f : Feature ℚ} {s s' : BuildState × List Nat}
    (hst : ScoreState self m fm pre elem.2 fpre s.2 s.1)
    (hg : ∀ e ∈ pre, e.2 ≠ elem.2)
    (hf : ∀ f' ∈ fpre, f'.getUniqueId ≠ f.getUniqueId)
    (h : addFeature self m elem f s = some s') :
    ScoreState self m fm pre elem.2 (fpre ++ [f]) s'.2 s'.1 := by
  obtain ⟨hnd, hvars, horig, hcols, hrows, hgroups, hcs, hsense⟩ := hst
  have hnew : varName elem.2 f.getUniqueId ∉ s.1.2 := by
    intro hmem
    rcases horig _ hmem with ⟨e, he, u, hu⟩ | ⟨f', hf', hu⟩
    · exact hg e he (varName_inj hu).1.symm
    · exact hf f' hf' (varName_inj hu).2.symm
  rcases addFeature_some h with ⟨hmem, _⟩ | ⟨_, _, rfl⟩
  · exact absurd hmem hnew
  · have hext : s.1.1.Extends { s.1.1 with cols := s.1.1.cols ++
        [self.newColumn (varName elem.2 f.getUniqueId) true (make_score m f)] } :=
      LPWrapper.extends_addCols _ _
    refine ⟨?_, ?_, ?_, ?_, ?_, ?_, ?_, hsense⟩
    · simp only [LPWrapper.colNames, List.map_append, List.map_cons, List.map_nil]
      refine List.Nodup.append hnd (List.nodup_singleton _) ?_
      intro n hn1 hn2
      simp only [List.mem_singleton, newColumn] at hn2
      subst hn2
      exact hnew ((hvars _).2 hn1)
    · intro n
      simp only [LPWrapper.colNames, List.map_append, List.map_cons, List.map_nil,
        List.mem_append, List.mem_singleton, List.mem_cons, newColumn, List.not_mem_nil,
        or_false]
      constructor
      · rintro (h1 | h1)
        · exact Or.inr h1
        · exact Or.inl ((hvars n).1 h1)
      · rintro (h1 | h1)
        · exact Or.inr ((hvars n).2 h1)
        · exact Or.inl h1
    · intro n hn
      rcases List.mem_cons.1 hn with h1 | h1
      · exact Or.inr ⟨f, List.mem_append_right _ (List.mem_singleton_self _), h1⟩
      · rcases horig n h1 with h2 | ⟨f', hf', hu⟩
        · exact Or.inl h2
        · exact Or.inr ⟨f', List.mem_append_left _ hf', hu⟩
    · intro c hc
      rcases List.mem_append.1 hc with h1 | h1
      · exact hcols c h1
      · simp only [List.mem_singleton] at h1
        subst h1
        exact ⟨rfl, rfl, rfl, rfl⟩
    · intro r hr
      obtain ⟨e, he, feats, idxs, h1, h2, h3⟩ := hrows r hr
      exact ⟨e, he, feats, idxs, h1, h2, columnsOf_mono hext h3⟩
    · intro e he feats hfe
      obtain ⟨idxs, h1, h2⟩ := hgroups e he feats hfe
      exact ⟨idxs, h1, columnsOf_mono hext h2⟩
    · exact columnsOf_snoc hcs f

theorem scoreState_addGroup {self : MRMFeatureSelector} {m : CMath ℚ}
    {fm : String → Option (List (Feature ℚ))} {pre : List (ℚ × String)} {elem : ℚ × String}
    {s s' : BuildState}
    (hst : ScoreState self m fm pre "" [] [] s)
    (hg : ∀ e ∈ pre, e.2 ≠ elem.2)
    (huid : ∀ feats, fm elem.2 = some feats → (feats.map Feature.getUniqueId).Nodup)
    (h : addGroup self m fm elem s = some s') :
    ScoreState self m fm (pre ++ [elem]) "" [] [] s' := by
  obtain ⟨features, st, cs, hfeat, hloop, rfl⟩ := addGroup_some h
  have hnd := huid features hfeat
  have h0 : ScoreState self m fm pre elem.2 [] [] s := by
    obtain ⟨h1, h2, h3, h4, h5, h6, _, h8⟩ := hst
    refine ⟨h1, h2, fun n hn => ?_, h4, h5, h6, List.Forall₂.nil, h8⟩
    rcases h3 n hn with h | ⟨f, hf, _⟩
    · exact Or.inl h
    · exact absurd hf (List.not_mem_nil f)
  have hend := forEach_prefix_inv
    (fun fpre (t : BuildState × List Nat) => ScoreState self m fm pre elem.2 fpre t.2 t.1)
    (addFeature self m elem) features
    (fun fpre f post t t' hl hI hb => by
      refine scoreState_addFeature hI hg (fun f' hf' heq => ?_) hb
      rw [hl, List.map_append, List.map_cons] at hnd
      have hdis := (List.nodup_append.1 hnd).2.2
      exact hdis (List.mem_map_of_mem _ hf') (heq ▸ List.mem_cons_self _ _))
    (s, []) (st, cs) h0 hloop
  obtain ⟨hnd', hvars, horig, hcols, hrows, hgroups, hcs, hsense⟩ := hend
  have hext : st.1.Extends { st.1 with rows := st.1.rows ++ [assignmentRow elem.2 cs] } :=
    LPWrapper.extends_addRows _ _
  refine ⟨hnd', hvars, fun n hn => ?_, hcols, fun r hr => ?_, fun e he feats hfe => ?_,
    List.Forall₂.nil, hsense⟩
  · rcases horig n hn with ⟨e, he, u, hu⟩ | ⟨f, _, hu⟩
    · exact Or.inl ⟨e, List.mem_append_left _ he, u, hu⟩
    · exact Or.inl ⟨elem, List.mem_append_right _ (List.mem_singleton_self _), _, hu⟩
  · rcases List.mem_append.1 hr with h1 | h1
    · obtain ⟨e, he, feats, idxs, h2, h3, h4⟩ := hrows r h1
      exact ⟨e, List.mem_append_left _ he, feats, idxs, h2, h3, columnsOf_mono hext h4⟩
    · simp only [List.mem_singleton] at h1
      exact ⟨elem, List.mem_append_right _ (List.mem_singleton_self _), features, cs, hfeat,
        h1, columnsOf_mono hext hcs⟩
  · rcases List.mem_append.1 he with h1 | h1
    · obtain ⟨idxs, h2, h3⟩ := hgroups e h1 feats hfe
      exact ⟨idxs, List.mem_append_left _ h2, columnsOf_mono hext h3⟩
    · simp only [List.mem_singleton] at h1
      subst h1
      rw [hfeat] at hfe
      obtain rfl := Option.some.inj hfe
      exact ⟨cs, List.mem_append_right _ (List.mem_singleton_self _),
        columnsOf_mono hext hcs⟩

/-- The shape of the model of Strategy A for a window of pairwise distinct groups whose
candidates have distinct unique ids. -/
theorem buildProblem_state {self : MRMFeatureSelector} {m : CMath ℚ}
    {time_to_name : List (ℚ × String)} {fm : String → Option (List (Feature ℚ))}
    {s : BuildState}
    (hnd : (time_to_name.map Prod.snd).Nodup)
    (huid : ∀ e ∈ time_to_name, ∀ feats, fm e.2 = some feats →
      (feats.map Feature.getUniqueId).Nodup)
    (hb : buildProblem self m time_to_name fm = some s) :
    ScoreState self m fm time_to_name "" [] [] s := by
  refine forEach_prefix_inv (fun pre t => ScoreState self m fm pre "" [] [] t)
    (addGroup self m fm) time_to_name ?_ _ s ?_ hb
  · intro pre e post t t' hl hI hbody
    refine scoreState_addGroup hI (fun e' he' heq => ?_)
      (huid e (by rw [hl]; exact List.mem_append_right _ (List.mem_cons_self _ _))) hbody
    rw [hl, List.map_append, List.map_cons] at hnd
    exact (List.nodup_append.1 hnd).2.2 (List.mem_map_of_mem _ he')
      (heq ▸ List.mem_cons_self _ _)
  · refine ⟨List.nodup_nil, fun n => Iff.rfl, fun n hn => absurd hn (List.not_mem_nil n),
      fun c hc => absurd hc (List.not_mem_nil c), fun r hr => absurd hr (List.not_mem_nil r),
      fun e he => absurd he (List.not_mem_nil e), List.Forall₂.nil, rfl⟩

end MRMFeatureSelectorScore

/-! ## The neighbour positions -/

theorem MRMFeatureSelector.toInt_of_nonneg {d : ℚ} (h : 0 ≤ d) : toInt d = ⌊d⌋ := by
  unfold toInt
  rw [if_pos h]

theorem MRMFeatureSelector.mem_neighbours (self : MRMFeatureSelector) (i n j : Nat) :
    j ∈ self.neighbours i n ↔ j ≠ i ∧ self.start_iter i ≤ j ∧ j < self.stop_iter i n := by
  unfold neighbours
  simp only [List.mem_filter, List.mem_range', bne_iff_ne, ne_eq]
  constructor
  · rintro ⟨⟨k, hk, rfl⟩, hne⟩
    exact ⟨fun h => hne h.symm, by omega, by omega⟩
  · rintro ⟨hne, h1, h2⟩
    exact ⟨⟨j - self.start_iter i, by omega, by omega⟩, fun h => hne h.symm⟩

theorem MRMFeatureSelector.stop_iter_le (self : MRMFeatureSelector) (i n : Nat) :
    self.stop_iter i n ≤ n := by
  unfold stop_iter
  have h : min ((i : ℤ) + toInt self.nn_threshold_ + 1) (n : ℤ) ≤ (n : ℤ) := min_le_right _ _
  omega

theorem MRMFeatureSelector.neighbours_lt (self : MRMFeatureSelector) (i n j : Nat)
    (h : j ∈ self.neighbours i n) : j < n :=
  lt_of_lt_of_le ((self.mem_neighbours i n j).1 h).2.2 (self.stop_iter_le i n)

theorem MRMFeatureSelector.start_iter_eq_zero (self : MRMFeatureSelector) (i : Nat)
    (hnn : 0 ≤ self.nn_threshold_) (hi : (i : ℤ) ≤ ⌊self.nn_threshold_⌋) :
    self.start_iter i = 0 := by
  unfold start_iter
  rw [toInt_of_nonneg hnn]
  omega

theorem MRMFeatureSelector.neighbour_distance_le (self : MRMFeatureSelector) (i n j : Nat)
    (hnn : 0 ≤ self.nn_threshold_) (hj : j ∈ self.neighbours i n) :
    ((|(i : ℤ) - (j : ℤ)| : ℤ) : ℚ) ≤ self.nn_threshold_ := by
  obtain ⟨_, h1, h2⟩ := (self.mem_neighbours i n j).1 hj
  unfold start_iter at h1
  unfold stop_iter at h2
  rw [toInt_of_nonneg hnn] at h1 h2
  have hle : |(i : ℤ) - (j : ℤ)| ≤ ⌊self.nn_threshold_⌋ := by
    rw [abs_le]
    constructor <;> omega
  calc ((|(i : ℤ) - (j : ℤ)| : ℤ) : ℚ) ≤ ((⌊self.nn_threshold_⌋ : ℤ) : ℚ) := by exact_mod_cast hle
    _ ≤ self.nn_threshold_ := Int.floor_le _


/-! ## Strategy B: the steps of the build -/

namespace MRMFeatureSelectorQMIP

/-- The state after the selection variable of `name2` has been ensured. -/
theorem addPair_eq (self : MRMFeatureSelector) (hs : self.Supported) (m : CMath ℚ)
    (cnt1 cnt2 : Nat) (e1 e2 : ℚ × String) (i : Nat) (f1 : Feature ℚ)
    (jf : Nat × Feature ℚ) (s : BuildState) :
    ∃ p0 : LPWrapper, ∃ v0 : List String,
      Step s (p0, v0) ∧ varName e2.2 jf.2.getUniqueId ∈ v0 ∧
      addPair self m cnt1 cnt2 e1 e2 i f1 jf s = some
        ({ sense := p0.sense
           cols := p0.cols ++ [self.newColumn (qpName e1.2 i e2.2 jf.1) true 0,
             self.newColumn (qpName e1.2 i e2.2 jf.1 ++ "-ABS") false 1]
           rows := p0.rows ++
            [⟨[(p0.colNames ++ [qpName e1.2 i e2.2 jf.1, qpName e1.2 i e2.2 jf.1 ++ "-ABS"]).indexOf
                  (varName e1.2 f1.getUniqueId), p0.cols.length], [1, -1],
                qpName e1.2 i e2.2 jf.1 ++ "-QP1", 0, 1, LPType.LOWER_BOUND_ONLY⟩,
              ⟨[(p0.colNames ++ [qpName e1.2 i e2.2 jf.1, qpName e1.2 i e2.2 jf.1 ++ "-ABS"]).indexOf
                  (varName e2.2 jf.2.getUniqueId), p0.cols.length], [1, -1],
                qpName e1.2 i e2.2 jf.1 ++ "-QP2", 0, 1, LPType.LOWER_BOUND_ONLY⟩,
              ⟨[(p0.colNames ++ [qpName e1.2 i e2.2 jf.1, qpName e1.2 i e2.2 jf.1 ++ "-ABS"]).indexOf
                  (varName e1.2 f1.getUniqueId),
                (p0.colNames ++ [qpName e1.2 i e2.2 jf.1, qpName e1.2 i e2.2 jf.1 ++ "-ABS"]).indexOf
                  (varName e2.2 jf.2.getUniqueId), p0.cols.length], [1, 1, -1],
                qpName e1.2 i e2.2 jf.1 ++ "-QP3", 0, 1, LPType.UPPER_BOUND_ONLY⟩,
              ⟨[p0.cols.length + 1, p0.cols.length],
                [-1, pairScore self m (self.start_iter cnt1) cnt1 cnt2 e1 e2 f1 jf.2],
                qpName e1.2 i e2.2 jf.1 ++ "-obj+", -1, 0, LPType.UPPER_BOUND_ONLY⟩,
              ⟨[p0.cols.length + 1, p0.cols.length],
                [-1, -pairScore self m (self.start_iter cnt1) cnt1 cnt2 e1 e2 f1 jf.2],
                qpName e1.2 i e2.2 jf.1 ++ "-obj-", -1, 0, LPType.UPPER_BOUND_ONLY⟩] },
          v0) := by
  by_cases hn : varName e2.2 jf.2.getUniqueId ∈ s.2
  · refine ⟨s.1, s.2, step_refl _, hn, ?_⟩
    simp [addPair, hn, self._addVariable_eq hs, _addConstraint, LPWrapper.addRow,
      LPWrapper.getColumnIndex, LPWrapper.colNames, newColumn]
  · refine ⟨{ s.1 with cols := s.1.cols ++ [self.newColumn (varName e2.2 jf.2.getUniqueId) true 0] },
      varName e2.2 jf.2.getUniqueId :: s.2, ⟨⟨LPWrapper.extends_addCols _ _, ?_⟩, ?_⟩,
      List.mem_cons_self _ _, ?_⟩
    · exact fun _ h => List.mem_cons_of_mem _ h
    · intro hnamed n hmem
      simp only [LPWrapper.colNames, List.map_append, List.mem_append]
      rcases List.mem_cons.1 hmem with h | h
      · right; simp [h, newColumn]
      · left; exact hnamed n h
    · simp [addPair, hn, self._addVariable_eq hs, _addConstraint, LPWrapper.addRow,
        LPWrapper.getColumnIndex, LPWrapper.colNames, newColumn]

theorem addPair_supported {self : MRMFeatureSelector} {m : CMath ℚ} {cnt1 cnt2 : Nat}
    {e1 e2 : ℚ × String} {i : Nat} {f1 : Feature ℚ} {jf : Nat × Feature ℚ} {s s' : BuildState}
    (h : addPair self m cnt1 cnt2 e1 e2 i f1 jf s = some s') : self.Supported := by
  by_contra hs
  by_cases hn : varName e2.2 jf.2.getUniqueId ∈ s.2 <;>
    simp [addPair, hn, self._addVariable_none hs] at h

theorem addPair_step {self : MRMFeatureSelector} {m : CMath ℚ} {cnt1 cnt2 : Nat}
    {e1 e2 : ℚ × String} {i : Nat} {f1 : Feature ℚ} {jf : Nat × Feature ℚ} {s s' : BuildState}
    (h : addPair self m cnt1 cnt2 e1 e2 i f1 jf s = some s') : Step s s' := by
  obtain ⟨p0, v0, hstep, _, heq⟩ :=
    addPair_eq self (addPair_supported h) m cnt1 cnt2 e1 e2 i f1 jf s
  rw [heq] at h
  have h' := Option.some.inj h
  subst h'
  refine step_trans hstep ⟨⟨⟨⟨_, rfl⟩, ⟨_, rfl⟩, rfl⟩, fun _ h => h⟩, fun hn n hm => ?_⟩
  simp only [LPWrapper.colNames, List.map_append, List.mem_append]
  exact Or.inl (hn n hm)

theorem addNeighbour_some {self : MRMFeatureSelector} {m : CMath ℚ}
    {time_to_name : List (ℚ × String)} {fm : String → Option (List (Feature ℚ))}
    {cnt1 : Nat} {e1 : ℚ × String} {i : Nat} {f1 : Feature ℚ} {cnt2 : Nat} {s s' : BuildState}
    (h : addNeighbour self m time_to_name fm cnt1 e1 i f1 cnt2 s = some s') :
    ∃ e2 row2, time_to_name[cnt2]? = some e2 ∧ fm e2.2 = some row2 ∧
      forEach (addPair self m cnt1 cnt2 e1 e2 i f1) row2.enum s = some s' := by
  unfold addNeighbour at h
  cases h2 : time_to_name[cnt2]? with
  | none => simp [h2] at h
  | some e2 =>
    cases hr : fm e2.2 with
    | none => simp [h2, hr] at h
    | some row2 => exact ⟨e2, row2, rfl, hr, by simpa [h2, hr] using h⟩

theorem addNeighbour_step {self : MRMFeatureSelector} {m : CMath ℚ}
    {time_to_name : List (ℚ × String)} {fm : String → Option (List (Feature ℚ))}
    {cnt1 : Nat} {e1 : ℚ × String} {i : Nat} {f1 : Feature ℚ} {cnt2 : Nat} {s s' : BuildState}
    (h : addNeighbour self m time_to_name fm cnt1 e1 i f1 cnt2 s = some s') : Step s s' := by
  obtain ⟨e2, row2, _, _, hf⟩ := addNeighbour_some h
  exact forEach_step _ _ (fun _ _ _ _ hb => addPair_step hb) s s' hf

/-- The first part of the body of the loop over `feature_row1`: the selection variable
of the candidate is ensured and its column index is pushed to `constraints`. -/
theorem addCandidate_some {self : MRMFeatureSelector} {m : CMath ℚ}
    {time_to_name : List (ℚ × String)} {fm : String → Option (List (Feature ℚ))}
    {cnt1 : Nat} {e1 : ℚ × String} {ifeat : Nat × Feature ℚ} {s s' : BuildState × List Nat}
    (h : addCandidate self m time_to_name fm cnt1 e1 ifeat s = some s') :
    ∃ u : BuildState, ∃ idx : Nat, Step s.1 u ∧ varName e1.2 ifeat.2.getUniqueId ∈ u.2 ∧
      (Named s.1 → u.1.colNames[idx]? = some (varName e1.2 ifeat.2.getUniqueId)) ∧
      (varName e1.2 ifeat.2.getUniqueId ∈ s.1.2 →
        u = s.1 ∧ idx = s.1.1.getColumnIndex (varName e1.2 ifeat.2.getUniqueId)) ∧
      (varName e1.2 ifeat.2.getUniqueId ∉ s.1.2 → self.Supported ∧
        u = ({ s.1.1 with cols := s.1.1.cols ++
          [self.newColumn (varName e1.2 ifeat.2.getUniqueId) true 0] },
          varName e1.2 ifeat.2.getUniqueId :: s.1.2) ∧ idx = s.1.1.cols.length) ∧
      forEach (addNeighbour self m time_to_name fm cnt1 e1 ifeat.1 ifeat.2)
        (self.neighbours cnt1 time_to_name.length) u = some s'.1 ∧
      s'.2 = s.2 ++ [idx] := by
  unfold addCandidate at h
  by_cases hn : varName e1.2 ifeat.2.getUniqueId ∈ s.1.2
  · simp only [hn, if_true, Option.bind_eq_bind, Option.some_bind] at h
    cases hf : forEach (addNeighbour self m time_to_name fm cnt1 e1 ifeat.1 ifeat.2)
        (self.neighbours cnt1 time_to_name.length) s.1 with
    | none => simp [hf] at h
    | some st =>
      simp only [hf, Option.some_bind, Option.some.injEq] at h
      subst h
      exact ⟨s.1, _, step_refl _, hn, fun hnamed => LPWrapper.getColumnIndex_get (hnamed _ hn),
        fun _ => ⟨rfl, rfl⟩, fun h' => absurd hn h', hf, rfl⟩
  · by_cases hs : self.Supported
    · simp only [hn, if_false, self._addVariable_eq hs, Option.map_some', Option.bind_eq_bind,
        Option.some_bind] at h
      cases hf : forEach (addNeighbour self m time_to_name fm cnt1 e1 ifeat.1 ifeat.2)
          (self.neighbours cnt1 time_to_name.length)
          ({ s.1.1 with cols := s.1.1.cols ++
            [self.newColumn (varName e1.2 ifeat.2.getUniqueId) true 0] },
            varName e1.2 ifeat.2.getUniqueId :: s.1.2) with
      | none => simp [hf] at h
      | some st =>
        simp only [hf, Option.some_bind, Option.some.injEq] at h
        subst h
        refine ⟨_, _, ⟨⟨LPWrapper.extends_addCols _ _, fun _ h => List.mem_cons_of_mem _ h⟩, ?_⟩,
          List.mem_cons_self _ _, fun _ => ?_, fun h' => absurd h' hn,
          fun _ => ⟨hs, rfl, rfl⟩, hf, rfl⟩
        · intro hnamed n hmem
          simp only [LPWrapper.colNames, List.map_append, List.mem_append]
          rcases List.mem_cons.1 hmem with h | h
          · right; simp [h, newColumn]
          · left; exact hnamed n h
        · simp [LPWrapper.colNames, newColumn]
    · simp [hn, self._addVariable_none hs] at h

theorem addCandidate_step {self : MRMFeatureSelector} {m : CMath ℚ}
    {time_to_name : List (ℚ × String)} {fm : String → Option (List (Feature ℚ))}
    {cnt1 : Nat} {e1 : ℚ × String} {ifeat : Nat × Feature ℚ} {s s' : BuildState × List Nat}
    (h : addCandidate self m time_to_name fm cnt1 e1 ifeat s = some s') : Step s.1 s'.1 := by
  obtain ⟨u, idx, hstep, _, _, _, _, hf, _⟩ := addCandidate_some h
  exact step_trans hstep (forEach_step _ _ (fun _ _ _ _ hb => addNeighbour_step hb) _ _ hf)

theorem addPosition_some {self : MRMFeatureSelector} {m : CMath ℚ}
    {time_to_name : List (ℚ × String)} {fm : String → Option (List (Feature ℚ))}
    {cnt1 : Nat} {s s' : BuildState}
    (h : addPosition self m time_to_name fm cnt1 s = some s') :
    ∃ e1 row1 st constraints, time_to_name[cnt1]? = some e1 ∧ fm e1.2 = some row1 ∧
      forEach (addCandidate self m time_to_name fm cnt1 e1) row1.enum (s, []) =
        some (st, constraints) ∧
      s' = ({ st.1 with rows := st.1.rows ++ [assignmentRow e1.2 constraints] }, st.2) := by
  unfold addPosition at h
  cases h1 : time_to_name[cnt1]? with
  | none => simp [h1] at h
  | some e1 =>
    cases hr : fm e1.2 with
    | none => simp [h1, hr] at h
    | some row1 =>
      cases hf : forEach (addCandidate self m time_to_name fm cnt1 e1) row1.enum (s, []) with
      | none => simp [h1, hr, hf] at h
      | some r =>
        simp only [h1, hr, hf, Option.bind_eq_bind, Option.some_bind, Option.some.injEq] at h
        exact ⟨e1, row1, r.1, r.2, rfl, hr, hf, h.symm⟩

theorem addPosition_step {self : MRMFeatureSelector} {m : CMath ℚ}
    {time_to_name : List (ℚ × String)} {fm : String → Option (List (Feature ℚ))}
    {cnt1 : Nat} {s s' : BuildState}
    (h : addPosition self m time_to_name fm cnt1 s = some s') : Step s s' := by
  obtain ⟨e1, row1, st, cs, _, _, hf, rfl⟩ := addPosition_some h
  have h1 : Step s st := forEach_stepC _ _ (fun _ _ _ _ hb => addCandidate_step hb) _ _ hf
  exact step_trans h1 ⟨⟨LPWrapper.extends_addRows _ _, fun _ h => h⟩, fun hn => hn⟩

theorem pairEncoded_mono {self : MRMFeatureSelector} {P Q : LPWrapper} (h : P.Extends Q)
    {name1 name2 qp : String} {score : ℚ} {index1 index2 iq ie : Nat}
    (hp : PairEncoded self P name1 name2 qp score index1 index2 iq ie) :
    PairEncoded self Q name1 name2 qp score index1 index2 iq ie := by
  obtain ⟨h1, h2, h3, h4, h5, h6, h7, h8, h9⟩ := hp
  exact ⟨LPWrapper.extends_colNames_get h h1, LPWrapper.extends_colNames_get h h2,
    LPWrapper.extends_col_get h h3, LPWrapper.extends_col_get h h4,
    LPWrapper.extends_row_mem h h5, LPWrapper.extends_row_mem h h6,
    LPWrapper.extends_row_mem h h7, LPWrapper.extends_row_mem h h8,
    LPWrapper.extends_row_mem h h9⟩

/-- One run of the body of the innermost loop encodes the pair. -/
theorem addPair_encoded {self : MRMFeatureSelector} {m : CMath ℚ} {cnt1 cnt2 : Nat}
    {e1 e2 : ℚ × String} {i : Nat} {f1 : Feature ℚ} {jf : Nat × Feature ℚ} {s s' : BuildState}
    (h : addPair self m cnt1 cnt2 e1 e2 i f1 jf s = some s') (hnamed : Named s)
    (hn1 : varName e1.2 f1.getUniqueId ∈ s.2) :
    ∃ index1 index2 iq ie, PairEncoded self s'.1 (varName e1.2 f1.getUniqueId)
      (varName e2.2 jf.2.getUniqueId) (qpName e1.2 i e2.2 jf.1)
      (pairScore self m (self.start_iter cnt1) cnt1 cnt2 e1 e2 f1 jf.2) index1 index2 iq ie := by
  obtain ⟨p0, v0, hstep, hmem, heq⟩ :=
    addPair_eq self (addPair_supported h) m cnt1 cnt2 e1 e2 i f1 jf s
  rw [heq] at h
  have h' := Option.some.inj h
  subst h'
  have hnamed0 : Named (p0, v0) := hstep.2 hnamed
  have hc1 : varName e1.2 f1.getUniqueId ∈ p0.colNames := hnamed0 _ (hstep.1.2 hn1)
  have hc2 : varName e2.2 jf.2.getUniqueId ∈ p0.colNames := hnamed0 _ hmem
  have hidx : ∀ n, n ∈ p0.colNames →
      (p0.colNames ++ [qpName e1.2 i e2.2 jf.1, qpName e1.2 i e2.2 jf.1 ++ "-ABS"])[
        (p0.colNames ++ [qpName e1.2 i e2.2 jf.1, qpName e1.2 i e2.2 jf.1 ++ "-ABS"]).indexOf n]?
        = some n := by
    intro n hn
    have hlt := List.indexOf_lt_length.2 (List.mem_append_left
      [qpName e1.2 i e2.2 jf.1, qpName e1.2 i e2.2 jf.1 ++ "-ABS"] hn)
    rw [List.getElem?_eq_getElem hlt]
    simp
  refine ⟨(p0.colNames ++ [qpName e1.2 i e2.2 jf.1, qpName e1.2 i e2.2 jf.1 ++ "-ABS"]).indexOf
      (varName e1.2 f1.getUniqueId),
    (p0.colNames ++ [qpName e1.2 i e2.2 jf.1, qpName e1.2 i e2.2 jf.1 ++ "-ABS"]).indexOf
      (varName e2.2 jf.2.getUniqueId), p0.cols.length, p0.cols.length + 1, ?_⟩
  unfold PairEncoded
  refine ⟨?_, ?_, ?_, ?_, ?_, ?_, ?_, ?_, ?_⟩
  · simpa [LPWrapper.colNames, newColumn] using hidx _ hc1
  · simpa [LPWrapper.colNames, newColumn] using hidx _ hc2
  · exact (getElem?_append_two _ _ _).1
  · exact (getElem?_append_two _ _ _).2
  all_goals simp [LPWrapper.colNames, newColumn]

/-- Every pair of candidates visited by the loops of `optimize` is encoded in the model
that is handed to the solver. -/
theorem pair_encoded {self : MRMFeatureSelector} {m : CMath ℚ}
    {time_to_name : List (ℚ × String)} {fm : String → Option (List (Feature ℚ))}
    {P : LPWrapper} {vars : List String}
    (hb : buildProblem self m time_to_name fm = some (P, vars))
    {cnt1 cnt2 i j : Nat} {e1 e2 : ℚ × String} {row1 row2 : List (Feature ℚ)}
    {f1 f2 : Feature ℚ}
    (h1 : time_to_name[cnt1]? = some e1) (hr1 : fm e1.2 = some row1) (hf1 : row1[i]? = some f1)
    (hn : cnt2 ∈ self.neighbours cnt1 time_to_name.length)
    (h2 : time_to_name[cnt2]? = some e2) (hr2 : fm e2.2 = some row2) (hf2 : row2[j]? = some f2) :
    ∃ index1 index2 iq ie, PairEncoded self P (varName e1.2 f1.getUniqueId)
      (varName e2.2 f2.getUniqueId) (qpName e1.2 i e2.2 j)
      (pairScore self m (self.start_iter cnt1) cnt1 cnt2 e1 e2 f1 f2) index1 index2 iq ie := by
  have hc1 : cnt1 ∈ List.range time_to_name.length := by
    rw [List.mem_range]
    by_contra hcon
    rw [List.getElem?_eq_none (Nat.le_of_not_lt hcon)] at h1
    exact absurd h1 (by simp)
  -- the run of the body at position `cnt1`
  obtain ⟨sa, sb, hsa, hpos, hsb⟩ := forEach_mem Step step_refl (fun _ _ _ => step_trans) _ _
    (fun _ _ _ _ hb' => addPosition_step hb') cnt1 hc1 _ _ hb
  have hnamed_a : Named sa := hsa.2 (fun n hn' => absurd hn' (List.not_mem_nil n))
  obtain ⟨e1', row1', st, cs, h1', hr1', hfc, rfl⟩ := addPosition_some hpos
  rw [h1] at h1'
  obtain rfl := Option.some.inj h1'
  rw [hr1] at hr1'
  obtain rfl := Option.some.inj hr1'
  -- the run of the body for the candidate `i`
  obtain ⟨ta, tb, hta, hcand, htb⟩ := forEach_mem (fun a b : BuildState × List Nat => Step a.1 b.1)
    (fun _ => step_refl _) (fun _ _ _ => step_trans) _ _
    (fun _ _ _ _ hb' => addCandidate_step hb') (i, f1) (List.mk_mem_enum_iff_getElem?.2 hf1)
    _ _ hfc
  obtain ⟨u, idx, hu, hmem1, _, _, _, hfn, _⟩ := addCandidate_some hcand
  have hnamed_u : Named u := hu.2 (hta.2 hnamed_a)
  -- the run of the body for the neighbour `cnt2`
  obtain ⟨ua, ub, hua, hnb, hub⟩ := forEach_mem Step step_refl (fun _ _ _ => step_trans) _ _
    (fun _ _ _ _ hb' => addNeighbour_step hb') cnt2 hn _ _ hfn
  obtain ⟨e2', row2', h2', hr2', hfp⟩ := addNeighbour_some hnb
  rw [h2] at h2'
  obtain rfl := Option.some.inj h2'
  rw [hr2] at hr2'
  obtain rfl := Option.some.inj hr2'
  -- the run of the body for the candidate `j` of the neighbour
  obtain ⟨va, vb, hva, hpair, hvb⟩ := forEach_mem Step step_refl (fun _ _ _ => step_trans) _ _
    (fun _ _ _ _ hb' => addPair_step hb') (j, f2) (List.mk_mem_enum_iff_getElem?.2 hf2) _ _ hfp
  obtain ⟨index1, index2, iq, ie, henc⟩ := addPair_encoded hpair (hva.2 (hua.2 hnamed_u))
    (hva.1.2 (hua.1.2 hmem1))
  refine ⟨index1, index2, iq, ie, pairEncoded_mono ?_ henc⟩
  have hchain : Step vb (st, cs).1 := step_trans hvb (step_trans hub htb)
  exact LPWrapper.extends_trans
    (LPWrapper.extends_trans hchain.1.1 (LPWrapper.extends_addRows _ _)) hsb.1.1

theorem addPair_total (self : MRMFeatureSelector) (hs : self.Supported) (m : CMath ℚ)
    (cnt1 cnt2 : Nat) (e1 e2 : ℚ × String) (i : Nat) (f1 : Feature ℚ)
    (jf : Nat × Feature ℚ) (s : BuildState) :
    ∃ s', addPair self m cnt1 cnt2 e1 e2 i f1 jf s = some s' := by
  obtain ⟨p0, v0, _, _, heq⟩ := addPair_eq self hs m cnt1 cnt2 e1 e2 i f1 jf s
  exact ⟨_, heq⟩

theorem addNeighbour_total (self : MRMFeatureSelector) (hs : self.Supported) (m : CMath ℚ)
    (time_to_name : List (ℚ × String)) (fm : String → Option (List (Feature ℚ)))
    (hfm : ∀ e ∈ time_to_name, (fm e.2).isSome)
    (cnt1 : Nat) (e1 : ℚ × String) (i : Nat) (f1 : Feature ℚ) (cnt2 : Nat)
    (h2 : cnt2 < time_to_name.length) (s : BuildState) :
    ∃ s', addNeighbour self m time_to_name fm cnt1 e1 i f1 cnt2 s = some s' := by
  have hget : time_to_name[cnt2]? = some time_to_name[cnt2] := List.getElem?_eq_getElem h2
  obtain ⟨row2, hrow2⟩ := Option.isSome_iff_exists.1
    (hfm _ (List.getElem_mem h2))
  obtain ⟨s', hs', _⟩ := forEach_total (fun _ => True)
    (addPair self m cnt1 cnt2 e1 time_to_name[cnt2] i f1) row2.enum
    (fun jf _ t _ => (addPair_total self hs m cnt1 cnt2 e1 _ i f1 jf t).imp fun _ h => ⟨h, trivial⟩)
    s trivial
  exact ⟨s', by simp [addNeighbour, hget, hrow2, hs']⟩

theorem addCandidate_total (self : MRMFeatureSelector) (hs : self.Supported) (m : CMath ℚ)
    (time_to_name : List (ℚ × String)) (fm : String → Option (List (Feature ℚ)))
    (hfm : ∀ e ∈ time_to_name, (fm e.2).isSome)
    (cnt1 : Nat) (e1 : ℚ × String) (ifeat : Nat × Feature ℚ) (s : BuildState × List Nat) :
    ∃ s', addCandidate self m time_to_name fm cnt1 e1 ifeat s = some s' := by
  have hloop : ∀ u : BuildState, ∃ s',
      forEach (addNeighbour self m time_to_name fm cnt1 e1 ifeat.1 ifeat.2)
        (self.neighbours cnt1 time_to_name.length) u = some s' := by
    intro u
    obtain ⟨s', hs', _⟩ := forEach_total (fun _ => True)
      (addNeighbour self m time_to_name fm cnt1 e1 ifeat.1 ifeat.2)
      (self.neighbours cnt1 time_to_name.length)
      (fun cnt2 h2 t _ => (addNeighbour_total self hs m time_to_name fm hfm cnt1 e1 ifeat.1
        ifeat.2 cnt2 (self.neighbours_lt _ _ _ h2) t).imp fun _ h => ⟨h, trivial⟩) u trivial
    exact ⟨s', hs'⟩
  unfold addCandidate
  by_cases hn : varName e1.2 ifeat.2.getUniqueId ∈ s.1.2
  · obtain ⟨s', hs'⟩ := hloop s.1
    apply Option.isSome_iff_exists.1
    simp [hn, hs']
  · obtain ⟨s', hs'⟩ := hloop ({ s.1.1 with cols := s.1.1.cols ++
      [self.newColumn (varName e1.2 ifeat.2.getUniqueId) true 0] },
      varName e1.2 ifeat.2.getUniqueId :: s.1.2)
    apply Option.isSome_iff_exists.1
    simp [hn, self._addVariable_eq hs, hs']

theorem addPosition_total (self : MRMFeatureSelector) (hs : self.Supported) (m : CMath ℚ)
    (time_to_name : List (ℚ × String)) (fm : String → Option (List (Feature ℚ)))
    (hfm : ∀ e ∈ time_to_name, (fm e.2).isSome)
    (cnt1 : Nat) (h1 : cnt1 < time_to_name.length) (s : BuildState) :
    ∃ s', addPosition self m time_to_name fm cnt1 s = some s' := by
  have hget : time_to_name[cnt1]? = some time_to_name[cnt1] := List.getElem?_eq_getElem h1
  obtain ⟨row1, hrow1⟩ := Option.isSome_iff_exists.1 (hfm _ (List.getElem_mem h1))
  obtain ⟨s', hs', _⟩ := forEach_total (fun _ => True)
    (addCandidate self m time_to_name fm cnt1 time_to_name[cnt1]) row1.enum
    (fun a _ t _ => (addCandidate_total self hs m time_to_name fm hfm cnt1 _ a t).imp
      fun _ h => ⟨h, trivial⟩) (s, []) trivial
  apply Option.isSome_iff_exists.1
  simp [addPosition, hget, hrow1, hs']

/-- The build of the model runs to its end, without an out-of-range read, when the
variable type is supported and every group of the window has an entry in the map. -/
theorem qmip_build_total (self : MRMFeatureSelector) (hs : self.Supported) (m : CMath ℚ)
    (time_to_name : List (ℚ × String)) (fm : String → Option (List (Feature ℚ)))
    (hfm : ∀ e ∈ time_to_name, (fm e.2).isSome) :
    ∃ s', buildProblem self m time_to_name fm = some s' := by
  obtain ⟨s', hs', _⟩ := forEach_total (fun _ => True)
    (addPosition self m time_to_name fm) (List.range time_to_name.length)
    (fun cnt1 h1 t _ => (addPosition_total self hs m time_to_name fm hfm cnt1
      (List.mem_range.1 h1) t).imp fun _ h => ⟨h, trivial⟩)
    (LPWrapper.new.setObjectiveSense Sense.MIN, []) trivial
  exact ⟨s', hs'⟩

end MRMFeatureSelectorQMIP

namespace MRMFeatureSelectorQMIP

theorem addPair_eq' (self : MRMFeatureSelector) (hs : self.Supported) (m : CMath ℚ)
    (cnt1 cnt2 : Nat) (e1 e2 : ℚ × String) (i : Nat) (f1 : Feature ℚ)
    (jf : Nat × Feature ℚ) (s : BuildState) :
    addPair self m cnt1 cnt2 e1 e2 i f1 jf s = some
      (withPair self
        (if varName e2.2 jf.2.getUniqueId ∈ s.2 then s
          else withSelection self s (varName e2.2 jf.2.getUniqueId)).1
        (varName e1.2 f1.getUniqueId) (varName e2.2 jf.2.getUniqueId)
        (qpName e1.2 i e2.2 jf.1)
        (pairScore self m (self.start_iter cnt1) cnt1 cnt2 e1 e2 f1 jf.2),
       (if varName e2.2 jf.2.getUniqueId ∈ s.2 then s
          else withSelection self s (varName e2.2 jf.2.getUniqueId)).2) := by
  by_cases hn : varName e2.2 jf.2.getUniqueId ∈ s.2
  · simp [addPair, hn, self._addVariable_eq hs, _addConstraint, LPWrapper.addRow,
      LPWrapper.getColumnIndex, LPWrapper.colNames, newColumn, withPair]
  · simp [addPair, hn, self._addVariable_eq hs, _addConstraint, LPWrapper.addRow,
      LPWrapper.getColumnIndex, LPWrapper.colNames, newColumn, withPair, withSelection]

end MRMFeatureSelectorQMIP

theorem selectionColumns_mono {s s' : BuildState} (h : Grows s s') {g : String}
    {idxs : List Nat} {feats : List (Feature ℚ)} (hc : SelectionColumns s g idxs feats) :
    SelectionColumns s' g idxs feats := by
  unfold SelectionColumns at hc ⊢
  exact hc.imp fun _ _ hx => ⟨LPWrapper.extends_colNames_get h.1 hx.1, h.2 hx.2⟩

theorem named_withSelection (self : MRMFeatureSelector) {s : BuildState} (h : Named s)
    (n : String) : Named (withSelection self s n) := by
  intro k hk
  simp only [withSelection, LPWrapper.colNames, List.map_append, List.mem_append]
  rcases List.mem_cons.1 hk with h1 | h1
  · right; simp [h1, newColumn]
  · left; exact h k h1

theorem getElem?_mem_list {α : Type} {l : List α} {i : Nat} {a : α} (h : l[i]? = some a) :
    a ∈ l := by
  obtain ⟨h1, h2⟩ := List.getElem?_eq_some_iff.1 h
  exact h2 ▸ List.getElem_mem h1

namespace MRMFeatureSelectorQMIP

variable {self : MRMFeatureSelector} {m : CMath ℚ} {time_to_name : List (ℚ × String)}
  {fm : String → Option (List (Feature ℚ))} {I : BuildState → Prop}

theorem addPair_keeps (hI : QMIPInvariant self m time_to_name fm I)
    {cnt1 cnt2 i j : Nat} {e1 e2 : ℚ × String} {row1 row2 : List (Feature ℚ)}
    {f1 f2 : Feature ℚ}
    (h1 : time_to_name[cnt1]? = some e1) (hr1 : fm e1.2 = some row1) (hf1 : row1[i]? = some f1)
    (hn : cnt2 ∈ self.neighbours cnt1 time_to_name.length)
    (h2 : time_to_name[cnt2]? = some e2) (hr2 : fm e2.2 = some row2) (hf2 : row2[j]? = some f2)
    {s s' : BuildState} (hs : I s ∧ Named s ∧ varName e1.2 f1.getUniqueId ∈ s.2)
    (h : addPair self m cnt1 cnt2 e1 e2 i f1 (j, f2) s = some s') :
    I s' ∧ Named s' ∧ varName e1.2 f1.getUniqueId ∈ s'.2 := by
  have hstep := addPair_step h
  refine ⟨?_, hstep.2 hs.2.1, hstep.1.2 hs.2.2⟩
  rw [addPair_eq' self (addPair_supported h)] at h
  have h' := Option.some.inj h
  subst h'
  by_cases hmem : varName e2.2 f2.getUniqueId ∈ s.2
  · simp only [hmem, if_true]
    exact hI.2 s cnt1 cnt2 e1 e2 row1 row2 i j f1 f2 hs.1 hs.2.1 h1 hr1 hf1 hn h2 hr2 hf2
      hs.2.2 hmem
  · simp only [hmem, if_false]
    have hsel : SelectionName time_to_name fm (varName e2.2 f2.getUniqueId) :=
      ⟨e2, getElem?_mem_list h2, row2, hr2, f2, getElem?_mem_list hf2, rfl⟩
    exact hI.2 (withSelection self s (varName e2.2 f2.getUniqueId)) cnt1 cnt2 e1 e2 row1
      row2 i j f1 f2 (hI.1 s _ hs.1 hs.2.1 hmem hsel) (named_withSelection self hs.2.1 _)
      h1 hr1 hf1 hn h2 hr2 hf2 (List.mem_cons_of_mem _ hs.2.2) (List.mem_cons_self _ _)

theorem addNeighbour_keeps (hI : QMIPInvariant self m time_to_name fm I)
    {cnt1 cnt2 i : Nat} {e1 : ℚ × String} {row1 : List (Feature ℚ)} {f1 : Feature ℚ}
    (h1 : time_to_name[cnt1]? = some e1) (hr1 : fm e1.2 = some row1) (hf1 : row1[i]? = some f1)
    (hn : cnt2 ∈ self.neighbours cnt1 time_to_name.length)
    {s s' : BuildState} (hs : I s ∧ Named s ∧ varName e1.2 f1.getUniqueId ∈ s.2)
    (h : addNeighbour self m time_to_name fm cnt1 e1 i f1 cnt2 s = some s') :
    I s' ∧ Named s' ∧ varName e1.2 f1.getUniqueId ∈ s'.2 := by
  obtain ⟨e2, row2, h2, hr2, hloop⟩ := addNeighbour_some h
  exact forEach_inv (fun t => I t ∧ Named t ∧ varName e1.2 f1.getUniqueId ∈ t.2) _ _
    (fun jf hjf t t' ht hb =>
      addPair_keeps hI h1 hr1 hf1 hn h2 hr2 (List.mk_mem_enum_iff_getElem?.1 hjf) ht hb)
    s s' hs hloop

theorem addCandidate_keeps (hI : QMIPInvariant self m time_to_name fm I)
    {cnt1 i : Nat} {e1 : ℚ × String} {row1 : List (Feature ℚ)} {f1 : Feature ℚ}
    (h1 : time_to_name[cnt1]? = some e1) (hr1 : fm e1.2 = some row1) (hf1 : row1[i]? = some f1)
    {s s' : BuildState × List Nat} (hs : I s.1 ∧ Named s.1)
    (h : addCandidate self m time_to_name fm cnt1 e1 (i, f1) s = some s') :
    (I s'.1 ∧ Named s'.1) ∧ ∃ idx, s'.2 = s.2 ++ [idx] ∧
      s'.1.1.colNames[idx]? = some (varName e1.2 f1.getUniqueId) ∧
      varName e1.2 f1.getUniqueId ∈ s'.1.2 := by
  obtain ⟨u, idx, hstep, hmem, hget, hold, hnew, hloop, hcs⟩ := addCandidate_some h
  have hIu : I u := by
    by_cases hn : varName e1.2 f1.getUniqueId ∈ s.1.2
    · rw [(hold hn).1]; exact hs.1
    · rw [(hnew hn).2.1]
      exact hI.1 s.1 _ hs.1 hs.2 hn
        ⟨e1, getElem?_mem_list h1, row1, hr1, f1, getElem?_mem_list hf1, rfl⟩
  have hend := forEach_inv (fun t => I t ∧ Named t ∧ varName e1.2 f1.getUniqueId ∈ t.2) _ _
    (fun cnt2 hcnt2 t t' ht hb => addNeighbour_keeps hI h1 hr1 hf1 hcnt2 ht hb)
    u s'.1 ⟨hIu, hstep.2 hs.2, hmem⟩ hloop
  have hstep2 : Step u s'.1 := forEach_step _ _ (fun _ _ _ _ hb => addNeighbour_step hb) _ _ hloop
  exact ⟨⟨hend.1, hend.2.1⟩, idx, hcs,
    LPWrapper.extends_colNames_get hstep2.1.1 (hget hs.2), hend.2.2⟩

theorem candidates_loop (hI : QMIPInvariant self m time_to_name fm I)
    {cnt1 : Nat} {e1 : ℚ × String} {row1 : List (Feature ℚ)}
    (h1 : time_to_name[cnt1]? = some e1) (hr1 : fm e1.2 = some row1)
    {s st : BuildState} {cs : List Nat} (hs : I s ∧ Named s)
    (h : forEach (addCandidate self m time_to_name fm cnt1 e1) row1.enum (s, []) =
      some (st, cs)) :
    (I st ∧ Named st) ∧ SelectionColumns st e1.2 cs row1 := by
  have hend := forEach_prefix_inv
    (fun fpre (t : BuildState × List Nat) => (I t.1 ∧ Named t.1) ∧
      SelectionColumns t.1 e1.2 t.2 (fpre.map Prod.snd))
    (addCandidate self m time_to_name fm cnt1 e1) row1.enum
    (fun fpre a post t t' hl hK hb => by
      have ha : a ∈ row1.enum := by
        rw [hl]; exact List.mem_append_right _ (List.mem_cons_self _ _)
      obtain ⟨i0, f0⟩ := a
      obtain ⟨hJ, idx, hcs, hget, hmem⟩ := addCandidate_keeps hI h1 hr1
        (List.mk_mem_enum_iff_getElem?.1 ha) hK.1 hb
      refine ⟨hJ, ?_⟩
      rw [hcs, List.map_append]
      exact List.rel_append
        (selectionColumns_mono (addCandidate_step hb).1 hK.2)
        (List.Forall₂.cons ⟨hget, hmem⟩ List.Forall₂.nil))
    (s, []) (st, cs) ⟨hs, List.Forall₂.nil⟩ h
  simp only [List.enum_map_snd] at hend
  exact hend

theorem addPosition_keeps (hI : QMIPInvariant self m time_to_name fm I)
    {cnt1 : Nat} {s s' : BuildState} (hs : I s ∧ Named s)
    (h : addPosition self m time_to_name fm cnt1 s = some s') : I s' ∧ Named s' := by
  refine ⟨?_, (addPosition_step h).2 hs.2⟩
  obtain ⟨e1, row1, st, cs, h1, hr1, hloop, rfl⟩ := addPosition_some h
  obtain ⟨hJ, hcols⟩ := candidates_loop hI h1 hr1 hs hloop
  exact hI.3 st e1 row1 cs hJ.1 hJ.2 (getElem?_mem_list h1) hr1 hcols

/-- Induction over the build of the model of Strategy B. -/
theorem build_induct (hI : QMIPInvariant self m time_to_name fm I)
    (h0 : I (LPWrapper.new.setObjectiveSense Sense.MIN, []))
    {s : BuildState} (hb : buildProblem self m time_to_name fm = some s) : I s ∧ Named s :=
  forEach_inv (fun t => I t ∧ Named t) _ _
    (fun _ _ _ _ ht hb' => addPosition_keeps hI ht hb') _ s
    ⟨h0, fun n hn => absurd hn (List.not_mem_nil n)⟩ hb

/-- The assignment row of every group of the window is in the model, on columns that
carry the names of the selection variables of the candidates of the group. -/
theorem group_row_encoded {P : LPWrapper} {vars : List String}
    (hb : buildProblem self m time_to_name fm = some (P, vars))
    {e : ℚ × String} (he : e ∈ time_to_name) {feats : List (Feature ℚ)}
    (hfe : fm e.2 = some feats) :
    ∃ cs, assignmentRow e.2 cs ∈ P.rows ∧ SelectionColumns (P, vars) e.2 cs feats := by
  obtain ⟨k, hk, hke⟩ := List.getElem_of_mem he
  have hget : time_to_name[k]? = some e := by rw [List.getElem?_eq_getElem hk, hke]
  obtain ⟨sa, sb, hsa, hpos, hsb⟩ := forEach_mem Step step_refl (fun _ _ _ => step_trans) _ _
    (fun _ _ _ _ hb' => addPosition_step hb') k (List.mem_range.2 hk) _ _ hb
  have hnamed : Named sa := hsa.2 (fun n hn => absurd hn (List.not_mem_nil n))
  obtain ⟨e1, row1, st, cs, h1, hr1, hloop, rfl⟩ := addPosition_some hpos
  rw [hget] at h1
  obtain rfl := Option.some.inj h1
  rw [hfe] at hr1
  obtain rfl := Option.some.inj hr1
  have htriv : QMIPInvariant self m time_to_name fm (fun _ => True) :=
    ⟨fun _ _ _ _ _ _ => trivial, fun _ _ _ _ _ _ _ _ _ _ _ _ _ _ _ _ _ _ _ _ _ _ => trivial,
      fun _ _ _ _ _ _ _ _ _ => trivial⟩
  obtain ⟨_, hcols⟩ := candidates_loop htriv hget hfe ⟨trivial, hnamed⟩ hloop
  refine ⟨cs, LPWrapper.extends_row_mem hsb.1.1 (by simp), ?_⟩
  have hg : Grows st ({ st.1 with rows := st.1.rows ++ [assignmentRow e.2 cs] }, st.2) :=
    ⟨LPWrapper.extends_addRows _ _, fun _ h => h⟩
  exact selectionColumns_mono hsb.1 (selectionColumns_mono hg hcols)

end MRMFeatureSelectorQMIP

/-! ## Assignment rows -/

theorem assignmentRow_eval (g : String) (indices : List Nat) (x : Nat → ℚ) :
    (assignmentRow g indices).eval x = (indices.map x).sum := by
  unfold assignmentRow Row.eval
  simp only
  induction indices with
  | nil => rfl
  | cons a l ih =>
    simp only [List.length_cons, List.replicate_succ, List.zip_cons_cons, List.map_cons,
      List.sum_cons, one_mul, ih]

theorem assignmentRow_OK (g : String) (indices : List Nat) (x : Nat → ℚ) :
    (assignmentRow g indices).OK x ↔ (indices.map x).sum = 1 := by
  unfold Row.OK
  rw [assignmentRow_eval]
  simp only [assignmentRow, boundOK]
  exact ⟨fun h => le_antisymm h.2 h.1, fun h => ⟨h.ge, h.le⟩⟩

/-- A model with an assignment row without columns has no solution. -/
theorem not_rowsOK_of_empty_row {P : LPWrapper} {g : String}
    (h : assignmentRow g [] ∈ P.rows) (x : Nat → ℚ) : ¬ P.RowsOK x := by
  intro hx
  have := (assignmentRow_OK g [] x).1 (hx _ h)
  simp at this

theorem MRMFeatureSelectorScore.score_empty_group_row {self : MRMFeatureSelector} {m : CMath ℚ}
    {time_to_name : List (ℚ × String)} {fm : String → Option (List (Feature ℚ))}
    {P : LPWrapper} {vars : List String}
    (hb : MRMFeatureSelectorScore.buildProblem self m time_to_name fm = some (P, vars))
    {e : ℚ × String} (he : e ∈ time_to_name) (hempty : fm e.2 = some []) :
    assignmentRow e.2 [] ∈ P.rows := by
  obtain ⟨sa, sb, _, hgrp, hsb⟩ := forEach_mem Step step_refl (fun _ _ _ => step_trans) _ _
    (fun _ _ _ _ hb' => MRMFeatureSelectorScore.addGroup_step hb') e he _ _ hb
  obtain ⟨features, st, cs, hf, hloop, rfl⟩ := MRMFeatureSelectorScore.addGroup_some hgrp
  rw [hempty] at hf
  obtain rfl := Option.some.inj hf
  simp only [forEach, Option.some.injEq, Prod.mk.injEq] at hloop
  obtain ⟨rfl, rfl⟩ := hloop
  exact LPWrapper.extends_row_mem hsb.1.1 (by simp)

theorem MRMFeatureSelectorQMIP.qmip_empty_group_row {self : MRMFeatureSelector} {m : CMath ℚ}
    {time_to_name : List (ℚ × String)} {fm : String → Option (List (Feature ℚ))}
    {P : LPWrapper} {vars : List String}
    (hb : MRMFeatureSelectorQMIP.buildProblem self m time_to_name fm = some (P, vars))
    {e : ℚ × String} (he : e ∈ time_to_name) (hempty : fm e.2 = some []) :
    assignmentRow e.2 [] ∈ P.rows := by
  obtain ⟨k, hk, hke⟩ := List.getElem_of_mem he
  have hget : time_to_name[k]? = some e := by rw [List.getElem?_eq_getElem hk, hke]
  obtain ⟨sa, sb, _, hpos, hsb⟩ := forEach_mem Step step_refl (fun _ _ _ => step_trans) _ _
    (fun _ _ _ _ hb' => MRMFeatureSelectorQMIP.addPosition_step hb') k
    (List.mem_range.2 hk) _ _ hb
  obtain ⟨e1, row1, st, cs, h1, hr1, hloop, rfl⟩ := MRMFeatureSelectorQMIP.addPosition_some hpos
  rw [hget] at h1
  obtain rfl := Option.some.inj h1
  rw [hempty] at hr1
  obtain rfl := Option.some.inj hr1
  simp only [List.enum_nil, forEach, Option.some.injEq, Prod.mk.injEq] at hloop
  obtain ⟨rfl, rfl⟩ := hloop
  exact LPWrapper.extends_row_mem hsb.1.1 (by simp)

theorem binary_of_bounds {v : ℚ} (hd : v.den = 1) (h0 : 0 ≤ v) (h1 : v ≤ 1) : v = 0 ∨ v = 1 := by
  have hv : ((v.num : ℤ) : ℚ) = v := Rat.coe_int_num_of_den_eq_one hd
  rw [← hv] at h0 h1 ⊢
  have h0' : (0 : ℤ) ≤ v.num := by exact_mod_cast h0
  have h1' : v.num ≤ (1 : ℤ) := by exact_mod_cast h1
  rcases (by omega : v.num = 0 ∨ v.num = 1) with h | h
  · left; rw [h]; norm_num
  · right; rw [h]; norm_num

theorem forall₂_exists_left {α β : Type} {R : α → β → Prop} {l1 : List α} {l2 : List β}
    (h : List.Forall₂ R l1 l2) {b : β} (hb : b ∈ l2) : ∃ a ∈ l1, R a b := by
  induction h with
  | nil => exact absurd hb (List.not_mem_nil b)
  | cons hab _ ih =>
    rcases List.mem_cons.1 hb with h1 | h1
    · exact ⟨_, List.mem_cons_self _ _, h1 ▸ hab⟩
    · obtain ⟨a, ha, hr⟩ := ih h1
      exact ⟨a, List.mem_cons_of_mem _ ha, hr⟩

theorem forall₂_exists_right {α β : Type} {R : α → β → Prop} {l1 : List α} {l2 : List β}
    (h : List.Forall₂ R l1 l2) {a : α} (ha : a ∈ l1) : ∃ b ∈ l2, R a b := by
  induction h with
  | nil => exact absurd ha (List.not_mem_nil a)
  | cons hab _ ih =>
    rcases List.mem_cons.1 ha with h1 | h1
    · exact ⟨_, List.mem_cons_self _ _, h1 ▸ hab⟩
    · obtain ⟨b, hb, hr⟩ := ih h1
      exact ⟨b, List.mem_cons_of_mem _ hb, hr⟩

theorem binary_sum_zero (x : Nat → ℚ) : ∀ idxs : List Nat,
    (∀ i ∈ idxs, x i = 0 ∨ x i = 1) → (idxs.map x).sum = 0 → ∀ i ∈ idxs, x i = 0 := by
  intro idxs
  induction idxs with
  | nil => intro _ _ i hi; exact absurd hi (List.not_mem_nil i)
  | cons a l ih =>
    intro hbin hsum i hi
    simp only [List.map_cons, List.sum_cons] at hsum
    have hnn : 0 ≤ (l.map x).sum := by
      apply List.sum_nonneg
      intro v hv
      obtain ⟨j, hj, rfl⟩ := List.mem_map.1 hv
      rcases hbin j (List.mem_cons_of_mem _ hj) with h | h <;> rw [h] <;> norm_num
    have ha : x a = 0 := by
      rcases hbin a (List.mem_cons_self _ _) with h | h
      · exact h
      · rw [h] at hsum; linarith
    rcases List.mem_cons.1 hi with h | h
    · rw [h]; exact ha
    · exact ih (fun j hj => hbin j (List.mem_cons_of_mem _ hj)) (by rw [ha] at hsum; linarith) i h

/-- Among candidates whose columns take the values `0` and `1` and add up to `1`,
exactly one is selected. -/
theorem exists_unique_selected {α : Type} (R : Nat → α → Prop) (Sel : α → Prop)
    (x : Nat → ℚ) (hsel : ∀ i f, R i f → (Sel f ↔ x i = 1)) :
    ∀ (idxs : List Nat) (feats : List α), List.Forall₂ R idxs feats →
      (∀ i ∈ idxs, x i = 0 ∨ x i = 1) → (idxs.map x).sum = 1 →
      ∃ f, f ∈ feats ∧ Sel f ∧ ∀ f', f' ∈ feats → Sel f' → f' = f := by
  intro idxs feats hrel
  induction hrel with
  | nil => intro _ hsum; simp at hsum
  | @cons i f is fs hif hrest ih =>
    intro hbin hsum
    simp only [List.map_cons, List.sum_cons] at hsum
    have hbin' : ∀ j ∈ is, x j = 0 ∨ x j = 1 := fun j hj => hbin j (List.mem_cons_of_mem _ hj)
    rcases hbin i (List.mem_cons_self _ _) with h0 | h1
    · rw [h0, zero_add] at hsum
      obtain ⟨g, hg, hselg, huniq⟩ := ih hbin' hsum
      refine ⟨g, List.mem_cons_of_mem _ hg, hselg, fun f' hf' hself' => ?_⟩
      rcases List.mem_cons.1 hf' with h | h
      · subst h
        have := (hsel i f' hif).1 hself'
        rw [h0] at this
        exact absurd this (by norm_num)
      · exact huniq f' h hself'
    · rw [h1] at hsum
      have hz := binary_sum_zero x is hbin' (by linarith)
      refine ⟨f, List.mem_cons_self _ _, (hsel i f hif).2 h1, fun f' hf' hself' => ?_⟩
      rcases List.mem_cons.1 hf' with h | h
      · exact h
      · obtain ⟨j, hj, hr⟩ := forall₂_exists_left hrest h
        have := (hsel j f' hr).1 hself'
        rw [hz j hj] at this
        exact absurd this (by norm_num)

theorem nodup_getElem?_inj {α : Type} {l : List α} (h : l.Nodup) {i j : Nat} {a : α}
    (hi : l[i]? = some a) (hj : l[j]? = some a) : i = j := by
  obtain ⟨hi1, hi2⟩ := List.getElem?_eq_some_iff.1 hi
  obtain ⟨hj1, hj2⟩ := List.getElem?_eq_some_iff.1 hj
  exact (List.Nodup.getElem_inj_iff h).1 (hi2.trans hj2.symm)

theorem LPWrapper.colsOK_get {P : LPWrapper} {x : Nat → ℚ} (h : P.ColsOK x) {i : Nat}
    {c : Column} (hc : P.cols[i]? = some c) : c.OK (x i) :=
  h (i, c) (List.mk_mem_enum_iff_getElem?.2 hc)

theorem LPWrapper.getColumnName_eq {P : LPWrapper} {c : Nat} {n : String}
    (h : P.colNames[c]? = some n) : P.getColumnName c = n := by
  unfold LPWrapper.getColumnName
  rw [h]; rfl

theorem LPWrapper.colNames_lt {P : LPWrapper} {c : Nat} {n : String}
    (h : P.colNames[c]? = some n) : c < P.cols.length := by
  have := (List.getElem?_eq_some_iff.1 h).1
  simpa [LPWrapper.colNames] using this

theorem LPWrapper.colNames_of_lt {P : LPWrapper} {c : Nat} (h : c < P.cols.length) :
    P.colNames[c]? = some (P.getColumnName c) := by
  have h' : c < P.colNames.length := by simpa [LPWrapper.colNames] using h
  unfold LPWrapper.getColumnName
  rw [List.getElem?_eq_getElem h']; rfl

theorem MRMFeatureSelectorScore.score_mem_extract (self : MRMFeatureSelector) (P : LPWrapper)
    (x : Nat → ℚ) (n : String) :
    n ∈ MRMFeatureSelectorScore.extract self P x ↔
      ∃ c, self.optimal_threshold_ ≤ x c ∧ P.colNames[c]? = some n := by
  unfold MRMFeatureSelectorScore.extract LPWrapper.getNumberOfColumns
  simp only [List.mem_map, List.mem_filter, List.mem_range, decide_eq_true_eq]
  constructor
  · rintro ⟨c, ⟨hc, hx⟩, rfl⟩
    exact ⟨c, hx, LPWrapper.colNames_of_lt hc⟩
  · rintro ⟨c, hx, hn⟩
    exact ⟨c, ⟨LPWrapper.colNames_lt hn, hx⟩, LPWrapper.getColumnName_eq hn⟩

/-! ## The windows of `select_MRMFeature` -/

theorem segment_lengths_of_pos (self : MRMFeatureSelector) (n : Nat)
    (hw : 0 < self.segment_window_length_) :
    self.segment_lengths n = (self.segment_window_length_, self.segment_step_length_) := by
  unfold segment_lengths
  rw [if_neg]
  intro h
  rw [h.1] at hw
  exact absurd hw (by norm_num)

theorem mem_segments (self : MRMFeatureSelector) (n : Nat)
    (hw : 0 < self.segment_window_length_) (se : Nat × Nat) :
    se ∈ self.segments n ↔ ∃ i, i < n_segments n self.segment_step_length_ ∧
      se = (segment_start self.segment_step_length_ i,
        segment_end n self.segment_window_length_ self.segment_step_length_ i) := by
  unfold segments
  rw [segment_lengths_of_pos self n hw]
  simp only [List.mem_map, List.mem_range]
  constructor
  · rintro ⟨i, hi, rfl⟩; exact ⟨i, hi, rfl⟩
  · rintro ⟨i, hi, rfl⟩; exact ⟨i, hi, rfl⟩

theorem segment_start_lt (n : Nat) (sl : ℚ) (hs : 0 < sl) (i : Nat) (hi : i < n_segments n sl) :
    sl * (i : ℚ) < n := by
  unfold n_segments at hi
  have h := Nat.lt_ceil.1 hi
  rw [lt_div_iff₀ hs] at h
  linarith

theorem segment_bounds (n : Nat) (wl sl : ℚ) (hw : 0 < wl) (hs : 0 < sl) (i : Nat)
    (hi : i < n_segments n sl) :
    segment_start sl i ≤ segment_end n wl sl i ∧ segment_end n wl sl i ≤ n := by
  have hlt := segment_start_lt n sl hs i hi
  have h0 : (0 : ℚ) ≤ sl * i := by positivity
  have hfl : ((segment_start sl i : ℕ) : ℚ) ≤ sl * i := Nat.floor_le h0
  constructor
  · unfold segment_end
    apply Nat.le_floor
    apply le_min
    · linarith
    · linarith
  · unfold segment_end
    calc ⌊min ((segment_start sl i : ℚ) + wl) (n : ℚ)⌋₊ ≤ ⌊(n : ℚ)⌋₊ :=
          Nat.floor_le_floor (min_le_right _ _)
      _ = n := Nat.floor_natCast n

theorem segment_cover (n : Nat) (wl sl : ℚ) (hs : 0 < sl) (hcf : ⌈sl⌉₊ ≤ ⌊wl⌋₊)
    (k : Nat) (hk : k < n) :
    ∃ i, i < n_segments n sl ∧ segment_start sl i ≤ k ∧ k < segment_end n wl sl i := by
  have hw0 : (0 : ℚ) ≤ wl := by
    by_contra hneg
    have : ⌊wl⌋₊ = 0 := Nat.floor_of_nonpos (le_of_lt (not_le.1 hneg))
    have h1 : 0 < ⌈sl⌉₊ := Nat.ceil_pos.2 hs
    omega
  have hkpos : (0 : ℚ) < ((k : ℚ) + 1) / sl := by positivity
  have hc1 : 0 < ⌈((k : ℚ) + 1) / sl⌉₊ := Nat.ceil_pos.2 hkpos
  obtain ⟨i, hi⟩ : ∃ i, ⌈((k : ℚ) + 1) / sl⌉₊ = i + 1 := ⟨_, (Nat.succ_pred_eq_of_pos hc1).symm⟩
  have hle : ((k : ℚ) + 1) / sl ≤ ((i + 1 : ℕ) : ℚ) := hi ▸ Nat.le_ceil _
  have hlt : (i : ℚ) < ((k : ℚ) + 1) / sl := Nat.lt_ceil.1 (by omega)
  rw [div_le_iff₀ hs] at hle
  rw [lt_div_iff₀ hs] at hlt
  push_cast at hle
  have h0 : (0 : ℚ) ≤ sl * i := by positivity
  refine ⟨i, ?_, ?_, ?_⟩
  · unfold n_segments
    have hmono : ⌈((k : ℚ) + 1) / sl⌉₊ ≤ ⌈(n : ℚ) / sl⌉₊ := by
      apply Nat.ceil_le_ceil
      apply div_le_div_of_nonneg_right _ (le_of_lt hs)
      exact_mod_cast hk
    omega
  · unfold segment_start
    have : ⌊sl * (i : ℚ)⌋₊ < k + 1 := by
      rw [Nat.floor_lt h0]
      push_cast
      linarith
    omega
  · unfold segment_end
    rw [Nat.lt_iff_add_one_le, Nat.le_floor_iff (le_min (by positivity) (by positivity))]
    apply le_min
    · -- `k + 1 ≤ sl * (i + 1) < ⌊sl * i⌋ + 1 + ⌈sl⌉ ≤ ⌊sl * i⌋ + 1 + wl`, between integers
      have hceil : sl ≤ (⌈sl⌉₊ : ℚ) := Nat.le_ceil sl
      have hfloor : ((⌊wl⌋₊ : ℕ) : ℚ) ≤ wl := Nat.floor_le hw0
      have hcf' : ((⌈sl⌉₊ : ℕ) : ℚ) ≤ ((⌊wl⌋₊ : ℕ) : ℚ) := by exact_mod_cast hcf
      have hfl : sl * (i : ℚ) < (segment_start sl i : ℚ) + 1 := Nat.lt_floor_add_one _
      have hint : ((k + 1 : ℕ) : ℚ) < ((segment_start sl i + 1 + ⌈sl⌉₊ : ℕ) : ℚ) := by
        push_cast
        linarith
      have hint' : k + 1 < segment_start sl i + 1 + ⌈sl⌉₊ := by exact_mod_cast hint
      have hint'' : ((k + 1 : ℕ) : ℚ) ≤ ((segment_start sl i + ⌈sl⌉₊ : ℕ) : ℚ) := by
        exact_mod_cast (by omega : k + 1 ≤ segment_start sl i + ⌈sl⌉₊)
      push_cast at hint'' ⊢
      linarith
    · exact_mod_cast hk

theorem segment_disjoint (n : Nat) (wl sl : ℚ) (hs : 0 < sl) (i i' : Nat) (hii : i < i')
    (k : Nat) (hk : k < segment_end n wl sl i) (hk' : segment_start sl i' ≤ k) : sl < wl := by
  have h0 : (0 : ℚ) ≤ sl * i := by positivity
  have hfl : ((segment_start sl i : ℕ) : ℚ) ≤ sl * i := Nat.floor_le h0
  have h1 : ((k : ℚ) + 1) ≤ (segment_start sl i : ℚ) + wl := by
    unfold segment_end at hk
    have hpos : 0 < ⌊min ((segment_start sl i : ℚ) + wl) (n : ℚ)⌋₊ := by omega
    have hnn : (0 : ℚ) ≤ min ((segment_start sl i : ℚ) + wl) (n : ℚ) := by
      by_contra hneg
      rw [Nat.floor_of_nonpos (le_of_lt (not_le.1 hneg))] at hpos
      exact absurd hpos (lt_irrefl 0)
    have h2 := (Nat.le_floor_iff hnn).1 (Nat.lt_iff_add_one_le.1 hk)
    push_cast at h2
    exact le_trans h2 (min_le_left _ _)
  have h2 : sl * ((i : ℚ) + 1) < (k : ℚ) + 1 := by
    have hmono : sl * ((i : ℚ) + 1) ≤ sl * (i' : ℚ) := by
      apply mul_le_mul_of_nonneg_left _ (le_of_lt hs)
      exact_mod_cast hii
    have hlt : sl * (i' : ℚ) < (segment_start sl i' : ℚ) + 1 := Nat.lt_floor_add_one _
    have hk'' : ((segment_start sl i' : ℕ) : ℚ) ≤ (k : ℚ) := by exact_mod_cast hk'
    linarith
  nlinarith


/-! ## Exactly one candidate per group -/

theorem count_le_one_getElem?_inj {α : Type} [DecidableEq α] {a : α} :
    ∀ {l : List α} {i j : Nat}, l.count a ≤ 1 → l[i]? = some a → l[j]? = some a → i = j := by
  intro l
  induction l with
  | nil => intro i j _ hi _; simp at hi
  | cons b t ih =>
    intro i j hc hi hj
    rw [List.count_cons] at hc
    cases i with
    | zero =>
      simp only [List.getElem?_cons_zero, Option.some.injEq] at hi
      subst hi
      cases j with
      | zero => rfl
      | succ j =>
        simp only [List.getElem?_cons_succ] at hj
        have hmem : b ∈ t := getElem?_mem_list hj
        have : 0 < t.count b := List.count_pos_iff.2 hmem
        simp at hc
        omega
    | succ i =>
      simp only [List.getElem?_cons_succ] at hi
      cases j with
      | zero =>
        simp only [List.getElem?_cons_zero, Option.some.injEq] at hj
        subst hj
        have hmem : b ∈ t := getElem?_mem_list hi
        have : 0 < t.count b := List.count_pos_iff.2 hmem
        simp at hc
        omega
      | succ j =>
        simp only [List.getElem?_cons_succ] at hj
        have : t.count a ≤ 1 := by omega
        rw [ih this hi hj]

theorem MRMFeatureSelectorQMIP.selectionBounded_invariant (self : MRMFeatureSelector)
    (m : CMath ℚ) (time_to_name : List (ℚ × String))
    (fm : String → Option (List (Feature ℚ))) :
    QMIPInvariant self m time_to_name fm (SelectionBounded self) := by
  refine ⟨?_, ?_, ?_⟩
  · intro s n hI _ _ _ k hk
    simp only [withSelection, List.mem_append, List.mem_singleton]
    rcases List.mem_cons.1 hk with h | h
    · right; rw [h]
    · left; exact hI k h
  · intro s cnt1 cnt2 e1 e2 row1 row2 i j f1 f2 hI _ _ _ _ _ _ _ _ _ _ k hk
    simp only [MRMFeatureSelectorQMIP.withPair, List.mem_append]
    exact Or.inl (hI k hk)
  · intro s e feats cs hI _ _ _ _ k hk
    exact hI k hk

theorem MRMFeatureSelectorQMIP.qmip_mem_extract (self : MRMFeatureSelector) (P : LPWrapper)
    (vars : List String) (x : Nat → ℚ) (n : String) :
    n ∈ MRMFeatureSelectorQMIP.extract self P vars x ↔
      ∃ c, x c - self.optimal_threshold_ > 1 / 1000000 ∧ P.colNames[c]? = some n ∧
        n ∈ vars := by
  unfold MRMFeatureSelectorQMIP.extract LPWrapper.getNumberOfColumns
  simp only [List.mem_map, List.mem_filter, List.mem_range, Bool.and_eq_true,
    decide_eq_true_eq]
  constructor
  · rintro ⟨c, ⟨hc, hx, hv⟩, rfl⟩
    exact ⟨c, hx, LPWrapper.colNames_of_lt hc, hv⟩
  · rintro ⟨c, hx, hn, hv⟩
    have e := LPWrapper.getColumnName_eq hn
    exact ⟨c, ⟨LPWrapper.colNames_lt hn, hx, by rw [e]; exact hv⟩, e⟩

theorem MRMFeatureSelector.columnType_integer {self : MRMFeatureSelector}
    (h : self.variable_type_ = s_integer) : self.columnType = VariableType.INTEGER := by
  unfold columnType
  rw [if_pos h]

theorem MRMFeatureSelector.supported_of_integer {self : MRMFeatureSelector}
    (h : self.variable_type_ = s_integer) : self.Supported := Or.inl h

/-- The value of a bounded integer column is `0` or `1`. -/
theorem binary_of_column {self : MRMFeatureSelector} (hint : self.variable_type_ = s_integer)
    {P : LPWrapper} {x : Nat → ℚ} (hx : P.ColsOK x) {i : Nat} {n : String} {obj : ℚ}
    (hc : P.cols[i]? = some (self.newColumn n true obj)) : x i = 0 ∨ x i = 1 := by
  have h := LPWrapper.colsOK_get hx hc
  simp only [Column.OK, newColumn, if_true, boundOK, columnType_integer hint, typeOK] at h
  exact binary_of_bounds h.2 h.1.1 h.1.2

/-- Strategy A under the integer variable type: exactly one candidate of every group is
in the result. -/
theorem MRMFeatureSelectorScore.score_exactly_one {self : MRMFeatureSelector} {m : CMath ℚ}
    {time_to_name : List (ℚ × String)} {fm : String → Option (List (Feature ℚ))}
    (hint : self.variable_type_ = s_integer) (hthr : self.optimal_threshold_ = 1 / 2)
    (hnd : (time_to_name.map Prod.snd).Nodup)
    (huid : ∀ e ∈ time_to_name, ∀ feats, fm e.2 = some feats →
      (feats.map Feature.getUniqueId).Nodup)
    {P : LPWrapper} {vars : List String}
    (hb : MRMFeatureSelectorScore.buildProblem self m time_to_name fm = some (P, vars))
    {x : Nat → ℚ} (hx : P.Feasible x) {e : ℚ × String} (he : e ∈ time_to_name)
    {feats : List (Feature ℚ)} (hfe : fm e.2 = some feats) :
    ∃ f, f ∈ feats ∧ varName e.2 f.getUniqueId ∈ MRMFeatureSelectorScore.extract self P x ∧
      ∀ f', f' ∈ feats →
        varName e.2 f'.getUniqueId ∈ MRMFeatureSelectorScore.extract self P x → f' = f := by
  obtain ⟨hnodup, _, _, _, _, hgroups, _, _⟩ :=
    MRMFeatureSelectorScore.buildProblem_state hnd huid hb
  obtain ⟨idxs, hrow, hcols⟩ := hgroups e he feats hfe
  have hsum := (assignmentRow_OK e.2 idxs x).1 (hx.2 _ hrow)
  have hbin : ∀ i ∈ idxs, x i = 0 ∨ x i = 1 := by
    intro i hi
    obtain ⟨f, _, hf⟩ := forall₂_exists_right hcols hi
    exact binary_of_column hint hx.1 hf
  refine exists_unique_selected _ (fun f => varName e.2 f.getUniqueId ∈
    MRMFeatureSelectorScore.extract self P x) x ?_ idxs feats hcols hbin hsum
  intro i f hif
  have hname : P.colNames[i]? = some (varName e.2 f.getUniqueId) := by
    simpa [newColumn] using LPWrapper.colNames_of_col hif
  show varName e.2 f.getUniqueId ∈ MRMFeatureSelectorScore.extract self P x ↔ x i = 1
  rw [MRMFeatureSelectorScore.score_mem_extract, hthr]
  constructor
  · rintro ⟨c, hc, hcn⟩
    have hci : c = i := nodup_getElem?_inj hnodup hcn hname
    subst hci
    rcases binary_of_column hint hx.1 hif with h | h
    · rw [h] at hc; norm_num at hc
    · exact h
  · intro h1
    exact ⟨i, by rw [h1]; norm_num, hname⟩

/-- Strategy B under the integer variable type, when every name of the set `variables`
is the name of one column only: exactly one candidate of every group is in the result. -/
theorem MRMFeatureSelectorQMIP.qmip_exactly_one {self : MRMFeatureSelector} {m : CMath ℚ}
    {time_to_name : List (ℚ × String)} {fm : String → Option (List (Feature ℚ))}
    (hint : self.variable_type_ = s_integer) (hthr : self.optimal_threshold_ = 1 / 2)
    {P : LPWrapper} {vars : List String}
    (hb : MRMFeatureSelectorQMIP.buildProblem self m time_to_name fm = some (P, vars))
    (hcount : ∀ n ∈ vars, P.colNames.count n = 1)
    {x : Nat → ℚ} (hx : P.Feasible x) {e : ℚ × String} (he : e ∈ time_to_name)
    {feats : List (Feature ℚ)} (hfe : fm e.2 = some feats) :
    ∃ f, f ∈ feats ∧
      varName e.2 f.getUniqueId ∈ MRMFeatureSelectorQMIP.extract self P vars x ∧
      ∀ f', f' ∈ feats →
        varName e.2 f'.getUniqueId ∈ MRMFeatureSelectorQMIP.extract self P vars x → f' = f := by
  obtain ⟨cs, hrow, hcols⟩ := MRMFeatureSelectorQMIP.group_row_encoded hb he hfe
  have hbounded := (MRMFeatureSelectorQMIP.build_induct
    (MRMFeatureSelectorQMIP.selectionBounded_invariant self m time_to_name fm)
    (fun n hn => absurd hn (List.not_mem_nil n)) hb).1
  have hsum := (assignmentRow_OK e.2 cs x).1 (hx.2 _ hrow)
  have hcol : ∀ (i : Nat) (n : String), P.colNames[i]? = some n → n ∈ vars →
      P.cols[i]? = some (self.newColumn n true 0) := by
    intro i n hin hnv
    obtain ⟨j, hj⟩ : ∃ j, P.cols[j]? = some (self.newColumn n true 0) :=
      List.getElem?_of_mem (hbounded n hnv)
    have hjn : P.colNames[j]? = some n := by
      simpa [newColumn] using LPWrapper.colNames_of_col hj
    have hij : i = j := count_le_one_getElem?_inj (le_of_eq (hcount n hnv)) hin hjn
    rw [hij]; exact hj
  have hbin : ∀ i ∈ cs, x i = 0 ∨ x i = 1 := by
    intro i hi
    obtain ⟨f, _, hf⟩ := forall₂_exists_right hcols hi
    exact binary_of_column hint hx.1 (hcol i _ hf.1 hf.2)
  refine exists_unique_selected _ (fun f => varName e.2 f.getUniqueId ∈
    MRMFeatureSelectorQMIP.extract self P vars x) x ?_ cs feats hcols hbin hsum
  intro i f hif
  show varName e.2 f.getUniqueId ∈ MRMFeatureSelectorQMIP.extract self P vars x ↔ x i = 1
  rw [MRMFeatureSelectorQMIP.qmip_mem_extract, hthr]
  constructor
  · rintro ⟨c, hc, hcn, hv⟩
    have hci : c = i := count_le_one_getElem?_inj (le_of_eq (hcount _ hv)) hcn hif.1
    subst hci
    rcases binary_of_column hint hx.1 (hcol c _ hif.1 hif.2) with h | h
    · rw [h] at hc; norm_num at hc
    · exact h
  · intro h1
    exact ⟨i, by rw [h1]; norm_num, hif.1, hif.2⟩

/-! ## The optimum of Strategy A -/

theorem LPWrapper.objective_eq_sum (P : LPWrapper) (x : Nat → ℚ) :
    P.objective x = Finset.sum (Finset.range P.cols.length) fun c => P.getObjective c * x c := by
  unfold LPWrapper.objective LPWrapper.getNumberOfColumns
  rw [← List.sum_toFinset _ (List.nodup_range _)]
  congr 1
  ext c
  simp

/-- The exchange step: moving the whole weight of a group to its cheapest column does
not improve an optimal solution, so an optimal solution has no weight elsewhere. -/
theorem exchange_to_cheapest (P : LPWrapper) (S : Finset Nat)
    (hS : S ⊆ Finset.range P.cols.length) (istar : Nat) (hi : istar ∈ S) (x : Nat → ℚ)
    (hx0 : ∀ c ∈ S, 0 ≤ x c) (hsum : S.sum x = 1)
    (ho : ∀ c ∈ S, c ≠ istar → P.getObjective istar < P.getObjective c)
    (hopt : P.objective x ≤
      P.objective (fun c => if c ∈ S then (if c = istar then 1 else 0) else x c)) :
    ∀ c ∈ S, c ≠ istar → x c = 0 := by
  rw [P.objective_eq_sum, P.objective_eq_sum] at hopt
  have h1 : Finset.sum (Finset.range P.cols.length)
      (fun c => P.getObjective c * (if c ∈ S then (if c = istar then 1 else 0) else x c)) -
      Finset.sum (Finset.range P.cols.length) (fun c => P.getObjective c * x c) =
      Finset.sum S (fun c => (P.getObjective istar - P.getObjective c) * x c) := by
    rw [← Finset.sum_sub_distrib]
    rw [← Finset.sum_subset hS (f := fun c => P.getObjective c *
      (if c ∈ S then (if c = istar then 1 else 0) else x c) - P.getObjective c * x c)]
    · have h2 : Finset.sum S (fun c => (P.getObjective istar - P.getObjective c) * x c) =
          P.getObjective istar - Finset.sum S (fun c => P.getObjective c * x c) := by
        simp only [sub_mul]
        rw [Finset.sum_sub_distrib, ← Finset.mul_sum, hsum, mul_one]
      rw [h2, Finset.sum_sub_distrib]
      congr 1
      rw [Finset.sum_eq_single istar]
      · simp [hi]
      · intro c hc hne
        simp [hc, hne]
      · intro h; exact absurd hi h
    · intro c _ hc
      simp [hc]
  have h3 : 0 ≤ Finset.sum S (fun c => (P.getObjective istar - P.getObjective c) * x c) := by
    rw [← h1]; linarith
  have hnonpos : ∀ c ∈ S, (P.getObjective istar - P.getObjective c) * x c ≤ 0 := by
    intro c hc
    by_cases hci : c = istar
    · rw [hci, sub_self, zero_mul]
    · exact mul_nonpos_of_nonpos_of_nonneg (by linarith [ho c hc hci]) (hx0 c hc)
  have h4 : Finset.sum S (fun c => (P.getObjective istar - P.getObjective c) * x c) = 0 :=
    le_antisymm (Finset.sum_nonpos hnonpos) h3
  intro c hc hne
  have h5 := (Finset.sum_eq_zero_iff_of_nonpos hnonpos).1 h4 c hc
  rcases mul_eq_zero.1 h5 with h | h
  · linarith [ho c hc hne]
  · exact h

theorem exists_min_of_ne_nil {α : Type} (g : α → ℚ) :
    ∀ l : List α, l ≠ [] → ∃ a ∈ l, ∀ b ∈ l, g a ≤ g b := by
  intro l
  induction l with
  | nil => intro h; exact absurd rfl h
  | cons a t ih =>
    intro _
    by_cases ht : t = []
    · subst ht
      exact ⟨a, List.mem_cons_self _ _, fun b hb => by
        rw [List.mem_singleton.1 hb]⟩
    · obtain ⟨c, hc, hmin⟩ := ih ht
      by_cases hac : g a ≤ g c
      · refine ⟨a, List.mem_cons_self _ _, fun b hb => ?_⟩
        rcases List.mem_cons.1 hb with h | h
        · rw [h]
        · exact le_trans hac (hmin b h)
      · refine ⟨c, List.mem_cons_of_mem _ hc, fun b hb => ?_⟩
        rcases List.mem_cons.1 hb with h | h
        · rw [h]; exact le_of_lt (not_le.1 hac)
        · exact hmin b h

theorem columnsOf_name {self : MRMFeatureSelector} {P : LPWrapper} {i : Nat}
    {n : String} {obj : ℚ} (h : P.cols[i]? = some (self.newColumn n true obj)) :
    P.colNames[i]? = some n := by
  simpa [newColumn] using LPWrapper.colNames_of_col h

theorem columnsOf_same_feature {self : MRMFeatureSelector} {P : LPWrapper} {g : String}
    {i : Nat} {f f' : Feature ℚ} {o o' : ℚ}
    (h : P.cols[i]? = some (self.newColumn (varName g f.getUniqueId) true o))
    (h' : P.cols[i]? = some (self.newColumn (varName g f'.getUniqueId) true o')) :
    f.getUniqueId = f'.getUniqueId := by
  rw [h] at h'
  have := congrArg Column.name (Option.some.inj h')
  exact (varName_inj this).2

theorem columnsOf_nodup {self : MRMFeatureSelector} {m : CMath ℚ} {P : LPWrapper} {g : String}
    {idxs : List Nat} {feats : List (Feature ℚ)} (hc : ColumnsOf self m P g idxs feats)
    (hnd : (feats.map Feature.getUniqueId).Nodup) : idxs.Nodup := by
  unfold ColumnsOf at hc
  induction hc with
  | nil => exact List.nodup_nil
  | @cons i f is fs hif hrest ih =>
    rw [List.map_cons, List.nodup_cons] at hnd
    refine List.nodup_cons.2 ⟨fun hmem => ?_, ih hnd.2⟩
    obtain ⟨f', hf', hr⟩ := forall₂_exists_right hrest hmem
    exact hnd.1 (columnsOf_same_feature hif hr ▸ List.mem_map_of_mem _ hf')

theorem columnsOf_unique {self : MRMFeatureSelector} {m : CMath ℚ} {P : LPWrapper}
    (hnodup : P.colNames.Nodup) {g : String} {feats : List (Feature ℚ)} :
    ∀ {idxs idxs' : List Nat}, ColumnsOf self m P g idxs feats →
      ColumnsOf self m P g idxs' feats → idxs = idxs' := by
  induction feats with
  | nil =>
    intro idxs idxs' h h'
    cases h; cases h'; rfl
  | cons f fs ih =>
    intro idxs idxs' h h'
    cases h with
    | cons hif hrest =>
      cases h' with
      | cons hif' hrest' =>
        rw [nodup_getElem?_inj hnodup (columnsOf_name hif)
          (columnsOf_name hif'), ih hrest hrest']

theorem sum_indicator_of_nodup {idxs : List Nat} (hnd : idxs.Nodup) {istar : Nat}
    (hi : istar ∈ idxs) :
    (idxs.map fun c => if c = istar then (1 : ℚ) else 0).sum = 1 := by
  rw [← List.sum_toFinset _ hnd, Finset.sum_ite_eq']
  simp [hi]

theorem LPWrapper.getObjective_eq {P : LPWrapper} {c : Nat} {col : Column}
    (h : P.cols[c]? = some col) : P.getObjective c = col.obj := by
  unfold LPWrapper.getObjective
  rw [h]; rfl

theorem columnType_OK (self : MRMFeatureSelector) (v : ℚ) (hv : v = 0 ∨ v = 1) :
    typeOK self.columnType v := by
  unfold columnType
  split
  · rcases hv with h | h <;> rw [h] <;> rfl
  · trivial

/-- Strategy A: in an optimal solution the cheapest candidate of every group has the
value `1` and the other candidates of the group have the value `0`. -/
theorem MRMFeatureSelectorScore.optimum_values {self : MRMFeatureSelector} {m : CMath ℚ}
    {time_to_name : List (ℚ × String)} {fm : String → Option (List (Feature ℚ))}
    (hnd : (time_to_name.map Prod.snd).Nodup)
    (huid : ∀ e ∈ time_to_name, ∀ feats, fm e.2 = some feats →
      (feats.map Feature.getUniqueId).Nodup)
    {P : LPWrapper} {vars : List String}
    (hb : MRMFeatureSelectorScore.buildProblem self m time_to_name fm = some (P, vars))
    {x : Nat → ℚ} (hx : P.Optimal x) {e : ℚ × String} (he : e ∈ time_to_name)
    {feats : List (Feature ℚ)} (hfe : fm e.2 = some feats)
    (hscore : (feats.map (MRMFeatureSelectorScore.make_score m)).Nodup) :
    ∃ f, f ∈ feats ∧
      (∀ f' ∈ feats, MRMFeatureSelectorScore.make_score m f ≤
        MRMFeatureSelectorScore.make_score m f') ∧
      ∃ idxs, ColumnsOf self m P e.2 idxs feats ∧ P.colNames.Nodup ∧
        ∀ i f', i ∈ idxs → P.cols[i]? = some (self.newColumn (varName e.2 f'.getUniqueId) true
          (MRMFeatureSelectorScore.make_score m f')) → f' ∈ feats →
          (f' = f → x i = 1) ∧ (f' ≠ f → x i = 0) := by
  obtain ⟨hnodup, _, _, hcols, hrows, hgroups, _, hsense⟩ :=
    MRMFeatureSelectorScore.buildProblem_state hnd huid hb
  simp only at hnodup hcols hrows hgroups hsense
  obtain ⟨idxs, hrow, hcolsOf⟩ := hgroups e he feats hfe
  have hfeas := hx.1
  have hsum := (assignmentRow_OK e.2 idxs x).1 (hfeas.2 _ hrow)
  have huidf := huid e he feats hfe
  have hidxnd : idxs.Nodup := columnsOf_nodup hcolsOf huidf
  have hne : feats ≠ [] := by
    rintro rfl
    cases hcolsOf
    simp at hsum
  obtain ⟨f, hf, hmin⟩ := exists_min_of_ne_nil (MRMFeatureSelectorScore.make_score m) feats hne
  obtain ⟨istar, histar, hrel⟩ := forall₂_exists_left hcolsOf hf
  have hcol01 : ∀ c col, P.cols[c]? = some col → 0 ≤ x c ∧ x c ≤ 1 := by
    intro c col hc
    have h1 := (LPWrapper.colsOK_get hfeas.1 hc).1
    obtain ⟨hl, hu, hb', _⟩ := hcols col (getElem?_mem_list hc)
    rw [hb', hl, hu] at h1
    exact h1
  -- the assignment that moves the weight of the group to the cheapest candidate
  have hyfeas : P.Feasible
      (fun c => if c ∈ idxs.toFinset then (if c = istar then 1 else 0) else x c) := by
    constructor
    · intro ic hic
      have hc := List.mk_mem_enum_iff_getElem?.1 hic
      obtain ⟨hl, hu, hb', ht⟩ := hcols ic.2 (getElem?_mem_list hc)
      by_cases hmem : ic.1 ∈ idxs.toFinset
      · simp only [hmem, if_true]
        have hv : (if ic.1 = istar then (1 : ℚ) else 0) = 0 ∨
            (if ic.1 = istar then (1 : ℚ) else 0) = 1 := by
          split
          · exact Or.inr rfl
          · exact Or.inl rfl
        refine ⟨?_, ht ▸ columnType_OK self _ hv⟩
        rw [hb', hl, hu]
        rcases hv with h | h <;> rw [h] <;> simp [boundOK]
      · simp only [hmem, if_false]
        exact LPWrapper.colsOK_get hfeas.1 hc
    · intro r hr
      obtain ⟨e', he', feats', idxs', hfe', rfl, hcolsOf'⟩ := hrows r hr
      rw [assignmentRow_OK]
      by_cases hee : e'.2 = e.2
      · rw [hee] at hfe' hcolsOf'
        rw [hfe] at hfe'
        obtain rfl := Option.some.inj hfe'
        rw [columnsOf_unique hnodup hcolsOf' hcolsOf]
        refine Eq.trans ?_ (sum_indicator_of_nodup hidxnd histar)
        congr 1
        apply List.map_congr_left
        intro c hc
        simp [hc]
      · have hx' := (assignmentRow_OK e'.2 idxs' x).1 (hfeas.2 _ hr)
        rw [← hx']
        congr 1
        apply List.map_congr_left
        intro c hc
        have hnot : c ∉ idxs.toFinset := by
          intro hmem
          obtain ⟨f1, _, hr1⟩ := forall₂_exists_right hcolsOf' hc
          obtain ⟨f2, _, hr2⟩ := forall₂_exists_right hcolsOf (List.mem_toFinset.1 hmem)
          rw [hr1] at hr2
          have := congrArg Column.name (Option.some.inj hr2)
          exact hee (varName_inj this).1
        simp [hnot]
  have hopt : P.objective x ≤ P.objective
      (fun c => if c ∈ idxs.toFinset then (if c = istar then 1 else 0) else x c) := by
    have h := hx.2 _ hyfeas
    rw [hsense] at h
    exact h
  have hzero := exchange_to_cheapest P idxs.toFinset
    (by
      intro c hc
      obtain ⟨f1, _, hr1⟩ := forall₂_exists_right hcolsOf (List.mem_toFinset.1 hc)
      exact Finset.mem_range.2 (LPWrapper.colNames_lt (columnsOf_name hr1)))
    istar (List.mem_toFinset.2 histar) x
    (by
      intro c hc
      obtain ⟨f1, _, hr1⟩ := forall₂_exists_right hcolsOf (List.mem_toFinset.1 hc)
      exact (hcol01 c _ hr1).1)
    (by rw [List.sum_toFinset _ hidxnd]; exact hsum)
    (by
      intro c hc hne'
      obtain ⟨f1, hf1, hr1⟩ := forall₂_exists_right hcolsOf (List.mem_toFinset.1 hc)
      rw [LPWrapper.getObjective_eq hrel, LPWrapper.getObjective_eq hr1]
      simp only [newColumn]
      refine lt_of_le_of_ne (hmin f1 hf1) (fun heq => hne' ?_)
      have hff : f = f1 := List.inj_on_of_nodup_map hscore hf hf1 heq
      subst hff
      exact nodup_getElem?_inj hnodup (columnsOf_name hr1) (columnsOf_name hrel))
    hopt
  have hone : x istar = 1 := by
    have h1 : Finset.sum idxs.toFinset x = 1 := by
      rw [List.sum_toFinset _ hidxnd]; exact hsum
    rw [Finset.sum_eq_single istar] at h1
    · exact h1
    · intro c hc hne'
      exact hzero c hc hne'
    · intro h; exact absurd (List.mem_toFinset.2 histar) h
  refine ⟨f, hf, hmin, idxs, hcolsOf, hnodup, fun i f' hi hif' hf' => ?_⟩
  constructor
  · intro hff
    subst hff
    rw [nodup_getElem?_inj hnodup (columnsOf_name hif') (columnsOf_name hrel)]
    exact hone
  · intro hff
    apply hzero i (List.mem_toFinset.2 hi)
    intro hii
    subst hii
    exact hff (List.inj_on_of_nodup_map huidf hf' hf (columnsOf_same_feature hif' hrel))

/-- The assignment `1, 0, 1` is an optimal solution of the model of Strategy A for the
example window: its objective value is `10`, and every feasible assignment `y` has the
objective value `6 * y 0 + 12 * y 1 + 4 * y 2 = 10 + 6 * y 1`. -/
theorem exScore_optimal : exScore.1.Optimal exScoreValues := by
  have hcols : exScore.1.cols =
      [⟨"A_1", 0, 1, LPType.DOUBLE_BOUNDED, VariableType.INTEGER, 6⟩,
       ⟨"A_2", 0, 1, LPType.DOUBLE_BOUNDED, VariableType.INTEGER, 12⟩,
       ⟨"B_3", 0, 1, LPType.DOUBLE_BOUNDED, VariableType.INTEGER, 4⟩] := by decide!
  have hrows : exScore.1.rows = [assignmentRow "A" [0, 1], assignmentRow "B" [2]] := by decide!
  have hsense : exScore.1.sense = Sense.MIN := by decide!
  have hobj : ∀ y : Nat → ℚ, exScore.1.objective y = 6 * y 0 + 12 * y 1 + 4 * y 2 := by
    intro y
    simp only [LPWrapper.objective, LPWrapper.getNumberOfColumns, LPWrapper.getObjective, hcols]
    simp [List.range_succ]
    ring
  refine ⟨by decide!, fun y hy => ?_⟩
  rw [hsense]
  show exScore.1.objective exScoreValues ≤ exScore.1.objective y
  rw [hobj, hobj]
  have hA := (assignmentRow_OK "A" [0, 1] y).1 (hy.2 _ (by rw [hrows]; simp))
  have hB := (assignmentRow_OK "B" [2] y).1 (hy.2 _ (by rw [hrows]; simp))
  have h1 : 0 ≤ y 1 := by
    have := LPWrapper.colsOK_get hy.1 (i := 1) (by rw [hcols]; rfl)
    exact this.1.1
  simp only [List.map_cons, List.map_nil, List.sum_cons, List.sum_nil, add_zero] at hA hB
  have e0 : exScoreValues 0 = 1 := by decide!
  have e1 : exScoreValues 1 = 0 := by decide!
  have e2 : exScoreValues 2 = 1 := by decide!
  rw [e0, e1, e2]
  linarith

/-! ## A feasible point of objective value zero, and the lower bound of the objective -/

theorem Row.eval_congr (r : Row) {x y : Nat → ℚ} (h : ∀ i ∈ r.indices, x i = y i) :
    r.eval x = r.eval y := by
  unfold Row.eval
  congr 1
  apply List.map_congr_left
  intro iv hiv
  rw [h iv.1 (List.of_mem_zip hiv).1]

theorem Row.OK_congr (r : Row) {x y : Nat → ℚ} (h : ∀ i ∈ r.indices, x i = y i) :
    r.OK x ↔ r.OK y := by
  unfold Row.OK
  rw [r.eval_congr h]

theorem getD_append_lt (v w : List ℚ) {i : Nat} (h : i < v.length) :
    (v ++ w).getD i 0 = v.getD i 0 := by
  simp [List.getD_eq_getElem?_getD, List.getElem?_append_left h]

theorem getD_append_length (v : List ℚ) (a : ℚ) (w : List ℚ) :
    (v ++ a :: w).getD v.length 0 = a := by
  rw [List.getD_eq_getElem?_getD, List.getElem?_append_right (Nat.le_refl _)]
  simp

theorem getD_append_length_succ (v : List ℚ) (a b : ℚ) (w : List ℚ) :
    (v ++ a :: b :: w).getD (v.length + 1) 0 = b := by
  rw [List.getD_eq_getElem?_getD, List.getElem?_append_right (Nat.le_add_right _ _)]
  simp

theorem getElem?_lt_length {α : Type} {l : List α} {i : Nat} {a : α} (h : l[i]? = some a) :
    i < l.length := (List.getElem?_eq_some_iff.1 h).1

theorem getElem?_append_cases {α : Type} {l w : List α} {i : Nat} {c : α}
    (h : (l ++ w)[i]? = some c) :
    (i < l.length ∧ l[i]? = some c) ∨ (l.length ≤ i ∧ w[i - l.length]? = some c) := by
  by_cases hi : i < l.length
  · rw [List.getElem?_append_left hi] at h
    exact Or.inl ⟨hi, h⟩
  · rw [List.getElem?_append_right (Nat.le_of_not_lt hi)] at h
    exact Or.inr ⟨Nat.le_of_not_lt hi, h⟩

theorem indexOf_append_lt {l : List String} {n : String} (h : n ∈ l) (w : List String) :
    (l ++ w).indexOf n < l.length ∧ l[(l ++ w).indexOf n]? = some n := by
  rw [List.indexOf_append_of_mem h]
  have hlt := List.indexOf_lt_length.2 h
  refine ⟨hlt, ?_⟩
  rw [List.getElem?_eq_getElem hlt]
  simp

theorem zero_or_one_OK (self : MRMFeatureSelector) (n : String) (obj v : ℚ)
    (hv : v = 0 ∨ v = 1) : (self.newColumn n true obj).OK v := by
  refine ⟨?_, columnType_OK self v hv⟩
  simp only [newColumn, if_true, boundOK]
  rcases hv with h | h <;> rw [h] <;> norm_num

theorem chosen_iff {time_to_name : List (ℚ × String)}
    {fm : String → Option (List (Feature ℚ))} {e : ℚ × String} (he : e ∈ time_to_name)
    {f0 : Feature ℚ} {rest : List (Feature ℚ)} (hfe : fm e.2 = some (f0 :: rest))
    (f : Feature ℚ) :
    Chosen time_to_name fm (varName e.2 f.getUniqueId) ↔ f.getUniqueId = f0.getUniqueId := by
  constructor
  · rintro ⟨e', _, f', rest', hfe', hn⟩
    obtain ⟨h1, h2⟩ := varName_inj hn
    rw [← h1, hfe] at hfe'
    have := Option.some.inj hfe'
    simp only [List.cons.injEq] at this
    rw [h2, this.1]
  · intro h
    exact ⟨e, he, f0, rest, hfe, by rw [h]⟩

theorem zeroSolvable_sel (self : MRMFeatureSelector) {time_to_name : List (ℚ × String)}
    {fm : String → Option (List (Feature ℚ))} {s : BuildState} {n : String}
    (hI : ZeroSolvable time_to_name fm s) :
    ZeroSolvable time_to_name fm (withSelection self s n) := by
  classical
  obtain ⟨v, hlen, hcols, hrows, hnames⟩ := hI
  refine ⟨v ++ [if Chosen time_to_name fm n then 1 else 0], ?_, ?_, ?_, ?_⟩
  · simp [withSelection, hlen]
  · intro i c hc
    simp only [withSelection] at hc
    rcases getElem?_append_cases hc with ⟨hi, h⟩ | ⟨hi, h⟩
    · rw [getD_append_lt _ _ (hlen ▸ hi)]
      exact hcols i c h
    · have hi' : i = s.1.cols.length := by
        have := getElem?_lt_length h
        simp only [List.length_singleton] at this
        omega
      subst hi'
      simp only [Nat.sub_self, List.getElem?_cons_zero, Option.some.injEq] at h
      subst h
      rw [← hlen, getD_append_length]
      refine ⟨zero_or_one_OK self n 0 _ ?_, by simp [newColumn]⟩
      split
      · exact Or.inr rfl
      · exact Or.inl rfl
  · intro r hr
    obtain ⟨hok, hidx⟩ := hrows r hr
    refine ⟨?_, fun i hi => ?_⟩
    · refine (r.OK_congr fun i hi => ?_).1 hok
      exact (getD_append_lt _ _ (hlen ▸ hidx i hi)).symm
    · have := hidx i hi
      simp only [withSelection, List.length_append, List.length_singleton]
      omega
  · intro i k hk hsel
    have hk' : (s.1.colNames ++ [n])[i]? = some k := by
      simpa [withSelection, LPWrapper.colNames, newColumn] using hk
    rcases getElem?_append_cases hk' with ⟨hi, h⟩ | ⟨hi, h⟩
    · have hi2 : i < v.length := by
        rw [hlen]; simpa [LPWrapper.colNames] using hi
      rw [getD_append_lt _ _ hi2]
      exact hnames i k h hsel
    · have hi' : i = v.length := by
        have := getElem?_lt_length h
        simp only [List.length_singleton, LPWrapper.colNames, List.length_map] at this hi
        omega
      subst hi'
      have hkn : k = n := by
        have hz : v.length - s.1.colNames.length = 0 := by
          simp [LPWrapper.colNames, hlen]
        rw [hz] at h
        simpa using h.symm
      subst hkn
      rw [getD_append_length]
      constructor
      · intro hch; rw [if_pos hch]
      · intro hch; rw [if_neg hch]

theorem zeroSolvable_pair (self : MRMFeatureSelector) {time_to_name : List (ℚ × String)}
    {fm : String → Option (List (Feature ℚ))} {s : BuildState} {name1 name2 qp : String}
    (hI : ZeroSolvable time_to_name fm s) (hnamed : Named s)
    (h1 : name1 ∈ s.2) (h2 : name2 ∈ s.2)
    (hs1 : SelectionName time_to_name fm name1) (hs2 : SelectionName time_to_name fm name2)
    (hq : ¬ SelectionName time_to_name fm qp)
    (habs : ¬ SelectionName time_to_name fm (qp ++ "-ABS")) :
    ZeroSolvable time_to_name fm
      (MRMFeatureSelectorQMIP.withPair self s.1 name1 name2 qp 0, s.2) := by
  classical
  obtain ⟨v, hlen, hcols, hrows, hnames⟩ := hI
  obtain ⟨hi1, hg1⟩ := indexOf_append_lt (hnamed _ h1) [qp, qp ++ "-ABS"]
  obtain ⟨hi2, hg2⟩ := indexOf_append_lt (hnamed _ h2) [qp, qp ++ "-ABS"]
  have hcl : s.1.colNames.length = v.length := by simp [LPWrapper.colNames, hlen]
  have hbin : ∀ (i : Nat) (n : String), s.1.colNames[i]? = some n →
      SelectionName time_to_name fm n → v.getD i 0 = 0 ∨ v.getD i 0 = 1 := by
    intro i n hin hsn
    by_cases hc : Chosen time_to_name fm n
    · exact Or.inr ((hnames i n hin hsn).1 hc)
    · exact Or.inl ((hnames i n hin hsn).2 hc)
  have ha := hbin _ _ hg1 hs1
  have hb := hbin _ _ hg2 hs2
  have hab : v.getD ((s.1.colNames ++ [qp, qp ++ "-ABS"]).indexOf name1) 0 *
      v.getD ((s.1.colNames ++ [qp, qp ++ "-ABS"]).indexOf name2) 0 = 0 ∨
      v.getD ((s.1.colNames ++ [qp, qp ++ "-ABS"]).indexOf name1) 0 *
      v.getD ((s.1.colNames ++ [qp, qp ++ "-ABS"]).indexOf name2) 0 = 1 := by
    rcases ha with h | h <;> rcases hb with h' | h' <;> rw [h, h'] <;> norm_num
  refine ⟨v ++ [v.getD ((s.1.colNames ++ [qp, qp ++ "-ABS"]).indexOf name1) 0 *
      v.getD ((s.1.colNames ++ [qp, qp ++ "-ABS"]).indexOf name2) 0, 0], ?_, ?_, ?_, ?_⟩
  · simp [MRMFeatureSelectorQMIP.withPair, hlen]
  · intro i c hc
    simp only [MRMFeatureSelectorQMIP.withPair] at hc
    rcases getElem?_append_cases hc with ⟨hi, h⟩ | ⟨hi, h⟩
    · rw [getD_append_lt _ _ (hlen ▸ hi)]
      exact hcols i c h
    · have hi' : i = v.length ∨ i = v.length + 1 := by
        have := getElem?_lt_length h
        simp only [List.length_cons, List.length_nil] at this
        omega
      rcases hi' with rfl | rfl
      · rw [hlen, Nat.sub_self] at h
        simp only [List.getElem?_cons_zero, Option.some.injEq] at h
        subst h
        rw [getD_append_length]
        exact ⟨zero_or_one_OK self qp 0 _ hab, by simp [newColumn]⟩
      · rw [hlen, Nat.add_sub_cancel_left] at h
        simp only [List.getElem?_cons_succ, List.getElem?_cons_zero, Option.some.injEq] at h
        subst h
        rw [getD_append_length_succ]
        refine ⟨⟨?_, columnType_OK self 0 (Or.inl rfl)⟩, by simp⟩
        simp [newColumn, boundOK]
  · intro r hr
    simp only [MRMFeatureSelectorQMIP.withPair] at hr
    have hlen2 : (MRMFeatureSelectorQMIP.withPair self s.1 name1 name2 qp 0, s.2).1.cols.length =
        v.length + 2 := by
      simp [MRMFeatureSelectorQMIP.withPair, hlen]
    rw [hlen2]
    rw [hcl] at hi1 hi2
    have e1 := getD_append_lt v [v.getD ((s.1.colNames ++ [qp, qp ++ "-ABS"]).indexOf name1) 0 *
      v.getD ((s.1.colNames ++ [qp, qp ++ "-ABS"]).indexOf name2) 0, 0] hi1
    have e2 := getD_append_lt v [v.getD ((s.1.colNames ++ [qp, qp ++ "-ABS"]).indexOf name1) 0 *
      v.getD ((s.1.colNames ++ [qp, qp ++ "-ABS"]).indexOf name2) 0, 0] hi2
    have e3 := getD_append_length v
      (v.getD ((s.1.colNames ++ [qp, qp ++ "-ABS"]).indexOf name1) 0 *
        v.getD ((s.1.colNames ++ [qp, qp ++ "-ABS"]).indexOf name2) 0) [0]
    have e4 := getD_append_length_succ v
      (v.getD ((s.1.colNames ++ [qp, qp ++ "-ABS"]).indexOf name1) 0 *
        v.getD ((s.1.colNames ++ [qp, qp ++ "-ABS"]).indexOf name2) 0) 0 []
    rcases List.mem_append.1 hr with hold | hnew
    · obtain ⟨hok, hidx⟩ := hrows r hold
      refine ⟨?_, fun i hi => by have := hidx i hi; omega⟩
      refine (r.OK_congr fun i hi => ?_).1 hok
      exact (getD_append_lt _ _ (hlen ▸ hidx i hi)).symm
    · simp only [List.mem_cons, List.mem_singleton, List.not_mem_nil, or_false] at hnew
      rcases hnew with rfl | rfl | rfl | rfl | rfl
      · refine ⟨?_, ?_⟩
        · simp only [Row.OK, Row.eval, boundOK, List.zip_cons_cons, List.zip_nil_right,
            List.map_cons, List.map_nil, List.sum_cons, List.sum_nil, ← hlen, e1, e3]
          rcases ha with h | h <;> rcases hb with h' | h' <;> rw [h, h'] <;> norm_num
        · intro i hi
          simp only [List.mem_cons, List.mem_singleton, List.not_mem_nil, or_false] at hi
          rcases hi with rfl | rfl <;> omega
      · refine ⟨?_, ?_⟩
        · simp only [Row.OK, Row.eval, boundOK, List.zip_cons_cons, List.zip_nil_right,
            List.map_cons, List.map_nil, List.sum_cons, List.sum_nil, ← hlen, e2, e3]
          rcases ha with h | h <;> rcases hb with h' | h' <;> rw [h, h'] <;> norm_num
        · intro i hi
          simp only [List.mem_cons, List.mem_singleton, List.not_mem_nil, or_false] at hi
          rcases hi with rfl | rfl <;> omega
      · refine ⟨?_, ?_⟩
        · simp only [Row.OK, Row.eval, boundOK, List.zip_cons_cons, List.zip_nil_right,
            List.map_cons, List.map_nil, List.sum_cons, List.sum_nil, ← hlen, e1, e2, e3]
          rcases ha with h | h <;> rcases hb with h' | h' <;> rw [h, h'] <;> norm_num
        · intro i hi
          simp only [List.mem_cons, List.mem_singleton, List.not_mem_nil, or_false] at hi
          rcases hi with rfl | rfl | rfl <;> omega
      · refine ⟨?_, ?_⟩
        · simp only [Row.OK, Row.eval, boundOK, List.zip_cons_cons, List.zip_nil_right,
            List.map_cons, List.map_nil, List.sum_cons, List.sum_nil, ← hlen, e3, e4]
          norm_num
        · intro i hi
          simp only [List.mem_cons, List.mem_singleton, List.not_mem_nil, or_false] at hi
          rcases hi with rfl | rfl <;> omega
      · refine ⟨?_, ?_⟩
        · simp only [Row.OK, Row.eval, boundOK, List.zip_cons_cons, List.zip_nil_right,
            List.map_cons, List.map_nil, List.sum_cons, List.sum_nil, ← hlen, e3, e4]
          norm_num
        · intro i hi
          simp only [List.mem_cons, List.mem_singleton, List.not_mem_nil, or_false] at hi
          rcases hi with rfl | rfl <;> omega
  · intro i k hk hsel
    have hk' : (s.1.colNames ++ [qp, qp ++ "-ABS"])[i]? = some k := by
      simpa [MRMFeatureSelectorQMIP.withPair, LPWrapper.colNames, newColumn] using hk
    rcases getElem?_append_cases hk' with ⟨hi, h⟩ | ⟨hi, h⟩
    · rw [getD_append_lt _ _ (hcl ▸ hi)]
      exact hnames i k h hsel
    · have hmem : k ∈ [qp, qp ++ "-ABS"] := getElem?_mem_list h
      simp only [List.mem_cons, List.mem_singleton, List.not_mem_nil, or_false] at hmem
      rcases hmem with rfl | rfl
      · exact absurd hsel hq
      · exact absurd hsel habs

theorem zeroSolvable_row {time_to_name : List (ℚ × String)}
    {fm : String → Option (List (Feature ℚ))} {s : BuildState} {e : ℚ × String}
    {feats : List (Feature ℚ)} {cs : List Nat}
    (hI : ZeroSolvable time_to_name fm s) (he : e ∈ time_to_name)
    (hfe : fm e.2 = some feats) (hne : feats ≠ [])
    (hnd : (feats.map Feature.getUniqueId).Nodup)
    (hcs : SelectionColumns s e.2 cs feats) :
    ZeroSolvable time_to_name fm (withAssignment s e.2 cs) := by
  obtain ⟨v, hlen, hcols, hrows, hnames⟩ := hI
  refine ⟨v, hlen, hcols, ?_, hnames⟩
  intro r hr
  simp only [withAssignment] at hr
  rcases List.mem_append.1 hr with hold | hnew
  · exact hrows r hold
  · simp only [List.mem_singleton] at hnew
    subst hnew
    have hsel : ∀ f ∈ feats, SelectionName time_to_name fm (varName e.2 f.getUniqueId) :=
      fun f hf => ⟨e, he, feats, hfe, f, hf, rfl⟩
    refine ⟨?_, fun i hi => ?_⟩
    · rw [assignmentRow_OK]
      cases feats with
      | nil => exact absurd rfl hne
      | cons f0 rest =>
        cases hcs with
        | @cons i0 _ is _ h0 hrest =>
          rw [List.map_cons, List.nodup_cons] at hnd
          have hone : v.getD i0 0 = 1 :=
            (hnames i0 _ h0.1 (hsel f0 (List.mem_cons_self _ _))).1
              ((chosen_iff he hfe f0).2 rfl)
          have hzero : ∀ a ∈ is.map (fun i => v.getD i 0), a = 0 := by
            intro a ha
            obtain ⟨i, hi, rfl⟩ := List.mem_map.1 ha
            obtain ⟨f, hf, hr'⟩ := forall₂_exists_right hrest hi
            refine (hnames i _ hr'.1 (hsel f (List.mem_cons_of_mem _ hf))).2 ?_
            intro hch
            have := (chosen_iff he hfe f).1 hch
            exact hnd.1 (this ▸ List.mem_map_of_mem _ hf)
          rw [List.map_cons, List.sum_cons, hone, List.sum_eq_zero hzero, add_zero]
    · obtain ⟨f, _, hr'⟩ := forall₂_exists_right hcs (by simpa [assignmentRow] using hi)
      exact LPWrapper.colNames_lt hr'.1

/-- The three kinds of steps of the build keep the feasible point of objective value
`0`, when no auxiliary variable has the name of a selection variable, every visited pair
has the score `0` and every group has candidates with distinct unique ids. -/
theorem MRMFeatureSelectorQMIP.zeroSolvable_invariant (self : MRMFeatureSelector)
    (m : CMath ℚ) (time_to_name : List (ℚ × String))
    (fm : String → Option (List (Feature ℚ)))
    (hnc : NoCollision self time_to_name fm) (hzero : ZeroScores self m time_to_name fm)
    (hgroups : ∀ e ∈ time_to_name, ∀ feats, fm e.2 = some feats →
      feats ≠ [] ∧ (feats.map Feature.getUniqueId).Nodup) :
    QMIPInvariant self m time_to_name fm (ZeroSolvable time_to_name fm) := by
  refine ⟨?_, ?_, ?_⟩
  · intro s n hI _ _ _
    exact zeroSolvable_sel self hI
  · intro s cnt1 cnt2 e1 e2 row1 row2 i j f1 f2 hI hnamed h1 hr1 hf1 hn h2 hr2 hf2 hm1 hm2
    rw [hzero cnt1 cnt2 i j e1 e2 row1 row2 f1 f2 h1 hr1 hf1 hn h2 hr2 hf2]
    exact zeroSolvable_pair self hI hnamed hm1 hm2
      ⟨e1, getElem?_mem_list h1, row1, hr1, f1, getElem?_mem_list hf1, rfl⟩
      ⟨e2, getElem?_mem_list h2, row2, hr2, f2, getElem?_mem_list hf2, rfl⟩
      (fun hs => (hnc cnt1 cnt2 i j e1 e2 _ h1 h2 hn hs).1 rfl)
      (fun hs => (hnc cnt1 cnt2 i j e1 e2 _ h1 h2 hn hs).2 rfl)
  · intro s e feats cs hI _ he hfe hcs
    exact zeroSolvable_row hI he hfe (hgroups e he feats hfe).1 (hgroups e he feats hfe).2 hcs

/-- A model with a feasible point whose columns all contribute `0` has a feasible point
of objective value `0`. -/
theorem zeroSolvable_feasible {time_to_name : List (ℚ × String)}
    {fm : String → Option (List (Feature ℚ))} {s : BuildState}
    (h : ZeroSolvable time_to_name fm s) :
    ∃ x, s.1.Feasible x ∧ s.1.objective x = 0 := by
  obtain ⟨v, _, hcols, hrows, _⟩ := h
  refine ⟨fun i => v.getD i 0, ⟨?_, fun r hr => (hrows r hr).1⟩, ?_⟩
  · intro ic hic
    exact (hcols ic.1 ic.2 (List.mk_mem_enum_iff_getElem?.1 hic)).1
  · unfold LPWrapper.objective LPWrapper.getNumberOfColumns
    apply List.sum_eq_zero
    intro a ha
    obtain ⟨c, hc, rfl⟩ := List.mem_map.1 ha
    have hlt : c < s.1.cols.length := List.mem_range.1 hc
    have hget : s.1.cols[c]? = some s.1.cols[c] := List.getElem?_eq_getElem hlt
    rw [LPWrapper.getObjective_eq hget]
    exact (hcols c _ hget).2

theorem MRMFeatureSelectorQMIP.deviationBounded_invariant (self : MRMFeatureSelector)
    (m : CMath ℚ) (time_to_name : List (ℚ × String))
    (fm : String → Option (List (Feature ℚ))) :
    QMIPInvariant self m time_to_name fm DeviationBounded := by
  refine ⟨?_, ?_, ?_⟩
  · intro s n hI _ _ _ i c hc
    simp only [withSelection] at hc
    rcases getElem?_append_cases hc with ⟨_, h⟩ | ⟨_, h⟩
    · exact hI i c h
    · have hmem := getElem?_mem_list h
      simp only [List.mem_singleton] at hmem
      subst hmem
      exact Or.inl rfl
  · intro s cnt1 cnt2 e1 e2 row1 row2 i j f1 f2 hI _ _ _ _ _ _ _ _ _ _ k c hc
    simp only [MRMFeatureSelectorQMIP.withPair] at hc ⊢
    rcases getElem?_append_cases hc with ⟨_, h⟩ | ⟨hk, h⟩
    · rcases hI k c h with h0 | ⟨h1, iq, sc, np, nm, hp, hm⟩
      · exact Or.inl h0
      · exact Or.inr ⟨h1, iq, sc, np, nm, List.mem_append_left _ hp,
          List.mem_append_left _ hm⟩
    · have hk' : k = s.1.cols.length ∨ k = s.1.cols.length + 1 := by
        have := getElem?_lt_length h
        simp only [List.length_cons, List.length_nil] at this
        omega
      rcases hk' with rfl | rfl
      · rw [Nat.sub_self] at h
        simp only [List.getElem?_cons_zero, Option.some.injEq] at h
        subst h
        exact Or.inl rfl
      · rw [Nat.add_sub_cancel_left] at h
        simp only [List.getElem?_cons_succ, List.getElem?_cons_zero, Option.some.injEq] at h
        subst h
        refine Or.inr ⟨rfl, s.1.cols.length,
          MRMFeatureSelectorQMIP.pairScore self m (self.start_iter cnt1) cnt1 cnt2 e1 e2 f1 f2,
          MRMFeatureSelectorQMIP.qpName e1.2 i e2.2 j ++ "-obj+",
          MRMFeatureSelectorQMIP.qpName e1.2 i e2.2 j ++ "-obj-", ?_, ?_⟩
        · exact List.mem_append_right _ (by simp)
        · exact List.mem_append_right _ (by simp)
  · intro s e feats cs hI _ _ _ _ i c hc
    simp only [withAssignment] at hc ⊢
    rcases hI i c hc with h0 | ⟨h1, iq, sc, np, nm, hp, hm⟩
    · exact Or.inl h0
    · exact Or.inr ⟨h1, iq, sc, np, nm, List.mem_append_left _ hp, List.mem_append_left _ hm⟩

/-- The objective of a model of Strategy B is non-negative on every assignment that
satisfies its rows. -/
theorem deviationBounded_objective_nonneg {s : BuildState} (h : DeviationBounded s)
    {x : Nat → ℚ} (hx : s.1.RowsOK x) : 0 ≤ s.1.objective x := by
  unfold LPWrapper.objective LPWrapper.getNumberOfColumns
  apply List.sum_nonneg
  intro a ha
  obtain ⟨c, hc, rfl⟩ := List.mem_map.1 ha
  have hlt : c < s.1.cols.length := List.mem_range.1 hc
  have hget : s.1.cols[c]? = some s.1.cols[c] := List.getElem?_eq_getElem hlt
  rw [LPWrapper.getObjective_eq hget]
  rcases h c _ hget with h0 | ⟨h1, iq, sc, np, nm, hp, hm⟩
  · rw [h0, zero_mul]
  · rw [h1, one_mul]
    have e1 := hx _ hp
    have e2 := hx _ hm
    simp only [Row.OK, Row.eval, boundOK, List.zip_cons_cons, List.zip_nil_right,
      List.map_cons, List.map_nil, List.sum_cons, List.sum_nil] at e1 e2
    linarith

theorem qpName_eq_varName (g1 : String) (i : Nat) (g2 : String) (j : Nat) :
    MRMFeatureSelectorQMIP.qpName g1 i g2 j = varName (g1 ++ "_" ++ toString i ++ "-" ++ g2) j :=
  rfl

theorem abs_name_ne_varName (q : String) (j : Nat) (g : String) (u : Nat) :
    varName g u ≠ varName q j ++ "-ABS" := by
  intro h
  have h' := congrArg String.data h
  rw [varName_data, String.data_append, varName_data, List.append_assoc,
    List.cons_append] at h'
  have hj := (toString_data_spec j).2
  have hu := (toString_data_spec u).2
  obtain ⟨_, e2⟩ := split_at_last '_' _ _ _ _ (fun hm => (hu _ hm).1 rfl)
    (fun hm => by
      rcases List.mem_append.1 hm with h1 | h1
      · exact (hj _ h1).1 rfl
      · revert h1; decide) h'
  have : '-' ∈ (toString u).data := by
    rw [e2]
    exact List.mem_append_right _ (by decide)
  exact (hu _ this).2 rfl

/-- In a window of two entries no pair or deviation variable has the name of a selection
variable. -/
theorem noCollision_two (self : MRMFeatureSelector) (a b : ℚ × String)
    (fm : String → Option (List (Feature ℚ))) : NoCollision self [a, b] fm := by
  intro cnt1 cnt2 i j e1 e2 n h1 h2 hn hsel
  obtain ⟨e, he, feats, _, f, _, rfl⟩ := hsel
  refine ⟨fun heq => ?_, fun heq => ?_⟩
  · rw [qpName_eq_varName] at heq
    have hg := congrArg String.length (varName_inj heq).1
    simp only [String.length_append] at hg
    have hne := ((self.mem_neighbours cnt1 _ cnt2).1 hn).1
    have hc1 := getElem?_lt_length h1
    have hc2 := getElem?_lt_length h2
    simp only [List.length_cons, List.length_nil] at hc1 hc2
    have hcases : e = e1 ∨ e = e2 := by
      simp only [List.mem_cons, List.mem_singleton, List.not_mem_nil, or_false] at he
      have hc : (cnt1 = 0 ∧ cnt2 = 1) ∨ (cnt1 = 1 ∧ cnt2 = 0) := by omega
      rcases hc with ⟨rfl, rfl⟩ | ⟨rfl, rfl⟩
      · simp only [List.getElem?_cons_zero, List.getElem?_cons_succ, Option.some.injEq] at h1 h2
        subst h1; subst h2
        exact he
      · simp only [List.getElem?_cons_zero, List.getElem?_cons_succ, Option.some.injEq] at h1 h2
        subst h1; subst h2
        exact he.symm
    have hd : "-".length = 1 := rfl
    have hu : "_".length = 1 := rfl
    rcases hcases with rfl | rfl <;> omega
  · rw [qpName_eq_varName] at heq
    exact abs_name_ne_varName _ _ _ _ heq

/-- When every entry of the window has the expected time `t` and every candidate of every
group of the window has the retention time `t`, every visited pair has the score `0`. -/
theorem zeroScores_of_expected (self : MRMFeatureSelector) (m : CMath ℚ)
    (time_to_name : List (ℚ × String)) (fm : String → Option (List (Feature ℚ))) (t : ℚ)
    (htime : ∀ e ∈ time_to_name, e.1 = t)
    (hrt : ∀ e ∈ time_to_name, ∀ feats, fm e.2 = some feats → ∀ f ∈ feats, f.getRT = t) :
    ZeroScores self m time_to_name fm := by
  intro cnt1 cnt2 i j e1 e2 row1 row2 f1 f2 h1 hr1 hf1 _ h2 hr2 hf2
  have m1 := getElem?_mem_list h1
  have m2 := getElem?_mem_list h2
  unfold MRMFeatureSelectorQMIP.pairScore
  rw [htime e1 m1, htime e2 m2, hrt e1 m1 row1 hr1 f1 (getElem?_mem_list hf1),
    hrt e2 m2 row2 hr2 f2 (getElem?_mem_list hf2)]
  simp


/-! ## The neighbour range in the arithmetic of `int` -/

theorem checkedInt_of_fits {z : ℤ} (h1 : -2147483648 ≤ z) (h2 : z ≤ 2147483647) :
    checkedInt z = some z := by
  unfold checkedInt fitsInt INT_MIN INT_MAX
  rw [if_pos ⟨h1, h2⟩]

theorem sizeToInt_of_le {x : Nat} (h : (x : ℤ) ≤ 2147483647) : sizeToInt x = (x : ℤ) := by
  unfold sizeToInt; omega

theorem intToSize_of_fits {z : ℤ} (h1 : 0 ≤ z) (h2 : z ≤ 2147483647) :
    intToSize z = z.toNat := by
  unfold intToSize; omega

/-- The arithmetic of `int` gives the neighbour range `start_iter`, `stop_iter` when the
threshold is not negative and the window size plus the threshold stays below `INT_MAX`. -/
theorem MRMFeatureSelector.iter_range_eq (self : MRMFeatureSelector) (cnt1 size : Nat)
    (hnn : 0 ≤ self.nn_threshold_) (hc : cnt1 < size)
    (hfit : (size : ℤ) + ⌊self.nn_threshold_⌋ + 1 ≤ INT_MAX) :
    self.iter_range cnt1 size = some (self.start_iter cnt1, self.stop_iter cnt1 size) := by
  have h0 : (0 : ℤ) ≤ ⌊self.nn_threshold_⌋ := Int.floor_nonneg.2 hnn
  unfold INT_MAX at hfit
  have hfl : toInt self.nn_threshold_ = ⌊self.nn_threshold_⌋ := toInt_of_nonneg hnn
  generalize ⌊self.nn_threshold_⌋ = fl at h0 hfit hfl
  have e1 : sizeToInt cnt1 = (cnt1 : ℤ) := sizeToInt_of_le (by omega)
  have e2 : sizeToInt size = (size : ℤ) := sizeToInt_of_le (by omega)
  have c1 : checkedInt fl = some fl := checkedInt_of_fits (by omega) (by omega)
  have c2 : checkedInt ((cnt1 : ℤ) - fl) = some ((cnt1 : ℤ) - fl) :=
    checkedInt_of_fits (by omega) (by omega)
  have c3 : checkedInt ((cnt1 : ℤ) + fl) = some ((cnt1 : ℤ) + fl) :=
    checkedInt_of_fits (by omega) (by omega)
  have c4 : checkedInt ((cnt1 : ℤ) + fl + 1) = some ((cnt1 : ℤ) + fl + 1) :=
    checkedInt_of_fits (by omega) (by omega)
  have s1 : intToSize (max ((cnt1 : ℤ) - fl) 0) = (max ((cnt1 : ℤ) - fl) 0).toNat :=
    intToSize_of_fits (le_max_right _ _) (by omega)
  have s2 : intToSize (min ((cnt1 : ℤ) + fl + 1) (size : ℤ)) =
      (min ((cnt1 : ℤ) + fl + 1) (size : ℤ)).toNat :=
    intToSize_of_fits (by omega) (by omega)
  unfold iter_range start_iter stop_iter
  rw [hfl, c1, Option.some_bind, e1, e2, c2, Option.some_bind, c3, Option.some_bind, c4,
    Option.some_bind, s1, s2]
/-! ## Strategy B: the names of the columns -/

theorem adds_refl (s : BuildState) : Adds s s [] :=
  ⟨fun _ h => h, fun n => by simp⟩

theorem adds_trans {a b c : BuildState} {l1 l2 : List String} (h1 : Adds a b l1)
    (h2 : Adds b c l2) : Adds a c (l1 ++ l2) := by
  refine ⟨fun _ h => h2.1 (h1.1 h), fun n => ?_⟩
  have e1 := h1.2 n
  have e2 := h2.2 n
  rw [List.count_append]
  omega

/-- A loop whose body appends the auxiliary columns `c a` appends their concatenation. -/
theorem forEach_adds {α σ : Type} (proj : σ → BuildState) (body : α → σ → Option σ)
    (c : α → List String) (l : List α)
    (hbody : ∀ a ∈ l, ∀ s s', body a s = some s' → Adds (proj s) (proj s') (c a)) :
    ∀ s s', forEach body l s = some s' → Adds (proj s) (proj s') (l.flatMap c) := by
  induction l with
  | nil =>
    intro s s' h
    simp only [forEach, Option.some.injEq] at h
    subst h
    exact adds_refl _
  | cons a l ih =>
    intro s s' h
    simp only [forEach] at h
    cases hb : body a s with
    | none => rw [hb] at h; exact absurd h (by simp)
    | some t =>
      rw [hb] at h
      have h1 := hbody a (List.mem_cons_self _ _) s t hb
      have h2 := ih (fun b hb' => hbody b (List.mem_cons_of_mem _ hb')) t s' h
      rw [List.flatMap_cons]
      exact adds_trans h1 h2

theorem forEach_addsB {α : Type} (body : α → BuildState → Option BuildState)
    (c : α → List String) (l : List α)
    (hbody : ∀ a ∈ l, ∀ s s', body a s = some s' → Adds s s' (c a))
    (s s' : BuildState) (h : forEach body l s = some s') : Adds s s' (l.flatMap c) :=
  forEach_adds (fun t : BuildState => t) body c l hbody s s' h

theorem forEach_addsC {α : Type}
    (body : α → BuildState × List Nat → Option (BuildState × List Nat))
    (c : α → List String) (l : List α)
    (hbody : ∀ a ∈ l, ∀ s s', body a s = some s' → Adds s.1 s'.1 (c a))
    (s s' : BuildState × List Nat) (h : forEach body l s = some s') :
    Adds s.1 s'.1 (l.flatMap c) :=
  forEach_adds (fun t : BuildState × List Nat => t.1) body c l hbody s s' h

theorem adds_withSelection (self : MRMFeatureSelector) (s : BuildState) (n : String)
    (hn : n ∉ s.2) : Adds s (withSelection self s n) [] := by
  refine ⟨fun _ h => List.mem_cons_of_mem _ h, fun k => ?_⟩
  simp only [withSelection, LPWrapper.colNames, List.map_append, List.map_cons, List.map_nil,
    List.count_append, newColumn, List.count_nil, List.mem_cons, List.count_singleton]
  by_cases hk : k = n
  · subst hk
    simp [hn]
  · have hk' : ¬ n = k := fun h => hk h.symm
    simp [hk, hk']

theorem adds_withPair (self : MRMFeatureSelector) (s : BuildState) (name1 name2 qp : String)
    (score : ℚ) :
    Adds s (MRMFeatureSelectorQMIP.withPair self s.1 name1 name2 qp score, s.2)
      [qp, qp ++ "-ABS"] := by
  refine ⟨fun _ h => h, fun k => ?_⟩
  simp only [MRMFeatureSelectorQMIP.withPair, LPWrapper.colNames, List.map_append,
    List.map_cons, List.map_nil, List.count_append, newColumn]
namespace MRMFeatureSelectorQMIP

theorem addPair_adds {self : MRMFeatureSelector} {m : CMath ℚ} {cnt1 cnt2 : Nat}
    {e1 e2 : ℚ × String} {i : Nat} {f1 : Feature ℚ} {jf : Nat × Feature ℚ} {s s' : BuildState}
    (h : addPair self m cnt1 cnt2 e1 e2 i f1 jf s = some s') :
    Adds s s' (pairNames e1 i e2 jf.1) := by
  rw [addPair_eq' self (addPair_supported h)] at h
  have h' := Option.some.inj h
  subst h'
  unfold pairNames
  by_cases hn : varName e2.2 jf.2.getUniqueId ∈ s.2
  · simp only [hn, if_true]
    exact adds_withPair self s (varName e1.2 f1.getUniqueId) (varName e2.2 jf.2.getUniqueId)
      (qpName e1.2 i e2.2 jf.1) (pairScore self m (self.start_iter cnt1) cnt1 cnt2 e1 e2 f1 jf.2)
  · simp only [hn, if_false]
    have h1 := adds_withSelection self s (varName e2.2 jf.2.getUniqueId) hn
    have h2 := adds_withPair self (withSelection self s (varName e2.2 jf.2.getUniqueId))
      (varName e1.2 f1.getUniqueId) (varName e2.2 jf.2.getUniqueId)
      (qpName e1.2 i e2.2 jf.1) (pairScore self m (self.start_iter cnt1) cnt1 cnt2 e1 e2 f1 jf.2)
    have h3 := adds_trans h1 h2
    rw [List.nil_append] at h3
    exact h3

theorem addNeighbour_adds {self : MRMFeatureSelector} {m : CMath ℚ}
    {time_to_name : List (ℚ × String)} {fm : String → Option (List (Feature ℚ))}
    {cnt1 : Nat} {e1 : ℚ × String} {i : Nat} {f1 : Feature ℚ} {cnt2 : Nat} {s s' : BuildState}
    (h : addNeighbour self m time_to_name fm cnt1 e1 i f1 cnt2 s = some s') :
    Adds s s' (neighbourNames time_to_name fm e1 i cnt2) := by
  obtain ⟨e2, row2, h2, hr2, hf⟩ := addNeighbour_some h
  unfold neighbourNames
  simp only [h2, hr2]
  exact forEach_addsB (addPair self m cnt1 cnt2 e1 e2 i f1)
    (fun jf : Nat × Feature ℚ => pairNames e1 i e2 jf.1) row2.enum
    (fun _ _ _ _ hb => addPair_adds hb) s s' hf

theorem addCandidate_adds {self : MRMFeatureSelector} {m : CMath ℚ}
    {time_to_name : List (ℚ × String)} {fm : String → Option (List (Feature ℚ))}
    {cnt1 : Nat} {e1 : ℚ × String} {ifeat : Nat × Feature ℚ} {s s' : BuildState × List Nat}
    (h : addCandidate self m time_to_name fm cnt1 e1 ifeat s = some s') :
    Adds s.1 s'.1 (candidateNames self time_to_name fm cnt1 e1 ifeat.1) := by
  obtain ⟨u, idx, _, _, _, hold, hnew, hloop, _⟩ := addCandidate_some h
  have hu : Adds s.1 u [] := by
    by_cases hn : varName e1.2 ifeat.2.getUniqueId ∈ s.1.2
    · rw [(hold hn).1]; exact adds_refl _
    · rw [(hnew hn).2.1]; exact adds_withSelection self s.1 _ hn
  have hl := forEach_addsB (addNeighbour self m time_to_name fm cnt1 e1 ifeat.1 ifeat.2)
    (neighbourNames time_to_name fm e1 ifeat.1)
    (self.neighbours cnt1 time_to_name.length) (fun _ _ _ _ hb => addNeighbour_adds hb)
    u s'.1 hloop
  exact adds_trans hu hl

theorem addPosition_adds {self : MRMFeatureSelector} {m : CMath ℚ}
    {time_to_name : List (ℚ × String)} {fm : String → Option (List (Feature ℚ))}
    {cnt1 : Nat} {s s' : BuildState}
    (h : addPosition self m time_to_name fm cnt1 s = some s') :
    Adds s s' (positionNames self time_to_name fm cnt1) := by
  obtain ⟨e1, row1, st, cs, h1, hr1, hloop, rfl⟩ := addPosition_some h
  unfold positionNames
  simp only [h1, hr1]
  have hl := forEach_addsC (addCandidate self m time_to_name fm cnt1 e1)
    (fun ifeat : Nat × Feature ℚ => candidateNames self time_to_name fm cnt1 e1 ifeat.1)
    row1.enum (fun _ _ _ _ hb => addCandidate_adds hb) (s, []) (st, cs) hloop
  exact ⟨hl.1, hl.2⟩

/-- The columns of the model of Strategy B: one for every name of the set `variables`
and the auxiliary columns of the visited pairs. -/
theorem colNames_count {self : MRMFeatureSelector} {m : CMath ℚ}
    {time_to_name : List (ℚ × String)} {fm : String → Option (List (Feature ℚ))}
    {P : LPWrapper} {vars : List String}
    (hb : buildProblem self m time_to_name fm = some (P, vars)) (n : String) :
    P.colNames.count n =
      (auxNames self time_to_name fm).count n + (if n ∈ vars then 1 else 0) := by
  have h := forEach_addsB (addPosition self m time_to_name fm)
    (positionNames self time_to_name fm)
    (List.range time_to_name.length) (fun _ _ _ _ hb' => addPosition_adds hb') _ _ hb
  have e := h.2 n
  simp only [LPWrapper.new, LPWrapper.setObjectiveSense, LPWrapper.colNames, List.map_nil,
    List.count_nil, List.not_mem_nil, if_false] at e
  unfold auxNames
  simp only [LPWrapper.colNames]
  omega

end MRMFeatureSelectorQMIP
theorem nodup_flatMap_of_key {α β : Type} (l : List α) (f : α → List β) (hl : l.Nodup)
    (hf : ∀ a ∈ l, (f a).Nodup)
    (hd : ∀ a ∈ l, ∀ b ∈ l, ∀ n, n ∈ f a → n ∈ f b → a = b) : (l.flatMap f).Nodup := by
  rw [List.nodup_flatMap]
  refine ⟨hf, ?_⟩
  have hl' : List.Pairwise (fun a b => a ≠ b) l := hl
  refine List.Pairwise.imp_of_mem ?_ hl'
  intro a b ha hb hne n hna hnb
  exact hne (hd a ha b hb n hna hnb)

theorem enum_nodup {α : Type} (l : List α) : l.enum.Nodup := by
  apply List.Nodup.of_map Prod.fst
  rw [List.enum_map_fst]
  exact List.nodup_range _

theorem enum_eq_of_fst {α : Type} {l : List α} {a b : Nat × α} (ha : a ∈ l.enum)
    (hb : b ∈ l.enum) (h : a.1 = b.1) : a = b := by
  obtain ⟨i, x⟩ := a
  obtain ⟨j, y⟩ := b
  simp only at h
  subst h
  have e1 := List.mk_mem_enum_iff_getElem?.1 ha
  have e2 := List.mk_mem_enum_iff_getElem?.1 hb
  rw [e1] at e2
  rw [Option.some.inj e2]

theorem MRMFeatureSelector.neighbours_nodup (self : MRMFeatureSelector) (cnt1 size : Nat) :
    (self.neighbours cnt1 size).Nodup := by
  unfold neighbours
  exact List.Nodup.filter _ (List.nodup_range' _ _)

theorem varName_no_dash {g : String} (u : Nat) (h : '-' ∉ g.data) :
    '-' ∉ (varName g u).data := by
  rw [varName_data]
  intro hm
  rcases List.mem_append.1 hm with h1 | h1
  · exact h h1
  · rcases List.mem_cons.1 h1 with h2 | h2
    · exact absurd h2 (by decide)
    · exact ((toString_data_spec u).2 _ h2).2 rfl

theorem qpName_data (g1 : String) (i : Nat) (g2 : String) (j : Nat) :
    (MRMFeatureSelectorQMIP.qpName g1 i g2 j).data =
      (varName g1 i).data ++ '-' :: (varName g2 j).data := by
  simp [MRMFeatureSelectorQMIP.qpName, varName, String.data_append]

theorem qpName_has_dash (g1 : String) (i : Nat) (g2 : String) (j : Nat) :
    '-' ∈ (MRMFeatureSelectorQMIP.qpName g1 i g2 j).data := by
  rw [qpName_data]
  exact List.mem_append_right _ (List.mem_cons_self _ _)

/-- The name of a pair variable determines the pair when the first group name has no
`-`. -/
theorem qpName_inj {g1 g2 h1 h2 : String} {i j k l : Nat} (hg : '-' ∉ g1.data)
    (hh : '-' ∉ h1.data)
    (h : MRMFeatureSelectorQMIP.qpName g1 i g2 j = MRMFeatureSelectorQMIP.qpName h1 k h2 l) :
    g1 = h1 ∧ i = k ∧ g2 = h2 ∧ j = l := by
  have h' := congrArg String.data h
  rw [qpName_data, qpName_data] at h'
  obtain ⟨e1, e2⟩ := split_at_first '-' _ _ _ _ (varName_no_dash i hg) (varName_no_dash k hh) h'
  obtain ⟨a1, a2⟩ := varName_inj (String.ext e1)
  obtain ⟨b1, b2⟩ := varName_inj (String.ext e2)
  exact ⟨a1, a2, b1, b2⟩

theorem qpName_ne_abs (g1 : String) (i : Nat) (g2 : String) (j : Nat) (h1 : String) (k : Nat)
    (h2 : String) (l : Nat) :
    MRMFeatureSelectorQMIP.qpName g1 i g2 j ≠
      MRMFeatureSelectorQMIP.qpName h1 k h2 l ++ "-ABS" := by
  rw [qpName_eq_varName, qpName_eq_varName]
  exact abs_name_ne_varName _ _ _ _

theorem append_abs_inj {a b : String} (h : a ++ "-ABS" = b ++ "-ABS") : a = b := by
  have h' := congrArg String.data h
  rw [String.data_append, String.data_append] at h'
  exact String.ext (List.append_cancel_right h')

theorem mem_pairNames {e1 e2 : ℚ × String} {i j : Nat} {n : String} :
    n ∈ pairNames e1 i e2 j ↔ n = MRMFeatureSelectorQMIP.qpName e1.2 i e2.2 j ∨
      n = MRMFeatureSelectorQMIP.qpName e1.2 i e2.2 j ++ "-ABS" := by
  simp [pairNames]

theorem pairNames_nodup (e1 e2 : ℚ × String) (i j : Nat) : (pairNames e1 i e2 j).Nodup := by
  unfold pairNames
  rw [List.nodup_cons]
  refine ⟨?_, List.nodup_singleton _⟩
  rw [List.mem_singleton]
  exact qpName_ne_abs _ _ _ _ _ _ _ _

/-- A name of an auxiliary variable determines the pair when the first group names have
no `-`. -/
theorem pairNames_inj {e1 e2 d1 d2 : ℚ × String} {i j k l : Nat} {n : String}
    (hg : '-' ∉ e1.2.data) (hh : '-' ∉ d1.2.data)
    (h1 : n ∈ pairNames e1 i e2 j) (h2 : n ∈ pairNames d1 k d2 l) :
    e1.2 = d1.2 ∧ i = k ∧ e2.2 = d2.2 ∧ j = l := by
  rcases mem_pairNames.1 h1 with a | a <;> rcases mem_pairNames.1 h2 with b | b
  · exact qpName_inj hg hh (a.symm.trans b)
  · exact absurd (a.symm.trans b) (qpName_ne_abs _ _ _ _ _ _ _ _)
  · exact absurd (b.symm.trans a) (qpName_ne_abs _ _ _ _ _ _ _ _)
  · exact qpName_inj hg hh (append_abs_inj (a.symm.trans b))

theorem pairNames_has_dash {e1 e2 : ℚ × String} {i j : Nat} {n : String}
    (h : n ∈ pairNames e1 i e2 j) : '-' ∈ n.data := by
  rcases mem_pairNames.1 h with a | a
  · rw [a]; exact qpName_has_dash _ _ _ _
  · rw [a, String.data_append]
    exact List.mem_append_left _ (qpName_has_dash _ _ _ _)
theorem mem_neighbourNames {time_to_name : List (ℚ × String)}
    {fm : String → Option (List (Feature ℚ))} {e1 : ℚ × String} {i cnt2 : Nat} {n : String}
    (h : n ∈ neighbourNames time_to_name fm e1 i cnt2) :
    ∃ (e2 : ℚ × String) (j : Nat),
      time_to_name[cnt2]? = some e2 ∧ n ∈ pairNames e1 i e2 j := by
  unfold neighbourNames at h
  cases h2 : time_to_name[cnt2]? with
  | none => simp [h2] at h
  | some e2 =>
    cases hr : fm e2.2 with
    | none => simp [h2, hr] at h
    | some row2 =>
      simp only [h2, hr, List.mem_flatMap] at h
      obtain ⟨jf, _, hn⟩ := h
      exact ⟨e2, jf.1, rfl, hn⟩

theorem mem_candidateNames {self : MRMFeatureSelector} {time_to_name : List (ℚ × String)}
    {fm : String → Option (List (Feature ℚ))} {cnt1 : Nat} {e1 : ℚ × String} {i : Nat}
    {n : String} (h : n ∈ candidateNames self time_to_name fm cnt1 e1 i) :
    ∃ (cnt2 : Nat) (e2 : ℚ × String) (j : Nat),
      time_to_name[cnt2]? = some e2 ∧ n ∈ pairNames e1 i e2 j := by
  unfold candidateNames at h
  obtain ⟨cnt2, _, hn⟩ := List.mem_flatMap.1 h
  obtain ⟨e2, j, h2, hp⟩ := mem_neighbourNames hn
  exact ⟨cnt2, e2, j, h2, hp⟩

theorem mem_positionNames {self : MRMFeatureSelector} {time_to_name : List (ℚ × String)}
    {fm : String → Option (List (Feature ℚ))} {cnt1 : Nat} {n : String}
    (h : n ∈ positionNames self time_to_name fm cnt1) :
    ∃ (e1 : ℚ × String) (i cnt2 : Nat) (e2 : ℚ × String) (j : Nat),
      time_to_name[cnt1]? = some e1 ∧ time_to_name[cnt2]? = some e2 ∧
      n ∈ pairNames e1 i e2 j := by
  unfold positionNames at h
  cases h1 : time_to_name[cnt1]? with
  | none => simp [h1] at h
  | some e1 =>
    cases hr : fm e1.2 with
    | none => simp [h1, hr] at h
    | some row1 =>
      simp only [h1, hr, List.mem_flatMap] at h
      obtain ⟨ifeat, _, hn⟩ := h
      obtain ⟨cnt2, e2, j, h2, hp⟩ := mem_candidateNames hn
      exact ⟨e1, ifeat.1, cnt2, e2, j, rfl, h2, hp⟩

theorem mem_auxNames {self : MRMFeatureSelector} {time_to_name : List (ℚ × String)}
    {fm : String → Option (List (Feature ℚ))} {n : String}
    (h : n ∈ auxNames self time_to_name fm) :
    ∃ e1 i e2 j, e1 ∈ time_to_name ∧ e2 ∈ time_to_name ∧ n ∈ pairNames e1 i e2 j := by
  unfold auxNames at h
  obtain ⟨cnt1, _, hn⟩ := List.mem_flatMap.1 h
  obtain ⟨e1, i, cnt2, e2, j, h1, h2, hp⟩ := mem_positionNames hn
  exact ⟨e1, i, e2, j, getElem?_mem_list h1, getElem?_mem_list h2, hp⟩

theorem position_of_name {time_to_name : List (ℚ × String)}
    (hnd : (time_to_name.map Prod.snd).Nodup) {c d : Nat} {e1 e2 : ℚ × String}
    (h1 : time_to_name[c]? = some e1) (h2 : time_to_name[d]? = some e2) (h : e1.2 = e2.2) :
    c = d := by
  apply nodup_getElem?_inj hnd (a := e1.2)
  · rw [List.getElem?_map, h1]; rfl
  · rw [List.getElem?_map, h2, h]; rfl

theorem neighbourNames_nodup {time_to_name : List (ℚ × String)}
    (fm : String → Option (List (Feature ℚ))) (e1 : ℚ × String) (i cnt2 : Nat)
    (h1 : '-' ∉ e1.2.data) : (neighbourNames time_to_name fm e1 i cnt2).Nodup := by
  unfold neighbourNames
  cases h2 : time_to_name[cnt2]? with
  | none => exact List.nodup_nil
  | some e2 =>
    cases hr : fm e2.2 with
    | none => simp only [hr]; exact List.nodup_nil
    | some row2 =>
      simp only [hr]
      apply nodup_flatMap_of_key _ _ (enum_nodup row2)
      · intro a _
        exact pairNames_nodup _ _ _ _
      · intro a ha b hb n hna hnb
        exact enum_eq_of_fst ha hb (pairNames_inj h1 h1 hna hnb).2.2.2

theorem candidateNames_nodup (self : MRMFeatureSelector) {time_to_name : List (ℚ × String)}
    (fm : String → Option (List (Feature ℚ))) (hnd : (time_to_name.map Prod.snd).Nodup)
    (cnt1 : Nat) (e1 : ℚ × String) (i : Nat) (h1 : '-' ∉ e1.2.data) :
    (candidateNames self time_to_name fm cnt1 e1 i).Nodup := by
  unfold candidateNames
  apply nodup_flatMap_of_key _ _ (self.neighbours_nodup _ _)
  · intro cnt2 _
    exact neighbourNames_nodup fm e1 i cnt2 h1
  · intro a _ b _ n hna hnb
    obtain ⟨e2, j, ha2, hpa⟩ := mem_neighbourNames hna
    obtain ⟨d2, l, hb2, hpb⟩ := mem_neighbourNames hnb
    exact position_of_name hnd ha2 hb2 (pairNames_inj h1 h1 hpa hpb).2.2.1

theorem positionNames_nodup (self : MRMFeatureSelector) {time_to_name : List (ℚ × String)}
    (fm : String → Option (List (Feature ℚ))) (hnd : (time_to_name.map Prod.snd).Nodup)
    (hdash : ∀ e ∈ time_to_name, '-' ∉ e.2.data) (cnt1 : Nat) :
    (positionNames self time_to_name fm cnt1).Nodup := by
  unfold positionNames
  cases h1 : time_to_name[cnt1]? with
  | none => exact List.nodup_nil
  | some e1 =>
    have hd1 := hdash e1 (getElem?_mem_list h1)
    cases hr : fm e1.2 with
    | none => simp only [hr]; exact List.nodup_nil
    | some row1 =>
      simp only [hr]
      apply nodup_flatMap_of_key _ _ (enum_nodup row1)
      · intro a _
        exact candidateNames_nodup self fm hnd cnt1 e1 a.1 hd1
      · intro a ha b hb n hna hnb
        obtain ⟨_, e2, j, _, hpa⟩ := mem_candidateNames hna
        obtain ⟨_, d2, l, _, hpb⟩ := mem_candidateNames hnb
        exact enum_eq_of_fst ha hb (pairNames_inj hd1 hd1 hpa hpb).2.1

/-- The auxiliary variables of a window of distinct groups without `-` in their names
have distinct names. -/
theorem auxNames_nodup (self : MRMFeatureSelector) {time_to_name : List (ℚ × String)}
    (fm : String → Option (List (Feature ℚ))) (hnd : (time_to_name.map Prod.snd).Nodup)
    (hdash : ∀ e ∈ time_to_name, '-' ∉ e.2.data) :
    (auxNames self time_to_name fm).Nodup := by
  unfold auxNames
  apply nodup_flatMap_of_key _ _ (List.nodup_range _)
  · intro cnt1 _
    exact positionNames_nodup self fm hnd hdash cnt1
  · intro a _ b _ n hna hnb
    obtain ⟨e1, i, _, e2, j, ha1, _, hpa⟩ := mem_positionNames hna
    obtain ⟨d1, k, _, d2, l, hb1, _, hpb⟩ := mem_positionNames hnb
    exact position_of_name hnd ha1 hb1
      (pairNames_inj (hdash e1 (getElem?_mem_list ha1)) (hdash d1 (getElem?_mem_list hb1))
        hpa hpb).1

/-- Every name of the set `variables` is the name of the selection variable of a
candidate of a group of the window. -/
theorem MRMFeatureSelectorQMIP.variables_invariant (self : MRMFeatureSelector) (m : CMath ℚ)
    (time_to_name : List (ℚ × String)) (fm : String → Option (List (Feature ℚ))) :
    QMIPInvariant self m time_to_name fm
      (fun s => ∀ n ∈ s.2, SelectionName time_to_name fm n) := by
  refine ⟨?_, ?_, ?_⟩
  · intro s n hI _ _ hsel k hk
    rcases List.mem_cons.1 hk with h | h
    · rw [h]; exact hsel
    · exact hI k h
  · intro s cnt1 cnt2 e1 e2 row1 row2 i j f1 f2 hI _ _ _ _ _ _ _ _ _ _ k hk
    exact hI k hk
  · intro s e feats cs hI _ _ _ _ k hk
    exact hI k hk

theorem MRMFeatureSelectorQMIP.variables_are_selection_names {self : MRMFeatureSelector}
    {m : CMath ℚ} {time_to_name : List (ℚ × String)}
    {fm : String → Option (List (Feature ℚ))} {P : LPWrapper} {vars : List String}
    (hb : MRMFeatureSelectorQMIP.buildProblem self m time_to_name fm = some (P, vars)) :
    ∀ n ∈ vars, SelectionName time_to_name fm n :=
  (MRMFeatureSelectorQMIP.build_induct
    (MRMFeatureSelectorQMIP.variables_invariant self m time_to_name fm)
    (fun n hn => absurd hn (List.not_mem_nil n)) hb).1

theorem selectionName_no_dash {time_to_name : List (ℚ × String)}
    {fm : String → Option (List (Feature ℚ))} (hdash : ∀ e ∈ time_to_name, '-' ∉ e.2.data)
    {n : String} (h : SelectionName time_to_name fm n) : '-' ∉ n.data := by
  obtain ⟨e, he, _, _, f, _, rfl⟩ := h
  exact varName_no_dash _ (hdash e he)

/-! ## The function `select_MRMFeature` -/

theorem MRMFeatureSelector.segments_auto (self : MRMFeatureSelector) (n : Nat)
    (hw : self.segment_window_length_ = -1) (hs : self.segment_step_length_ = -1)
    (hn : 0 < n) : self.segments n = [(0, n)] := by
  have hq : (n : ℚ) ≠ 0 := by exact_mod_cast hn.ne'
  have hseg : n_segments n (n : ℚ) = 1 := by
    unfold n_segments
    rw [div_self hq]
    exact Nat.ceil_one
  unfold segments segment_lengths
  rw [if_pos ⟨hw, hs⟩]
  rw [hseg]
  show [(segment_start (n : ℚ) 0, segment_end n (n : ℚ) (n : ℚ) 0)] = [(0, n)]
  have h0 : segment_start (n : ℚ) 0 = 0 := by
    unfold segment_start
    simp
  have h1 : segment_end n (n : ℚ) (n : ℚ) 0 = n := by
    unfold segment_end
    rw [h0]
    simp
  rw [h0, h1]

theorem MRMFeatureSelector.time_slice_all (time_to_name : List (ℚ × String)) :
    time_slice time_to_name (0, time_to_name.length) = time_to_name := by
  unfold time_slice
  simp

theorem MRMFeatureSelector.run_segments_single
    (optimize : List (ℚ × String) → (String → Option (List (Feature ℚ))) →
      Option (List String))
    (self : MRMFeatureSelector) (time_to_name : List (ℚ × String))
    (fm : String → Option (List (Feature ℚ)))
    (h : self.segments time_to_name.length = [(0, time_to_name.length)]) :
    run_segments optimize self time_to_name fm = optimize time_to_name fm := by
  unfold run_segments
  rw [h]
  simp only [forEach, time_slice_all]
  cases optimize time_to_name fm <;> simp [forEach]

theorem MRMFeatureSelector.sort_length (time_to_name : List (ℚ × String)) :
    (sort time_to_name).length = time_to_name.length :=
  List.length_insertionSort _ _

theorem MRMFeatureSelector.keepSubordinate_foldl (self : MRMFeatureSelector)
    (names : List String) (feature : Feature ℚ) (subs acc : List (Feature ℚ)) :
    subs.foldl (keepSubordinate self names feature) acc =
      acc ++ subs.filter fun subordinate =>
        decide (feature_name self feature subordinate ∈ names) := by
  induction subs generalizing acc with
  | nil => simp
  | cons s rest ih =>
    rw [List.foldl_cons, ih]
    unfold keepSubordinate
    by_cases h : feature_name self feature s ∈ names
    · simp [h, List.filter_cons]
    · simp [h, List.filter_cons]

theorem MRMFeatureSelector.keepFeature_eq (self : MRMFeatureSelector) (names : List String)
    (acc : List (Feature ℚ)) (feature : Feature ℚ) :
    keepFeature self names acc feature = acc ++ (keptFeature self names feature).toList := by
  unfold keepFeature keptFeature keptSubordinates
  simp only [keepSubordinate_foldl, List.nil_append]
  split <;> simp

theorem MRMFeatureSelector.keepFeature_foldl (self : MRMFeatureSelector) (names : List String)
    (features acc : List (Feature ℚ)) :
    features.foldl (keepFeature self names) acc =
      acc ++ features.filterMap (keptFeature self names) := by
  induction features generalizing acc with
  | nil => simp
  | cons f rest ih =>
    rw [List.foldl_cons, ih, keepFeature_eq, List.filterMap_cons]
    cases keptFeature self names f <;> simp

/-- The second loop of `select_MRMFeature` maps every feature to its entry of the output,
if it has one. -/
theorem MRMFeatureSelector.filter_features_eq (self : MRMFeatureSelector)
    (names : List String) (features : List (Feature ℚ)) :
    filter_features self names features = features.filterMap (keptFeature self names) := by
  unfold filter_features
  rw [keepFeature_foldl, List.nil_append]

theorem Feature.getSubordinates_setSubordinates (f : Feature ℚ) (subs : List (Feature ℚ)) :
    (f.setSubordinates subs).getSubordinates = subs := by
  cases f; rfl

theorem Feature.setSubordinates_getSubordinates (f : Feature ℚ) :
    f.setSubordinates f.getSubordinates = f := by
  cases f; rfl

theorem MRMFeatureSelector.select_MRMFeature_eq
    (optimize : List (ℚ × String) → (String → Option (List (Feature ℚ))) →
      Option (List String))
    (self : MRMFeatureSelector) (features : List (Feature ℚ)) :
    MRMFeatureSelector.select_MRMFeature optimize self features =
      (run_segments optimize self (sort (buildSeries self features).time_to_name)
        (buildSeries self features).feature_name_map).map
        fun result_names => features.filterMap (keptFeature self result_names) := by
  unfold MRMFeatureSelector.select_MRMFeature
  simp only
  cases run_segments optimize self (sort (buildSeries self features).time_to_name)
    (buildSeries self features).feature_name_map with
  | none => rfl
  | some r => simp [filter_features_eq]


/-! ## Strategy B: the columns of the candidates of a pair -/

/-- In a window of distinct groups without `-` in their names no two columns of the
model of Strategy B carry the same name. -/
theorem MRMFeatureSelectorQMIP.colNames_nodup {self : MRMFeatureSelector} {m : CMath ℚ}
    {time_to_name : List (ℚ × String)} {fm : String → Option (List (Feature ℚ))}
    {P : LPWrapper} {vars : List String}
    (hb : MRMFeatureSelectorQMIP.buildProblem self m time_to_name fm = some (P, vars))
    (hnd : (time_to_name.map Prod.snd).Nodup)
    (hdash : ∀ e ∈ time_to_name, '-' ∉ e.2.data) : P.colNames.Nodup := by
  rw [List.nodup_iff_count_le_one]
  intro n
  rw [MRMFeatureSelectorQMIP.colNames_count hb n]
  by_cases hn : n ∈ vars
  · have hsel := MRMFeatureSelectorQMIP.variables_are_selection_names hb n hn
    have hnot : n ∉ auxNames self time_to_name fm := by
      intro hmem
      obtain ⟨e1, i, e2, j, _, _, hp⟩ := mem_auxNames hmem
      exact selectionName_no_dash hdash hsel (pairNames_has_dash hp)
    rw [List.count_eq_zero.2 hnot, if_pos hn]
  · rw [if_neg hn, Nat.add_zero]
    exact List.nodup_iff_count_le_one.1 (auxNames_nodup self fm hnd hdash) n

/-- When the names of the columns are distinct, the column that carries the name of the
selection variable of a candidate is the bounded column with objective coefficient `0`
that was created for the candidate, and no other column carries the name. -/
theorem MRMFeatureSelectorQMIP.selection_column {self : MRMFeatureSelector} {m : CMath ℚ}
    {time_to_name : List (ℚ × String)} {fm : String → Option (List (Feature ℚ))}
    {P : LPWrapper} {vars : List String}
    (hb : MRMFeatureSelectorQMIP.buildProblem self m time_to_name fm = some (P, vars))
    (hnodup : P.colNames.Nodup) {e : ℚ × String} (he : e ∈ time_to_name)
    {feats : List (Feature ℚ)} (hfe : fm e.2 = some feats) {f : Feature ℚ} (hf : f ∈ feats)
    {idx : Nat} (hidx : P.colNames[idx]? = some (varName e.2 f.getUniqueId)) :
    varName e.2 f.getUniqueId ∈ vars ∧
    P.cols[idx]? = some (self.newColumn (varName e.2 f.getUniqueId) true 0) ∧
    ∀ c : Nat, P.colNames[c]? = some (varName e.2 f.getUniqueId) → c = idx := by
  obtain ⟨cs, _, hcols⟩ := MRMFeatureSelectorQMIP.group_row_encoded hb he hfe
  obtain ⟨a, _, _, hvar⟩ := forall₂_exists_left hcols hf
  have hbounded := (MRMFeatureSelectorQMIP.build_induct
    (MRMFeatureSelectorQMIP.selectionBounded_invariant self m time_to_name fm)
    (fun n hn => absurd hn (List.not_mem_nil n)) hb).1
  obtain ⟨j, hj⟩ : ∃ j, P.cols[j]? = some (self.newColumn (varName e.2 f.getUniqueId) true 0) :=
    List.getElem?_of_mem (hbounded _ hvar)
  have hjn : P.colNames[j]? = some (varName e.2 f.getUniqueId) := by
    simpa [newColumn] using LPWrapper.colNames_of_col hj
  have hij : idx = j := nodup_getElem?_inj hnodup hidx hjn
  refine ⟨hvar, by rw [hij]; exact hj, fun c hc => nodup_getElem?_inj hnodup hc hidx⟩

/-! ## The linear score over the reals -/

theorem MRMFeatureSelectorScore.make_score_real (m : CMath ℝ) (hlog : m.log = Real.log)
    (f : Feature ℝ) :
    MRMFeatureSelectorScore.make_score m f =
      (if Real.log f.peak_apices_sum ≤ 0 then 1 else Real.log f.peak_apices_sum) *
        (if Real.log f.sn_ratio ≤ 0 then 1 else Real.log f.sn_ratio) := by
  unfold MRMFeatureSelectorScore.make_score
  simp only [hlog]

/-- The floored logarithm of a positive metric is positive. -/
theorem floored_log_pos {x : ℝ} (_hx : 0 < x) :
    0 < (if Real.log x ≤ 0 then 1 else Real.log x) := by
  split
  · exact one_pos
  · rename_i h
    exact not_le.1 h

theorem floored_log_strictMono {x y : ℝ} (h1 : 1 < x) (hxy : x < y) :
    (if Real.log x ≤ 0 then 1 else Real.log x) < (if Real.log y ≤ 0 then 1 else Real.log y) := by
  have hx : 0 < Real.log x := Real.log_pos h1
  have hy : Real.log x < Real.log y := Real.log_lt_log (by linarith) hxy
  rw [if_neg (not_le.2 hx), if_neg (not_le.2 (hx.trans hy))]
  exact hy

/-! ## The series built by `select_MRMFeature` -/

/-- The state of the first loop of `select_MRMFeature` after the features `pre`, when
`select_transition_group_` is on and the features have distinct group names. -/
theorem MRMFeatureSelector.buildSeries_step (self : MRMFeatureSelector)
    (hon : self.select_transition_group_ = true) :
    ∀ (rest pre : List (Feature ℚ)) (s : SeriesState),
      ((pre ++ rest).map fun f => remove_spaces f.PeptideRef).Nodup →
      s.time_to_name = pre.map (fun f => (f.assay_rt, remove_spaces f.PeptideRef)) →
      (∀ k, k ∈ s.names ↔ k ∈ pre.map fun f => remove_spaces f.PeptideRef) →
      (∀ f ∈ pre, s.feature_name_map (remove_spaces f.PeptideRef) = some [f]) →
      (∀ k, k ∉ (pre.map fun f => remove_spaces f.PeptideRef) → s.feature_name_map k = none) →
      (rest.foldl (addTopLevel self) s).time_to_name =
          (pre ++ rest).map (fun f => (f.assay_rt, remove_spaces f.PeptideRef)) ∧
        ∀ f ∈ pre ++ rest,
          (rest.foldl (addTopLevel self) s).feature_name_map (remove_spaces f.PeptideRef) =
            some [f] := by
  intro rest
  induction rest with
  | nil =>
    intro pre s _ h1 _ h3 _
    simp only [List.append_nil, List.foldl_nil]
    exact ⟨h1, h3⟩
  | cons g rest ih =>
    intro pre s hnd h1 h2 h3 h4
    have hnd' : (((pre ++ [g]) ++ rest).map fun f => remove_spaces f.PeptideRef).Nodup := by
      rw [List.append_assoc]; exact hnd
    have hg : remove_spaces g.PeptideRef ∉ pre.map fun f => remove_spaces f.PeptideRef := by
      rw [List.map_append, List.map_cons] at hnd
      exact fun hm => (List.nodup_append.1 hnd).2.2 hm (List.mem_cons_self _ _)
    have hgn : remove_spaces g.PeptideRef ∉ s.names := fun hm => hg ((h2 _).1 hm)
    have hstep : addTopLevel self s g =
        { names := s.names.insert (remove_spaces g.PeptideRef)
          time_to_name := s.time_to_name ++ [(g.assay_rt, remove_spaces g.PeptideRef)]
          feature_name_map :=
            push_back_at s.feature_name_map (remove_spaces g.PeptideRef) g } := by
      unfold addTopLevel
      simp only [hgn, not_false_eq_true, if_true, hon]
    have key := ih (pre ++ [g]) (addTopLevel self s g) hnd' ?_ ?_ ?_ ?_
    · rw [List.foldl_cons]
      rw [List.append_assoc] at key
      exact key
    · rw [hstep, List.map_append, h1]; rfl
    · intro k
      rw [hstep, List.map_append, List.mem_append]
      simp only [List.mem_insert_iff, List.map_cons, List.map_nil, List.mem_singleton]
      rw [h2 k]
      exact or_comm
    · intro f hf
      rw [hstep]
      simp only [push_back_at]
      rcases List.mem_append.1 hf with hp | hp
      · have hne : remove_spaces f.PeptideRef ≠ remove_spaces g.PeptideRef := by
          intro heq
          exact hg (heq ▸ List.mem_map_of_mem _ hp)
        rw [if_neg hne]
        exact h3 f hp
      · rw [List.mem_singleton.1 hp, if_pos rfl, h4 _ hg]
        rfl
    · intro k hk
      rw [hstep]
      simp only [push_back_at]
      rw [List.map_append, List.mem_append, not_or] at hk
      have hne : k ≠ remove_spaces g.PeptideRef := by
        intro heq
        exact hk.2 (by simp [heq])
      rw [if_neg hne]
      exact h4 k hk.1

/-- The series and the map built from features of distinct group names, when
`select_transition_group_` is on. -/
theorem MRMFeatureSelector.buildSeries_on (self : MRMFeatureSelector)
    (hon : self.select_transition_group_ = true) (features : List (Feature ℚ))
    (hnd : (features.map fun f => remove_spaces f.PeptideRef).Nodup) :
    (buildSeries self features).time_to_name =
        features.map (fun f => (f.assay_rt, remove_spaces f.PeptideRef)) ∧
      ∀ f ∈ features,
        (buildSeries self features).feature_name_map (remove_spaces f.PeptideRef) = some [f] := by
  have h := buildSeries_step self hon features [] ⟨[], [], fun _ => none⟩
    (by simpa using hnd) rfl (fun k => by simp) (fun f hf => absurd hf (List.not_mem_nil f))
    (fun _ _ => rfl)
  simpa [buildSeries] using h

theorem MRMFeatureSelector.sort_perm (time_to_name : List (ℚ × String)) :
    (sort time_to_name).Perm time_to_name :=
  List.perm_insertionSort _ _

theorem MRMFeatureSelector.time_slice_sublist (time_to_name : List (ℚ × String))
    (se : Nat × Nat) : (time_slice time_to_name se).Sublist time_to_name :=
  (List.drop_sublist _ _).trans (List.take_sublist _ _)

theorem MRMFeatureSelector.mem_time_slice {time_to_name : List (ℚ × String)} {k : Nat}
    {e : ℚ × String} (h : time_to_name[k]? = some e) {se : Nat × Nat} (h1 : se.1 ≤ k)
    (h2 : k < se.2) : e ∈ time_slice time_to_name se := by
  unfold time_slice
  apply getElem?_mem_list (i := k - se.1)
  rw [List.getElem?_drop, List.getElem?_take_of_lt (by omega)]
  rw [show se.1 + (k - se.1) = k by omega]
  exact h

/-- The loop over the segments returns the concatenation of the results of `optimize`
when every call returns. -/
theorem MRMFeatureSelector.forEach_segments
    (opt : Nat × Nat → Option (List String)) (segs : List (Nat × Nat))
    (h : ∀ se ∈ segs, (opt se).isSome) (acc : List String) :
    forEach (fun se result_names =>
        match opt se with
        | none => none
        | some result => some (result_names ++ result)) segs acc =
      some (acc ++ segs.flatMap fun se => (opt se).getD []) := by
  induction segs generalizing acc with
  | nil => simp [forEach]
  | cons se rest ih =>
    obtain ⟨r, hr⟩ := Option.isSome_iff_exists.1 (h se (List.mem_cons_self _ _))
    simp only [forEach, hr, List.flatMap_cons, Option.getD_some]
    rw [ih (fun s hs => h s (List.mem_cons_of_mem _ hs)), List.append_assoc]

theorem MRMFeatureSelector.run_segments_eq
    (optimize : List (ℚ × String) → (String → Option (List (Feature ℚ))) →
      Option (List String))
    (self : MRMFeatureSelector) (time_to_name : List (ℚ × String))
    (fm : String → Option (List (Feature ℚ)))
    (h : ∀ se ∈ self.segments time_to_name.length,
      (optimize (time_slice time_to_name se) fm).isSome) :
    run_segments optimize self time_to_name fm =
      some ((self.segments time_to_name.length).flatMap fun se =>
        (optimize (time_slice time_to_name se) fm).getD []) := by
  unfold run_segments
  exact forEach_segments (fun se => optimize (time_slice time_to_name se) fm) _ h []

/-- Strategy A selects the only candidate of a group: its column has the value `1` in
every assignment that satisfies the rows of the model. -/
theorem MRMFeatureSelectorScore.single_candidate_selected {self : MRMFeatureSelector}
    {m : CMath ℚ} {time_to_name : List (ℚ × String)}
    {fm : String → Option (List (Feature ℚ))}
    (hthr : self.optimal_threshold_ ≤ 1)
    (hnd : (time_to_name.map Prod.snd).Nodup)
    (huid : ∀ e ∈ time_to_name, ∀ feats, fm e.2 = some feats →
      (feats.map Feature.getUniqueId).Nodup)
    {P : LPWrapper} {vars : List String}
    (hb : MRMFeatureSelectorScore.buildProblem self m time_to_name fm = some (P, vars))
    {x : Nat → ℚ} (hx : P.RowsOK x) {e : ℚ × String} (he : e ∈ time_to_name)
    {f : Feature ℚ} (hfe : fm e.2 = some [f]) :
    varName e.2 f.getUniqueId ∈ MRMFeatureSelectorScore.extract self P x := by
  obtain ⟨_, _, _, _, _, hgroups, _, _⟩ :=
    MRMFeatureSelectorScore.buildProblem_state hnd huid hb
  obtain ⟨idxs, hrow, hcols⟩ := hgroups e he [f] hfe
  have hsum := (assignmentRow_OK e.2 idxs x).1 (hx _ hrow)
  unfold ColumnsOf at hcols
  cases hcols with
  | cons hc htail =>
    cases htail
    simp only [List.map_cons, List.map_nil, List.sum_cons, List.sum_nil, add_zero] at hsum
    rw [MRMFeatureSelectorScore.score_mem_extract]
    refine ⟨_, by rw [hsum]; exact hthr, ?_⟩
    simpa [newColumn] using LPWrapper.colNames_of_col hc

/-! ## The locality weight -/

theorem MRMFeatureSelector.locality_weight_eq (self : MRMFeatureSelector)
    (hon : self.locality_weight_ = true) (start_iter cnt1 cnt2 : Nat) :
    self.locality_weight start_iter cnt1 cnt2 =
      1 / self.locality_denominator start_iter cnt1 cnt2 := by
  unfold locality_weight locality_denominator
  rw [if_pos hon]

/-- For a position `cnt1 ≤ ⌊nn_threshold_⌋`, for which `start_iter` is `0`, the divisor
of the locality weight of every visited neighbour is at least `1`. -/
theorem MRMFeatureSelector.locality_denominator_ge_one (self : MRMFeatureSelector)
    (hnn : 0 ≤ self.nn_threshold_) (n cnt1 cnt2 : Nat)
    (h1 : (cnt1 : ℤ) ≤ ⌊self.nn_threshold_⌋) (h2 : cnt2 ∈ self.neighbours cnt1 n) :
    1 ≤ self.locality_denominator (self.start_iter cnt1) cnt1 cnt2 := by
  rw [self.start_iter_eq_zero cnt1 hnn h1]
  unfold locality_denominator
  have e : |((0 : ℕ) : ℤ) + (cnt2 : ℤ) - (cnt1 : ℤ)| = |(cnt1 : ℤ) - (cnt2 : ℤ)| := by
    rw [← abs_neg]
    congr 1
    push_cast
    ring
  rw [e]
  have h := self.neighbour_distance_le cnt1 n cnt2 hnn h2
  linarith


/-! # The claims -/

/-- C2 (amended): for every window of pairwise distinct groups with an entry in the map
(the candidates of a group having distinct unique ids and pairwise different linear
scores), a supported variable type and an `optimalThreshold` in `(0, 1]`, and for every
solver that returns an optimal solution of the model built by
`MRMFeatureSelectorScore::optimize` (the code sets the objective sense `MIN`), the result
contains exactly one candidate name per group, and that candidate is the one with the
minimal linear score (`make_score`) within its group. -/
theorem C2_optimum_selects_minimal_score (self : MRMFeatureSelector) (m : CMath ℚ)
    (time_to_name : List (ℚ × String)) (fm : String → Option (List (Feature ℚ)))
    (solve : LPWrapper → Nat → ℚ) (hsup : self.Supported)
    (hthr0 : 0 < self.optimal_threshold_) (hthr1 : self.optimal_threshold_ ≤ 1)
    (hnd : (time_to_name.map Prod.snd).Nodup)
    (hfm : ∀ e ∈ time_to_name, (fm e.2).isSome)
    (huid : ∀ e ∈ time_to_name, ∀ feats, fm e.2 = some feats →
      (feats.map Feature.getUniqueId).Nodup)
    (hscore : ∀ e ∈ time_to_name, ∀ feats, fm e.2 = some feats →
      (feats.map (MRMFeatureSelectorScore.make_score m)).Nodup)
    (hopt : ∀ P vars, MRMFeatureSelectorScore.buildProblem self m time_to_name fm =
      some (P, vars) → P.Optimal (solve P)) :
    ∃ result, MRMFeatureSelectorScore.optimize self m solve time_to_name fm = some result ∧
      ∀ e ∈ time_to_name, ∀ feats, fm e.2 = some feats →
        ∃ f, f ∈ feats ∧
          (∀ f' ∈ feats, MRMFeatureSelectorScore.make_score m f ≤
            MRMFeatureSelectorScore.make_score m f') ∧
          ∀ f' ∈ feats, (varName e.2 f'.getUniqueId ∈ result ↔ f' = f) := by
  obtain ⟨⟨P, vars⟩, hb⟩ := MRMFeatureSelectorScore.score_build_total self hsup m
    time_to_name fm hfm
  refine ⟨MRMFeatureSelectorScore.extract self P (solve P), ?_, fun e he feats hfe => ?_⟩
  · simp only [MRMFeatureSelectorScore.optimize, hb]
  · obtain ⟨f, hf, hmin, idxs, hcolsOf, hnodup, hval⟩ :=
      MRMFeatureSelectorScore.optimum_values hnd huid hb (hopt P vars hb) he hfe
        (hscore e he feats hfe)
    refine ⟨f, hf, hmin, fun f' hf' => ?_⟩
    obtain ⟨i, hi, hrel⟩ := forall₂_exists_left hcolsOf hf'
    obtain ⟨h1, h0⟩ := hval i f' hi hrel hf'
    rw [MRMFeatureSelectorScore.score_mem_extract]
    constructor
    · rintro ⟨c, hc, hcn⟩
      by_contra hne
      rw [nodup_getElem?_inj hnodup hcn (columnsOf_name hrel), h0 hne] at hc
      linarith
    · intro hff
      exact ⟨i, by rw [h1 hff]; exact hthr1, columnsOf_name hrel⟩

/-- C2 (amended) on the example window: the result names the candidate `1` of `A`
(score `6`, against `12` for the candidate `2`) and the candidate of `B`. -/
theorem C2_optimum_selects_minimal_score_witness :
    ∃ result, MRMFeatureSelectorScore.optimize exInteger exMath (fun _ => exScoreValues)
        exWindow exMap = some result ∧
      ∀ e ∈ exWindow, ∀ feats, exMap e.2 = some feats →
        ∃ f, f ∈ feats ∧
          (∀ f' ∈ feats, MRMFeatureSelectorScore.make_score exMath f ≤
            MRMFeatureSelectorScore.make_score exMath f') ∧
          ∀ f' ∈ feats, (varName e.2 f'.getUniqueId ∈ result ↔ f' = f) := by
  have hlist : ∀ e ∈ exWindow, ∀ feats, exMap e.2 = some feats →
      feats = [exFeature 1 5 2 3, exFeature 2 5 3 4] ∨ feats = [exFeature 3 5 2 2] := by
    intro e he feats hfe
    simp only [exWindow, List.mem_cons, List.mem_singleton, List.not_mem_nil, or_false] at he
    rcases he with rfl | rfl
    · exact Or.inl (Option.some.inj hfe).symm
    · exact Or.inr (Option.some.inj hfe).symm
  exact C2_optimum_selects_minimal_score exInteger exMath exWindow exMap
    (fun _ => exScoreValues) (by decide!) (by decide!) (by decide!) (by decide!) (by decide!)
    (fun e he feats hfe => by
      rcases hlist e he feats hfe with rfl | rfl <;> decide)
    (fun e he feats hfe => by
      rcases hlist e he feats hfe with rfl | rfl <;> decide!)
    (fun P vars h => by
      have e : MRMFeatureSelectorScore.buildProblem exInteger exMath exWindow exMap =
        some exScore := by decide!
      rw [e] at h
      obtain ⟨rfl, rfl⟩ := Prod.mk.inj (Option.some.inj h)
      exact exScore_optimal)

/-- C2 as stated fails: in the example window the candidates of `A` have the linear
scores `6` (unique id `1`) and `12` (unique id `2`); the assignment `1, 0, 1` is an
optimal solution of the model of Strategy A, which minimises, and the result names the
candidate with the score `6`, not the one with the maximal score. -/
theorem C2_counterexample :
    (exWindow.map Prod.snd).Nodup ∧
    MRMFeatureSelectorScore.buildProblem exInteger exMath exWindow exMap = some exScore ∧
    exScore.1.sense = Sense.MIN ∧ exScore.1.Optimal exScoreValues ∧
    MRMFeatureSelectorScore.optimize exInteger exMath (fun _ => exScoreValues) exWindow exMap =
      some [varName "A" 1, varName "B" 3] ∧
    exMap "A" = some [exFeature 1 5 2 3, exFeature 2 5 3 4] ∧
    MRMFeatureSelectorScore.make_score exMath (exFeature 1 5 2 3) = 6 ∧
    MRMFeatureSelectorScore.make_score exMath (exFeature 2 5 3 4) = 12 :=
  ⟨by decide!, by decide!, by decide!, exScore_optimal, by decide!, rfl, by decide!, by decide!⟩

/-- C3 fails on the code: for the window that refers to the group `A` (two candidates)
twice, `MRMFeatureSelectorScore::optimize` adds a second row `A_constraint` without any
coefficient, where the claim wants coefficient `1` on the columns `0` and `1` of the
candidates of `A`; the sibling `MRMFeatureSelectorQMIP::optimize` puts these columns
(there with the indices `0` and `3`) into both rows of the group. -/
theorem C3_repeated_group_row_has_no_coefficient :
    (MRMFeatureSelectorScore.buildProblem exInteger exMath exRepeated exMap).map
        (fun s => (s.1.colNames, s.1.rows)) =
      some (["A_1", "A_2"], [assignmentRow "A" [0, 1], assignmentRow "A" []]) ∧
    (MRMFeatureSelectorQMIP.buildProblem exInteger exMath exRepeated exMap).map
        (fun s => (s.1.colNames[0]?, s.1.colNames[3]?,
          s.1.rows.filter fun r => r.name = "A_constraint")) =
      some (some "A_1", some "A_2", [assignmentRow "A" [0, 3], assignmentRow "A" [0, 3]]) := by
  decide!


/-- C5: in a window of pairwise distinct group names none of which contains the
character `-`, for every pair of candidates (candidate `i` of the group at position
`cnt1`, candidate `j` of the group at a neighbour position `cnt2`) visited by
`MRMFeatureSelectorQMIP::optimize`, the model contains the rows named `-QP1`, `-QP2` and
`-QP3` on the column of the selection variable of the first candidate (`a`), the column
of the selection variable of the second (`b`) and the column of the pair variable (`q`):
each is bounded with objective coefficient `0` and the only column that carries its
name. The rows say `a - q ≥ 0`, `b - q ≥ 0` and `a + b - q ≤ 1`, and for values in
`{0, 1}` they hold together exactly when `q = a * b`. -/
theorem C5_qp_rows_linearize_product (self : MRMFeatureSelector) (m : CMath ℚ)
    (time_to_name : List (ℚ × String)) (fm : String → Option (List (Feature ℚ)))
    (P : LPWrapper) (vars : List String)
    (hb : MRMFeatureSelectorQMIP.buildProblem self m time_to_name fm = some (P, vars))
    (hnd : (time_to_name.map Prod.snd).Nodup)
    (hdash : ∀ e ∈ time_to_name, '-' ∉ e.2.data)
    (cnt1 cnt2 i j : Nat) (e1 e2 : ℚ × String) (row1 row2 : List (Feature ℚ))
    (f1 f2 : Feature ℚ)
    (h1 : time_to_name[cnt1]? = some e1) (hr1 : fm e1.2 = some row1) (hf1 : row1[i]? = some f1)
    (hn : cnt2 ∈ self.neighbours cnt1 time_to_name.length)
    (h2 : time_to_name[cnt2]? = some e2) (hr2 : fm e2.2 = some row2) (hf2 : row2[j]? = some f2) :
    ∃ index1 index2 index_var_qp : Nat,
      (P.cols[index1]? = some (self.newColumn (varName e1.2 f1.getUniqueId) true 0) ∧
        ∀ c : Nat, P.colNames[c]? = some (varName e1.2 f1.getUniqueId) → c = index1) ∧
      (P.cols[index2]? = some (self.newColumn (varName e2.2 f2.getUniqueId) true 0) ∧
        ∀ c : Nat, P.colNames[c]? = some (varName e2.2 f2.getUniqueId) → c = index2) ∧
      (P.cols[index_var_qp]? =
          some (self.newColumn (MRMFeatureSelectorQMIP.qpName e1.2 i e2.2 j) true 0) ∧
        ∀ c : Nat, P.colNames[c]? = some (MRMFeatureSelectorQMIP.qpName e1.2 i e2.2 j) →
          c = index_var_qp) ∧
      ∃ qp1 qp2 qp3 : Row, qp1 ∈ P.rows ∧ qp2 ∈ P.rows ∧ qp3 ∈ P.rows ∧
        qp1 = ⟨[index1, index_var_qp], [1, -1],
          MRMFeatureSelectorQMIP.qpName e1.2 i e2.2 j ++ "-QP1", 0, 1,
          LPType.LOWER_BOUND_ONLY⟩ ∧
        qp2 = ⟨[index2, index_var_qp], [1, -1],
          MRMFeatureSelectorQMIP.qpName e1.2 i e2.2 j ++ "-QP2", 0, 1,
          LPType.LOWER_BOUND_ONLY⟩ ∧
        qp3 = ⟨[index1, index2, index_var_qp], [1, 1, -1],
          MRMFeatureSelectorQMIP.qpName e1.2 i e2.2 j ++ "-QP3", 0, 1,
          LPType.UPPER_BOUND_ONLY⟩ ∧
        ∀ x : Nat → ℚ,
          (qp1.OK x ↔ x index1 - x index_var_qp ≥ 0) ∧
          (qp2.OK x ↔ x index2 - x index_var_qp ≥ 0) ∧
          (qp3.OK x ↔ x index1 + x index2 - x index_var_qp ≤ 1) ∧
          ((x index1 = 0 ∨ x index1 = 1) → (x index2 = 0 ∨ x index2 = 1) →
            (x index_var_qp = 0 ∨ x index_var_qp = 1) →
            ((qp1.OK x ∧ qp2.OK x ∧ qp3.OK x) ↔ x index_var_qp = x index1 * x index2)) := by
  obtain ⟨index1, index2, iq, ie, hc1, hc2, hq, _, hr1', hr2', hr3', _, _⟩ :=
    MRMFeatureSelectorQMIP.pair_encoded hb h1 hr1 hf1 hn h2 hr2 hf2
  have hnodup := MRMFeatureSelectorQMIP.colNames_nodup hb hnd hdash
  have ha := MRMFeatureSelectorQMIP.selection_column hb hnodup (getElem?_mem_list h1) hr1
    (getElem?_mem_list hf1) hc1
  have hb2 := MRMFeatureSelectorQMIP.selection_column hb hnodup (getElem?_mem_list h2) hr2
    (getElem?_mem_list hf2) hc2
  have hqn : P.colNames[iq]? = some (MRMFeatureSelectorQMIP.qpName e1.2 i e2.2 j) := by
    simpa [newColumn] using LPWrapper.colNames_of_col hq
  refine ⟨index1, index2, iq, ha.2, hb2.2,
    ⟨hq, fun c hc => nodup_getElem?_inj hnodup hc hqn⟩,
    _, _, _, hr1', hr2', hr3', rfl, rfl, rfl, ?_⟩
  intro x
  have e1' : Row.OK ⟨[index1, iq], [1, -1],
      MRMFeatureSelectorQMIP.qpName e1.2 i e2.2 j ++ "-QP1", 0, 1,
      LPType.LOWER_BOUND_ONLY⟩ x ↔ x index1 - x iq ≥ 0 := by
    simp only [Row.OK, Row.eval, boundOK, List.zip_cons_cons, List.zip_nil_right,
      List.map_cons, List.map_nil, List.sum_cons, List.sum_nil]
    constructor <;> intro h <;> linarith
  have e2' : Row.OK ⟨[index2, iq], [1, -1],
      MRMFeatureSelectorQMIP.qpName e1.2 i e2.2 j ++ "-QP2", 0, 1,
      LPType.LOWER_BOUND_ONLY⟩ x ↔ x index2 - x iq ≥ 0 := by
    simp only [Row.OK, Row.eval, boundOK, List.zip_cons_cons, List.zip_nil_right,
      List.map_cons, List.map_nil, List.sum_cons, List.sum_nil]
    constructor <;> intro h <;> linarith
  have e3' : Row.OK ⟨[index1, index2, iq], [1, 1, -1],
      MRMFeatureSelectorQMIP.qpName e1.2 i e2.2 j ++ "-QP3", 0, 1,
      LPType.UPPER_BOUND_ONLY⟩ x ↔ x index1 + x index2 - x iq ≤ 1 := by
    simp only [Row.OK, Row.eval, boundOK, List.zip_cons_cons, List.zip_nil_right,
      List.map_cons, List.map_nil, List.sum_cons, List.sum_nil]
    constructor <;> intro h <;> linarith
  refine ⟨e1', e2', e3', fun ha' hb' hq' => ?_⟩
  rw [e1', e2', e3']
  rcases ha' with ha' | ha' <;> rcases hb' with hb' | hb' <;> rcases hq' with hq' | hq' <;>
    rw [ha', hb', hq'] <;> norm_num

/-- C5 on the example window: candidate `0` of group `A` and candidate `0` of its
neighbour `B`. -/
theorem C5_qp_rows_linearize_product_witness :
    ∃ index1 index2 index_var_qp : Nat,
      (exQMIP.1.cols[index1]? = some (exInteger.newColumn (varName "A" 1) true 0) ∧
        ∀ c : Nat, exQMIP.1.colNames[c]? = some (varName "A" 1) → c = index1) ∧
      (exQMIP.1.cols[index2]? = some (exInteger.newColumn (varName "B" 3) true 0) ∧
        ∀ c : Nat, exQMIP.1.colNames[c]? = some (varName "B" 3) → c = index2) ∧
      (exQMIP.1.cols[index_var_qp]? =
          some (exInteger.newColumn (MRMFeatureSelectorQMIP.qpName "A" 0 "B" 0) true 0) ∧
        ∀ c : Nat, exQMIP.1.colNames[c]? = some (MRMFeatureSelectorQMIP.qpName "A" 0 "B" 0) →
          c = index_var_qp) ∧
      ∃ qp1 qp2 qp3 : Row, qp1 ∈ exQMIP.1.rows ∧ qp2 ∈ exQMIP.1.rows ∧ qp3 ∈ exQMIP.1.rows ∧
        qp1 = ⟨[index1, index_var_qp], [1, -1],
          MRMFeatureSelectorQMIP.qpName "A" 0 "B" 0 ++ "-QP1", 0, 1,
          LPType.LOWER_BOUND_ONLY⟩ ∧
        qp2 = ⟨[index2, index_var_qp], [1, -1],
          MRMFeatureSelectorQMIP.qpName "A" 0 "B" 0 ++ "-QP2", 0, 1,
          LPType.LOWER_BOUND_ONLY⟩ ∧
        qp3 = ⟨[index1, index2, index_var_qp], [1, 1, -1],
          MRMFeatureSelectorQMIP.qpName "A" 0 "B" 0 ++ "-QP3", 0, 1,
          LPType.UPPER_BOUND_ONLY⟩ ∧
        ∀ x : Nat → ℚ,
          (qp1.OK x ↔ x index1 - x index_var_qp ≥ 0) ∧
          (qp2.OK x ↔ x index2 - x index_var_qp ≥ 0) ∧
          (qp3.OK x ↔ x index1 + x index2 - x index_var_qp ≤ 1) ∧
          ((x index1 = 0 ∨ x index1 = 1) → (x index2 = 0 ∨ x index2 = 1) →
            (x index_var_qp = 0 ∨ x index_var_qp = 1) →
            ((qp1.OK x ∧ qp2.OK x ∧ qp3.OK x) ↔ x index_var_qp = x index1 * x index2)) :=
  C5_qp_rows_linearize_product exInteger exMath exWindow exMap exQMIP.1 exQMIP.2
    (by decide!) (by decide!) (by decide!)
    0 1 0 0 (5, "A") (5, "B") [exFeature 1 5 2 3, exFeature 2 5 3 4]
    [exFeature 3 5 2 2] (exFeature 1 5 2 3) (exFeature 3 5 2 2)
    (by decide!) rfl rfl (by decide!) (by decide!) rfl rfl

/-- C5 does not hold as stated: in the window of the distinct groups `A`, `B` and
`A_0-B`, column `2` is the pair variable of the candidates `0` of `A` and `0` of `B`; it
is named `A_0-B_0` and its row `-QP1` refers to it. Column `4` is created for the
selection variable of candidate `0` of the group `A_0-B`, with the same name. For the
pair of candidate `0` of `A` (column `0`) and candidate `0` of `A_0-B`, whose pair
variable is column `5`, the row `-QP2` is on the columns `2` and `5`: it bounds the pair
variable by another pair variable, and no row of the model refers to column `4`. -/
theorem C5_counterexample :
    MRMFeatureSelectorQMIP.buildProblem exInteger exMath exPairFirst exCollisionMap =
      some exPairFirstModel ∧
    (exPairFirst.map Prod.snd).Nodup ∧
    exPairFirst[0]? = some (5, "A") ∧ exPairFirst[2]? = some (5, "A_0-B") ∧
    2 ∈ exInteger.neighbours 0 exPairFirst.length ∧
    exPairFirstModel.1.cols[2]? =
      some (exInteger.newColumn (MRMFeatureSelectorQMIP.qpName "A" 0 "B" 0) true 0) ∧
    (⟨[0, 2], [1, -1], MRMFeatureSelectorQMIP.qpName "A" 0 "B" 0 ++ "-QP1", 0, 1,
      LPType.LOWER_BOUND_ONLY⟩ : Row) ∈ exPairFirstModel.1.rows ∧
    exPairFirstModel.1.cols[4]? = some (exInteger.newColumn (varName "A_0-B" 0) true 0) ∧
    exPairFirstModel.1.cols[5]? =
      some (exInteger.newColumn (MRMFeatureSelectorQMIP.qpName "A" 0 "A_0-B" 0) true 0) ∧
    (⟨[2, 5], [1, -1], MRMFeatureSelectorQMIP.qpName "A" 0 "A_0-B" 0 ++ "-QP2", 0, 1,
      LPType.LOWER_BOUND_ONLY⟩ : Row) ∈ exPairFirstModel.1.rows ∧
    (∀ r ∈ exPairFirstModel.1.rows, 4 ∉ r.indices) := by
  decide!

/-- C8 (amended): with the locality weighting on, for a position `i ≤ ⌊nnThreshold⌋`
(for which `start_iter` is `0`) and two neighbour positions `j`, `j'` visited for `i`
with `|i - j| < |i - j'|`, the locality weight used for `(i, j)` is strictly smaller than
the one used for `(i, j')`: the farther neighbour is weighted more heavily. With the
option off the weight is `1` for every pair. -/
theorem C8_locality_weight_grows_with_distance (self : MRMFeatureSelector)
    (hnn : 0 ≤ self.nn_threshold_) :
    (self.locality_weight_ = true → ∀ n i j j' : Nat, (i : ℤ) ≤ ⌊self.nn_threshold_⌋ →
      j ∈ self.neighbours i n → j' ∈ self.neighbours i n →
      |(i : ℤ) - (j : ℤ)| < |(i : ℤ) - (j' : ℤ)| →
      self.locality_weight (self.start_iter i) i j <
        self.locality_weight (self.start_iter i) i j') ∧
    (self.locality_weight_ = false → ∀ start i j : Nat, self.locality_weight start i j = 1) := by
  constructor
  · intro hon n i j j' hi hj hj' hd
    rw [self.start_iter_eq_zero i hnn hi]
    unfold locality_weight
    rw [if_pos hon, if_pos hon]
    have e : ∀ k : Nat, |((0 : ℕ) : ℤ) + (k : ℤ) - (i : ℤ)| = |(i : ℤ) - (k : ℤ)| := by
      intro k
      rw [← abs_neg]
      congr 1
      push_cast
      ring
    rw [e j, e j']
    have h1 := self.neighbour_distance_le i n j' hnn hj'
    have hd' : ((|(i : ℤ) - (j : ℤ)| : ℤ) : ℚ) < ((|(i : ℤ) - (j' : ℤ)| : ℤ) : ℚ) := by
      exact_mod_cast hd
    apply one_div_lt_one_div_of_lt
    · linarith
    · linarith
  · intro hoff start i j
    unfold locality_weight
    rw [hoff]
    rfl

/-- C8 (amended) with `nnThreshold = 4`. -/
theorem C8_locality_weight_grows_with_distance_witness :
    (exLocality.locality_weight_ = true → ∀ n i j j' : Nat,
      (i : ℤ) ≤ ⌊exLocality.nn_threshold_⌋ →
      j ∈ exLocality.neighbours i n → j' ∈ exLocality.neighbours i n →
      |(i : ℤ) - (j : ℤ)| < |(i : ℤ) - (j' : ℤ)| →
      exLocality.locality_weight (exLocality.start_iter i) i j <
        exLocality.locality_weight (exLocality.start_iter i) i j') ∧
    (exLocality.locality_weight_ = false →
      ∀ start i j : Nat, exLocality.locality_weight start i j = 1) :=
  C8_locality_weight_grows_with_distance exLocality (by decide!)

/-- C8 as stated fails: with the locality weighting on and `nnThreshold = 4`, in a window
of three groups the neighbours `1` and `2` of position `0` get the weights `1/4` and
`1/3`: the closer neighbour has the smaller weight. -/
theorem C8_counterexample :
    exLocality.locality_weight_ = true ∧
    1 ∈ exLocality.neighbours 0 3 ∧ 2 ∈ exLocality.neighbours 0 3 ∧
    |((0 : ℕ) : ℤ) - ((1 : ℕ) : ℤ)| < |((0 : ℕ) : ℤ) - ((2 : ℕ) : ℤ)| ∧
    exLocality.locality_weight (exLocality.start_iter 0) 0 1 = 1 / 4 ∧
    exLocality.locality_weight (exLocality.start_iter 0) 0 2 = 1 / 3 ∧
    ¬ (exLocality.locality_weight (exLocality.start_iter 0) 0 1 >
      exLocality.locality_weight (exLocality.start_iter 0) 0 2) := by
  decide!

/-- C9: for every window of size `n` and every non-negative `nnThreshold` with
`n + ⌊nnThreshold⌋ + 1 ≤ INT_MAX` (so that the conversions to `int` and the sums of lines
141 and 142 are defined), the arithmetic of `int` gives the range
`start_iter`, `stop_iter` for every position `i < n`; the neighbour positions visited
for `i` are exactly the `j ≠ i` with
`max(i - ⌊nnThreshold⌋, 0) ≤ j < min(i + ⌊nnThreshold⌋ + 1, n)`; every one of them is
below the window size `n`, and the build of the model ends without an out-of-range read
(it returns a model when the variable type is supported and every group of the window
has an entry in the map). -/
theorem C9_neighbour_range_clipped (self : MRMFeatureSelector) (m : CMath ℚ)
    (time_to_name : List (ℚ × String)) (fm : String → Option (List (Feature ℚ)))
    (hnn : 0 ≤ self.nn_threshold_)
    (hfit : (time_to_name.length : ℤ) + ⌊self.nn_threshold_⌋ + 1 ≤ INT_MAX) :
    (∀ i : Nat, i < time_to_name.length →
      self.iter_range i time_to_name.length =
        some (self.start_iter i, self.stop_iter i time_to_name.length)) ∧
    (∀ i j : Nat, j ∈ self.neighbours i time_to_name.length ↔
      j ≠ i ∧ max ((i : ℤ) - ⌊self.nn_threshold_⌋) 0 ≤ (j : ℤ) ∧
        (j : ℤ) < min ((i : ℤ) + ⌊self.nn_threshold_⌋ + 1) (time_to_name.length : ℤ)) ∧
    (∀ i j : Nat, j ∈ self.neighbours i time_to_name.length → j < time_to_name.length) ∧
    (self.Supported → (∀ e ∈ time_to_name, (fm e.2).isSome) →
      (MRMFeatureSelectorQMIP.buildProblem self m time_to_name fm).isSome) := by
  refine ⟨fun i hi => self.iter_range_eq i _ hnn hi hfit, fun i j => ?_,
    fun i j h => self.neighbours_lt _ _ _ h, fun hs hfm => ?_⟩
  · rw [self.mem_neighbours]
    unfold start_iter stop_iter
    rw [toInt_of_nonneg hnn]
    constructor
    · rintro ⟨h1, h2, h3⟩
      exact ⟨h1, by omega, by omega⟩
    · rintro ⟨h1, h2, h3⟩
      exact ⟨h1, by omega, by omega⟩
  · obtain ⟨s', hs'⟩ := MRMFeatureSelectorQMIP.qmip_build_total self hs m time_to_name fm hfm
    rw [hs']
    rfl

/-- C9 with `nnThreshold = 4` on the example window of two groups: the threshold exceeds
the window size. -/
theorem C9_neighbour_range_clipped_witness :
    (∀ i : Nat, i < exWindow.length →
      exInteger.iter_range i exWindow.length =
        some (exInteger.start_iter i, exInteger.stop_iter i exWindow.length)) ∧
    (∀ i j : Nat, j ∈ exInteger.neighbours i exWindow.length ↔
      j ≠ i ∧ max ((i : ℤ) - ⌊exInteger.nn_threshold_⌋) 0 ≤ (j : ℤ) ∧
        (j : ℤ) < min ((i : ℤ) + ⌊exInteger.nn_threshold_⌋ + 1) (exWindow.length : ℤ)) ∧
    (∀ i j : Nat, j ∈ exInteger.neighbours i exWindow.length → j < exWindow.length) ∧
    (exInteger.Supported → (∀ e ∈ exWindow, (exMap e.2).isSome) →
      (MRMFeatureSelectorQMIP.buildProblem exInteger exMath exWindow exMap).isSome) :=
  C9_neighbour_range_clipped exInteger exMath exWindow exMap (by decide!) (by decide!)

/-- C9 does not hold as stated: the threshold `3000000000` is not negative, but its
conversion `(int)nn_threshold_` does not fit `int`, so that the computation of
`start_iter` and `stop_iter` is not defined for any position of the window of two
groups. -/
theorem C9_counterexample :
    0 ≤ exHuge.nn_threshold_ ∧
    toInt exHuge.nn_threshold_ = 3000000000 ∧
    ¬ fitsInt (toInt exHuge.nn_threshold_) ∧
    exHuge.iter_range 0 exWindow.length = none ∧
    exHuge.iter_range 1 exWindow.length = none := by
  decide!

/-- C10 (amended): for positive window and step lengths every window that
`select_MRMFeature` computes has `start ≤ end ≤ n`; when `⌈stepLength⌉ ≤ ⌊windowLength⌋`
(for whole-number lengths: `stepLength ≤ windowLength`) every index below `n` lies in a
window; and two different windows share an index only when `windowLength > stepLength`. -/
theorem C10_windows_cover_series (self : MRMFeatureSelector) (n : Nat)
    (hw : 0 < self.segment_window_length_) (hs : 0 < self.segment_step_length_) :
    (∀ se ∈ self.segments n, se.1 ≤ se.2 ∧ se.2 ≤ n) ∧
    (⌈self.segment_step_length_⌉₊ ≤ ⌊self.segment_window_length_⌋₊ →
      ∀ k, k < n → ∃ se ∈ self.segments n, se.1 ≤ k ∧ k < se.2) ∧
    (∀ i i' : Nat, ∀ se se' : Nat × Nat, i ≠ i' →
      (self.segments n)[i]? = some se → (self.segments n)[i']? = some se' →
      ∀ k, se.1 ≤ k ∧ k < se.2 → se'.1 ≤ k ∧ k < se'.2 →
      self.segment_step_length_ < self.segment_window_length_) := by
  have hget : ∀ (i : Nat) (se : Nat × Nat), (self.segments n)[i]? = some se →
      se = (segment_start self.segment_step_length_ i,
        segment_end n self.segment_window_length_ self.segment_step_length_ i) := by
    intro i se h
    unfold segments at h
    rw [segment_lengths_of_pos self n hw] at h
    simp only [List.getElem?_map, Option.map_eq_some'] at h
    obtain ⟨a, ha, rfl⟩ := h
    have hlt : i < (List.range (n_segments n self.segment_step_length_)).length := by
      by_contra hcon
      rw [List.getElem?_eq_none (Nat.le_of_not_lt hcon)] at ha
      exact absurd ha (by simp)
    rw [List.getElem?_eq_getElem hlt, List.getElem_range] at ha
    rw [← Option.some.inj ha]
  refine ⟨?_, ?_, ?_⟩
  · intro se hse
    obtain ⟨i, hi, rfl⟩ := (mem_segments self n hw se).1 hse
    exact segment_bounds n _ _ hw hs i hi
  · intro hcf k hk
    obtain ⟨i, hi, h1, h2⟩ := segment_cover n _ _ hs hcf k hk
    exact ⟨_, (mem_segments self n hw _).2 ⟨i, hi, rfl⟩, h1, h2⟩
  · intro i i' se se' hne h h' k hk hk'
    rw [hget i se h] at hk
    rw [hget i' se' h'] at hk'
    rcases Nat.lt_or_gt_of_ne hne with hlt | hlt
    · exact segment_disjoint n _ _ hs i i' hlt k hk.2 hk'.1
    · exact segment_disjoint n _ _ hs i' i hlt k hk'.2 hk.1

/-- C10 with the default window length `8` and step length `4` on a series of `10`
entries. -/
theorem C10_windows_cover_series_witness :
    (∀ se ∈ getDefaultParameters.segments 10, se.1 ≤ se.2 ∧ se.2 ≤ 10) ∧
    (⌈getDefaultParameters.segment_step_length_⌉₊ ≤
        ⌊getDefaultParameters.segment_window_length_⌋₊ →
      ∀ k, k < 10 → ∃ se ∈ getDefaultParameters.segments 10, se.1 ≤ k ∧ k < se.2) ∧
    (∀ i i' : Nat, ∀ se se' : Nat × Nat, i ≠ i' →
      (getDefaultParameters.segments 10)[i]? = some se →
      (getDefaultParameters.segments 10)[i']? = some se' →
      ∀ k, se.1 ≤ k ∧ k < se.2 → se'.1 ≤ k ∧ k < se'.2 →
      getDefaultParameters.segment_step_length_ <
        getDefaultParameters.segment_window_length_) :=
  C10_windows_cover_series getDefaultParameters 10 (by decide!) (by decide!)

/-- C10 as stated fails: with window length `1` and step length `2` the windows of a
series of `4` entries are `[0,1)` and `[2,3)`, which leave the index `1` out; with window
and step length `5/2` the windows of a series of `5` entries are `[0,2)` and `[2,4)`,
which leave the index `4` out. -/
theorem C10_counterexample :
    (0 < exShortWindow.segment_window_length_ ∧ 0 < exShortWindow.segment_step_length_ ∧
      exShortWindow.segments 4 = [(0, 1), (2, 3)] ∧
      ¬ ∃ se ∈ exShortWindow.segments 4, se.1 ≤ 1 ∧ 1 < se.2) ∧
    (0 < exFractionalStep.segment_window_length_ ∧
      0 < exFractionalStep.segment_step_length_ ∧
      exFractionalStep.segments 5 = [(0, 2), (2, 4)] ∧
      ¬ ∃ se ∈ exFractionalStep.segments 5, se.1 ≤ 4 ∧ 4 < se.2) := by
  decide!

/-- C11: when `segment_window_length_` and `segment_step_length_` are both `-1` and the
series built from the features is not empty, the loop over the segments of
`select_MRMFeature` has the single segment `[0, n)`, whose slice is the whole sorted
series, and `select_MRMFeature` filters the features by the result of this one call of
`optimize`. -/
theorem C11_auto_sentinel_single_window
    (optimize : List (ℚ × String) → (String → Option (List (Feature ℚ))) →
      Option (List String))
    (self : MRMFeatureSelector) (features : List (Feature ℚ))
    (hw : self.segment_window_length_ = -1) (hs : self.segment_step_length_ = -1)
    (hne : (buildSeries self features).time_to_name ≠ []) :
    self.segments (sort (buildSeries self features).time_to_name).length =
      [(0, (sort (buildSeries self features).time_to_name).length)] ∧
    time_slice (sort (buildSeries self features).time_to_name)
      (0, (sort (buildSeries self features).time_to_name).length) =
      sort (buildSeries self features).time_to_name ∧
    MRMFeatureSelector.select_MRMFeature optimize self features =
      (optimize (sort (buildSeries self features).time_to_name)
        (buildSeries self features).feature_name_map).map
        fun result_names => filter_features self result_names features := by
  have hpos : 0 < (sort (buildSeries self features).time_to_name).length := by
    rw [sort_length]
    exact List.length_pos.2 hne
  have hseg := segments_auto self _ hw hs hpos
  refine ⟨hseg, time_slice_all _, ?_⟩
  unfold MRMFeatureSelector.select_MRMFeature
  simp only
  rw [run_segments_single optimize self _ _ hseg]
  cases optimize (sort (buildSeries self features).time_to_name)
    (buildSeries self features).feature_name_map <;> rfl

/-- C11 on the two example features, with Strategy A and a solver that returns the value
`1` for every column. -/
theorem C11_auto_sentinel_single_window_witness :
    exAuto.segments (sort (buildSeries exAuto exFeatures).time_to_name).length =
      [(0, (sort (buildSeries exAuto exFeatures).time_to_name).length)] ∧
    time_slice (sort (buildSeries exAuto exFeatures).time_to_name)
      (0, (sort (buildSeries exAuto exFeatures).time_to_name).length) =
      sort (buildSeries exAuto exFeatures).time_to_name ∧
    MRMFeatureSelector.select_MRMFeature
        (MRMFeatureSelectorScore.optimize exAuto exMath fun _ _ => 1) exAuto exFeatures =
      ((MRMFeatureSelectorScore.optimize exAuto exMath fun _ _ => 1)
        (sort (buildSeries exAuto exFeatures).time_to_name)
        (buildSeries exAuto exFeatures).feature_name_map).map
        fun result_names => filter_features exAuto result_names exFeatures :=
  C11_auto_sentinel_single_window (MRMFeatureSelectorScore.optimize exAuto exMath fun _ _ => 1)
    exAuto exFeatures rfl rfl (by decide!)

/-- C12 fails on the code: with `select_transition_group_` off and the single top-level
feature of group `G`, assay time `5`, with one subordinate of `native_id` `t`, the series
built by `select_MRMFeature` is `[(5, "G")]`: it has no entry `(5, "t")` for the
subordinate, although the candidate list stored under `t` holds the subordinate. The test
`names.count(component_name)` of the subordinate loop lacks the `== 0` of the test for
the top-level feature. -/
theorem C12_subordinate_group_missing_from_series :
    (buildSeries exTransitions [exTop 1 "G" 5 [exSub 2 "t"]]).time_to_name = [(5, "G")] ∧
    ((5 : ℚ), remove_spaces (exSub 2 "t").native_id) ∉
      sort (buildSeries exTransitions [exTop 1 "G" 5 [exSub 2 "t"]]).time_to_name ∧
    (buildSeries exTransitions [exTop 1 "G" 5 [exSub 2 "t"]]).feature_name_map
      (remove_spaces (exSub 2 "t").native_id) = some [exSub 2 "t"] :=
  ⟨by decide!, by decide!, rfl⟩

/-- C13 fails on the code: with `select_transition_group_` off and the single top-level
feature of group `G` with one subordinate whose `native_id` is `G` too, the sorted series
that `select_MRMFeature` windows is `[(5, "G"), (5, "G")]`: two entries with the same
group identity. The subordinate loop appends an entry exactly when the name is already in
`names` (`names.count(component_name)` without `== 0`). -/
theorem C13_series_repeats_group_identity :
    sort (buildSeries exTransitions [exTop 1 "G" 5 [exSub 2 "G"]]).time_to_name =
      [(5, "G"), (5, "G")] ∧
    ¬ ((sort (buildSeries exTransitions [exTop 1 "G" 5 [exSub 2 "G"]]).time_to_name).map
      Prod.snd).Nodup :=
  ⟨by decide!, by decide!⟩

/-- C15: with `select_transition_group_` on, the output of `select_MRMFeature` is the
list of the input features, unchanged and in their order, that have at least one
subordinate and whose own name `PeptideRef + "_" + unique id` is in the set of the names
returned by the windows. -/
theorem C15_top_level_kept_iff_selected_with_subordinate (self : MRMFeatureSelector)
    (result_names : List String) (features : List (Feature ℚ))
    (hon : self.select_transition_group_ = true) :
    filter_features self result_names features =
      features.filter (fun f => decide (f.getSubordinates.length ≠ 0) &&
        decide (varName f.PeptideRef f.getUniqueId ∈ result_names)) ∧
    ∀ f, f ∈ filter_features self result_names features ↔
      f ∈ features ∧ f.getSubordinates ≠ [] ∧
        varName f.PeptideRef f.getUniqueId ∈ result_names := by
  have hkept : ∀ f : Feature ℚ, keptFeature self result_names f =
      if f.getSubordinates.length ≠ 0 ∧ varName f.PeptideRef f.getUniqueId ∈ result_names
      then some f else none := by
    intro f
    unfold keptFeature keptSubordinates feature_name
    simp only [hon, if_true]
    by_cases hn : varName f.PeptideRef f.getUniqueId ∈ result_names
    · simp only [hn, decide_True, List.filter_true, and_true,
        Feature.setSubordinates_getSubordinates]
    · simp [hn]
  have hfilter : filter_features self result_names features =
      features.filter (fun f => decide (f.getSubordinates.length ≠ 0) &&
        decide (varName f.PeptideRef f.getUniqueId ∈ result_names)) := by
    rw [filter_features_eq]
    induction features with
    | nil => rfl
    | cons f rest ih =>
      rw [List.filterMap_cons, List.filter_cons, hkept f, ih]
      by_cases h : f.getSubordinates.length ≠ 0 ∧
          varName f.PeptideRef f.getUniqueId ∈ result_names
      · rw [if_pos h]
        simp [h.1, h.2]
      · rw [if_neg h]
        have : (decide (f.getSubordinates.length ≠ 0) &&
            decide (varName f.PeptideRef f.getUniqueId ∈ result_names)) = false := by
          rw [Bool.and_eq_false_iff, decide_eq_false_iff_not, decide_eq_false_iff_not]
          exact not_and_or.1 h
        simp only [this]
        simp
  refine ⟨hfilter, fun f => ?_⟩
  rw [hfilter, List.mem_filter]
  simp only [Bool.and_eq_true, decide_eq_true_eq, ne_eq, List.length_eq_zero]

/-- C15 on the two example features, of which `A_1` is selected. -/
theorem C15_top_level_kept_iff_selected_with_subordinate_witness :
    filter_features getDefaultParameters ["A_1"] exFeatures =
      exFeatures.filter (fun f => decide (f.getSubordinates.length ≠ 0) &&
        decide (varName f.PeptideRef f.getUniqueId ∈ ["A_1"])) ∧
    ∀ f, f ∈ filter_features getDefaultParameters ["A_1"] exFeatures ↔
      f ∈ exFeatures ∧ f.getSubordinates ≠ [] ∧
        varName f.PeptideRef f.getUniqueId ∈ ["A_1"] :=
  C15_top_level_kept_iff_selected_with_subordinate getDefaultParameters ["A_1"] exFeatures rfl

/-- C15 does not hold as stated: the top-level feature of group `A` with unique id `1`
has no subordinate; Strategy A with a solver that returns `1` for the only column selects
its name `A_1`, but the feature is not in the output of `select_MRMFeature`, which is
empty. -/
theorem C15_counterexample :
    getDefaultParameters.select_transition_group_ = true ∧
    run_segments (MRMFeatureSelectorScore.optimize getDefaultParameters exMath fun _ _ => 1)
      getDefaultParameters
      (sort (buildSeries getDefaultParameters [exTop 1 "A" 5 []]).time_to_name)
      (buildSeries getDefaultParameters [exTop 1 "A" 5 []]).feature_name_map =
        some ["A_1"] ∧
    varName (exTop 1 "A" 5 []).PeptideRef (exTop 1 "A" 5 []).getUniqueId ∈ ["A_1"] ∧
    MRMFeatureSelectorScore.select_MRMFeature getDefaultParameters exMath (fun _ _ => 1)
      [exTop 1 "A" 5 []] = some [] := by
  have h : run_segments
      (MRMFeatureSelectorScore.optimize getDefaultParameters exMath fun _ _ => 1)
      getDefaultParameters
      (sort (buildSeries getDefaultParameters [exTop 1 "A" 5 []]).time_to_name)
      (buildSeries getDefaultParameters [exTop 1 "A" 5 []]).feature_name_map =
        some ["A_1"] := by
    decide!
  refine ⟨rfl, h, by decide!, ?_⟩
  unfold MRMFeatureSelectorScore.select_MRMFeature MRMFeatureSelector.select_MRMFeature
  simp only [h]
  rfl

/-- C16: idempotence of the selection with Strategy A. For every collection of top-level
features with pairwise distinct `PeptideRef` values that contain no space, each with at
least one subordinate, with `select_transition_group_` on, a supported variable type,
`optimal_threshold_` `0.5`, segments that cover every position of the series, and a
solver whose assignment satisfies the rows of the model of every segment,
`select_MRMFeature` returns the collection it was given. -/
theorem C16_selection_is_idempotent (self : MRMFeatureSelector) (m : CMath ℚ)
    (solve : LPWrapper → Nat → ℚ) (features : List (Feature ℚ))
    (hon : self.select_transition_group_ = true) (hs : self.Supported)
    (hthr : self.optimal_threshold_ = 1 / 2)
    (hgroups : (features.map Feature.PeptideRef).Nodup)
    (hspace : ∀ f ∈ features, remove_spaces f.PeptideRef = f.PeptideRef)
    (hsubs : ∀ f ∈ features, f.getSubordinates ≠ [])
    (hcover : ∀ k < features.length,
      ∃ se ∈ self.segments features.length, se.1 ≤ k ∧ k < se.2)
    (hsolve : ∀ se ∈ self.segments features.length,
      ∀ s ∈ MRMFeatureSelectorScore.buildProblem self m
          (time_slice (sort (buildSeries self features).time_to_name) se)
          (buildSeries self features).feature_name_map,
        s.1.RowsOK (solve s.1)) :
    MRMFeatureSelectorScore.select_MRMFeature self m solve features = some features := by
  have hndS : (features.map fun f => remove_spaces f.PeptideRef).Nodup := by
    rw [List.map_congr_left hspace]
    exact hgroups
  obtain ⟨httn, hfm⟩ := buildSeries_on self hon features hndS
  have hperm := sort_perm (buildSeries self features).time_to_name
  have hlen : (sort (buildSeries self features).time_to_name).length = features.length := by
    rw [sort_length, httn, List.length_map]
  have hSnd : ((sort (buildSeries self features).time_to_name).map Prod.snd).Nodup := by
    rw [(hperm.map Prod.snd).nodup_iff, httn, List.map_map]
    exact hndS
  have hSmem : ∀ e ∈ sort (buildSeries self features).time_to_name,
      ∃ f ∈ features, e.2 = remove_spaces f.PeptideRef := by
    intro e he
    have he' := hperm.mem_iff.1 he
    rw [httn, List.mem_map] at he'
    obtain ⟨f, hf, rfl⟩ := he'
    exact ⟨f, hf, rfl⟩
  have hslice : ∀ se : Nat × Nat,
      ∀ e ∈ time_slice (sort (buildSeries self features).time_to_name) se,
        ∃ f ∈ features, (buildSeries self features).feature_name_map e.2 = some [f] ∧
          e.2 = f.PeptideRef := by
    intro se e he
    obtain ⟨f, hf, hef⟩ := hSmem e ((time_slice_sublist _ se).subset he)
    exact ⟨f, hf, by rw [hef]; exact hfm f hf, by rw [hef]; exact hspace f hf⟩
  have hbuild : ∀ se : Nat × Nat,
      ∃ s, MRMFeatureSelectorScore.buildProblem self m
        (time_slice (sort (buildSeries self features).time_to_name) se)
        (buildSeries self features).feature_name_map = some s := by
    intro se
    apply MRMFeatureSelectorScore.score_build_total self hs
    intro e he
    obtain ⟨f, _, hfe, _⟩ := hslice se e he
    rw [hfe]; rfl
  have hopt : ∀ se : Nat × Nat, ∀ s,
      MRMFeatureSelectorScore.buildProblem self m
        (time_slice (sort (buildSeries self features).time_to_name) se)
        (buildSeries self features).feature_name_map = some s →
      MRMFeatureSelectorScore.optimize self m solve
        (time_slice (sort (buildSeries self features).time_to_name) se)
        (buildSeries self features).feature_name_map =
        some (MRMFeatureSelectorScore.extract self s.1 (solve s.1)) := by
    intro se s hb
    unfold MRMFeatureSelectorScore.optimize
    rw [hb]
  have hrun := run_segments_eq (MRMFeatureSelectorScore.optimize self m solve) self
    (sort (buildSeries self features).time_to_name)
    (buildSeries self features).feature_name_map
    (fun se _ => by
      obtain ⟨s, hb⟩ := hbuild se
      rw [hopt se s hb]; rfl)
  have hall : ∀ f ∈ features, varName f.PeptideRef f.getUniqueId ∈
      (self.segments (sort (buildSeries self features).time_to_name).length).flatMap
        fun se => (MRMFeatureSelectorScore.optimize self m solve
          (time_slice (sort (buildSeries self features).time_to_name) se)
          (buildSeries self features).feature_name_map).getD [] := by
    intro f hf
    have hin : (f.assay_rt, remove_spaces f.PeptideRef) ∈
        sort (buildSeries self features).time_to_name := by
      rw [hperm.mem_iff, httn]
      exact List.mem_map_of_mem _ hf
    obtain ⟨k, hk, hke⟩ := List.getElem_of_mem hin
    have hget : (sort (buildSeries self features).time_to_name)[k]? =
        some (f.assay_rt, remove_spaces f.PeptideRef) := by
      rw [List.getElem?_eq_getElem hk, hke]
    obtain ⟨se, hse, h1, h2⟩ := hcover k (hlen ▸ hk)
    have hmem := mem_time_slice hget h1 h2
    obtain ⟨⟨P, vars⟩, hb⟩ := hbuild se
    have hsel := MRMFeatureSelectorScore.single_candidate_selected
      (by rw [hthr]; norm_num)
      ((time_slice_sublist _ se).map Prod.snd |>.nodup hSnd)
      (fun e he feats hfe => by
        obtain ⟨g, _, hge, _⟩ := hslice se e he
        rw [hge] at hfe
        rw [← Option.some.inj hfe]
        exact List.nodup_singleton _)
      hb (hsolve se hse (P, vars) hb) hmem (hfm f hf)
    rw [List.mem_flatMap]
    refine ⟨se, hlen ▸ hse, ?_⟩
    rw [hopt se (P, vars) hb, Option.getD_some]
    simpa [hspace f hf] using hsel
  rw [MRMFeatureSelectorScore.select_MRMFeature, select_MRMFeature_eq, hrun, Option.map_some']
  congr 1
  have hkept : ∀ f ∈ features, keptFeature self
      ((self.segments (sort (buildSeries self features).time_to_name).length).flatMap
        fun se => (MRMFeatureSelectorScore.optimize self m solve
          (time_slice (sort (buildSeries self features).time_to_name) se)
          (buildSeries self features).feature_name_map).getD []) f = some f := by
    intro f hf
    unfold keptFeature keptSubordinates feature_name
    simp only [hon, if_true, hall f hf, decide_True, List.filter_true,
      Feature.setSubordinates_getSubordinates]
    rw [if_pos]
    intro h0
    exact hsubs f hf (List.length_eq_zero.1 h0)
  have hmap : ∀ (l : List (Feature ℚ)) (g : Feature ℚ → Option (Feature ℚ)),
      (∀ f ∈ l, g f = some f) → l.filterMap g = l := by
    intro l g
    induction l with
    | nil => intro _; rfl
    | cons a t ih =>
      intro h
      rw [List.filterMap_cons, h a (List.mem_cons_self _ _)]
      simp only
      rw [ih (fun f hf => h f (List.mem_cons_of_mem _ hf))]
  exact hmap features _ hkept

/-- C16 on the two example features with the default parameters and the solver that
returns the value `1` for every column. -/
theorem C16_selection_is_idempotent_witness :
    MRMFeatureSelectorScore.select_MRMFeature getDefaultParameters exMath exOnes exFeatures =
      some exFeatures :=
  C16_selection_is_idempotent getDefaultParameters exMath exOnes exFeatures rfl (by decide)
    rfl (by decide!) (by decide!)
    (by
      intro f hf
      simp only [exFeatures, List.mem_cons, List.mem_singleton, List.not_mem_nil,
        or_false] at hf
      rcases hf with rfl | rfl <;> exact List.cons_ne_nil _ _)
    (by decide!) (by decide!)

/-- C16 does not hold as stated: with window length `1` and step length `2` the only
segment of the series of the two example features is `[0, 1)`. Each group has one
top-level feature with subordinates, `select_transition_group_` is on, the threshold is
`0.5` and the solver satisfies the rows of the model, but only the feature of group `A`
is in the output of `select_MRMFeature`. -/
theorem C16_counterexample :
    exShortWindow.select_transition_group_ = true ∧
    exShortWindow.optimal_threshold_ = 1 / 2 ∧
    (exFeatures.map Feature.PeptideRef).Nodup ∧
    (∀ f ∈ exFeatures, f.getSubordinates.length ≠ 0) ∧
    exShortWindow.segments exFeatures.length = [(0, 1)] ∧
    (∀ se ∈ exShortWindow.segments exFeatures.length,
      ∀ s ∈ MRMFeatureSelectorScore.buildProblem exShortWindow exMath
          (time_slice (sort (buildSeries exShortWindow exFeatures).time_to_name) se)
          (buildSeries exShortWindow exFeatures).feature_name_map,
        s.1.RowsOK (exOnes s.1)) ∧
    MRMFeatureSelectorScore.select_MRMFeature exShortWindow exMath exOnes exFeatures =
      some [exTop 1 "A" 5 [exSub 11 "a1", exSub 12 "a2"]] ∧
    MRMFeatureSelectorScore.select_MRMFeature exShortWindow exMath exOnes exFeatures ≠
      some exFeatures := by
  have h : run_segments (MRMFeatureSelectorScore.optimize exShortWindow exMath exOnes)
      exShortWindow (sort (buildSeries exShortWindow exFeatures).time_to_name)
      (buildSeries exShortWindow exFeatures).feature_name_map = some ["A_1"] := by
    decide!
  have hsel : MRMFeatureSelectorScore.select_MRMFeature exShortWindow exMath exOnes
      exFeatures = some [exTop 1 "A" 5 [exSub 11 "a1", exSub 12 "a2"]] := by
    unfold MRMFeatureSelectorScore.select_MRMFeature MRMFeatureSelector.select_MRMFeature
    simp only [h]
    rfl
  refine ⟨rfl, rfl, by decide!, by decide!, by decide!, by decide!, hsel, ?_⟩
  rw [hsel]
  intro heq
  have hl := congrArg (Option.map List.length) heq
  revert hl
  decide

/-- C17: `_addVariable` fails exactly when the configured variable type is neither
`"integer"` nor `"continuous"`. Otherwise it appends one column to the model and returns
its index; the column has the given name and objective coefficient, the type integer or
continuous according to the configuration, and the bounds `0` and `1`, double-bounded
when `bounded` is true and unbounded when it is false: a value is admissible for the
column when it lies in `[0, 1]` (if `bounded`) and is a whole number (if the type is
integer). -/
theorem C17_addVariable_contract (self : MRMFeatureSelector) (problem : LPWrapper)
    (name : String) (bounded : Bool) (obj : ℚ) :
    (self._addVariable problem name bounded obj = none ↔
      ¬ (self.variable_type_ = s_integer ∨ self.variable_type_ = s_continuous)) ∧
    self._addVariable problem name bounded obj =
      (if self.variable_type_ = s_integer ∨ self.variable_type_ = s_continuous then
        some ({ problem with
            cols := problem.cols ++
              [⟨name, 0, 1, if bounded then LPType.DOUBLE_BOUNDED else LPType.UNBOUNDED,
                if self.variable_type_ = s_integer then VariableType.INTEGER
                else VariableType.CONTINUOUS, obj⟩] },
          problem.cols.length)
      else none) ∧
    ∀ v : ℚ,
      (Column.mk name 0 1 (if bounded then LPType.DOUBLE_BOUNDED else LPType.UNBOUNDED)
        (if self.variable_type_ = s_integer then VariableType.INTEGER
          else VariableType.CONTINUOUS) obj).OK v ↔
      ((bounded = true → 0 ≤ v ∧ v ≤ 1) ∧ (self.variable_type_ = s_integer → v.den = 1)) := by
  refine ⟨?_, ?_, fun v => ?_⟩
  · by_cases hs : self.Supported
    · rw [self._addVariable_eq hs]
      exact ⟨fun h => absurd h (by simp), fun h => absurd hs h⟩
    · rw [self._addVariable_none hs]
      exact ⟨fun _ => hs, fun _ => rfl⟩
  · by_cases hs : self.Supported
    · rw [self._addVariable_eq hs, if_pos (show self.variable_type_ = s_integer ∨
        self.variable_type_ = s_continuous from hs)]
      rfl
    · rw [self._addVariable_none hs, if_neg (show ¬ (self.variable_type_ = s_integer ∨
        self.variable_type_ = s_continuous) from hs)]
  · unfold Column.OK
    cases bounded <;> by_cases hi : self.variable_type_ = s_integer <;>
      simp [hi, boundOK, typeOK]

/-- C18: for every model built by `MRMFeatureSelectorQMIP::optimize`, the result is the
list, in column order, of the names of the columns whose name is in the set `variables`
and whose value minus `optimal_threshold_` is greater than `1e-6`. Every name of
`variables` is the name of the selection variable of a candidate of a group of the
window. The name of a deviation variable is never in the result. The name of a pair
variable is in the result only if it is also the name of a selection variable, and never
when no group name of the window contains the character `-`. -/
theorem C18_result_lists_selected_variables (self : MRMFeatureSelector) (m : CMath ℚ)
    (solve : LPWrapper → Nat → ℚ) (time_to_name : List (ℚ × String))
    (fm : String → Option (List (Feature ℚ))) (P : LPWrapper) (vars : List String)
    (hb : MRMFeatureSelectorQMIP.buildProblem self m time_to_name fm = some (P, vars)) :
    MRMFeatureSelectorQMIP.optimize self m solve time_to_name fm =
      some (((List.range P.getNumberOfColumns).filter fun c =>
        decide (solve P c - self.optimal_threshold_ > 1 / 1000000) &&
          decide (P.getColumnName c ∈ vars)).map P.getColumnName) ∧
    (∀ n, n ∈ MRMFeatureSelectorQMIP.extract self P vars (solve P) ↔
      ∃ c, solve P c - self.optimal_threshold_ > 1 / 1000000 ∧ P.colNames[c]? = some n ∧
        n ∈ vars) ∧
    (∀ n ∈ vars, SelectionName time_to_name fm n) ∧
    (∀ (g1 : String) (i : Nat) (g2 : String) (j : Nat),
      MRMFeatureSelectorQMIP.qpName g1 i g2 j ++ "-ABS" ∉
        MRMFeatureSelectorQMIP.extract self P vars (solve P)) ∧
    (∀ (g1 : String) (i : Nat) (g2 : String) (j : Nat),
      MRMFeatureSelectorQMIP.qpName g1 i g2 j ∈
          MRMFeatureSelectorQMIP.extract self P vars (solve P) →
        SelectionName time_to_name fm (MRMFeatureSelectorQMIP.qpName g1 i g2 j)) ∧
    ((∀ e ∈ time_to_name, '-' ∉ e.2.data) →
      ∀ (g1 : String) (i : Nat) (g2 : String) (j : Nat),
        MRMFeatureSelectorQMIP.qpName g1 i g2 j ∉
          MRMFeatureSelectorQMIP.extract self P vars (solve P)) := by
  have hvars := MRMFeatureSelectorQMIP.variables_are_selection_names hb
  have hmem := MRMFeatureSelectorQMIP.qmip_mem_extract self P vars (solve P)
  refine ⟨?_, hmem, hvars, ?_, ?_, ?_⟩
  · unfold MRMFeatureSelectorQMIP.optimize
    rw [hb]
    rfl
  · intro g1 i g2 j hin
    obtain ⟨_, _, _, hv⟩ := (hmem _).1 hin
    obtain ⟨e, _, _, _, f, _, heq⟩ := hvars _ hv
    rw [qpName_eq_varName] at heq
    exact abs_name_ne_varName _ _ _ _ heq.symm
  · intro g1 i g2 j hin
    obtain ⟨_, _, _, hv⟩ := (hmem _).1 hin
    exact hvars _ hv
  · intro hdash g1 i g2 j hin
    obtain ⟨_, _, _, hv⟩ := (hmem _).1 hin
    exact selectionName_no_dash hdash (hvars _ hv) (qpName_has_dash g1 i g2 j)

/-- C18 on the example window, with the solver that returns the value `1` for every
column. -/
theorem C18_result_lists_selected_variables_witness :
    MRMFeatureSelectorQMIP.optimize exInteger exMath exOnes exWindow exMap =
      some (((List.range exQMIP.1.getNumberOfColumns).filter fun c =>
        decide (exOnes exQMIP.1 c - exInteger.optimal_threshold_ > 1 / 1000000) &&
          decide (exQMIP.1.getColumnName c ∈ exQMIP.2)).map exQMIP.1.getColumnName) ∧
    (∀ n, n ∈ MRMFeatureSelectorQMIP.extract exInteger exQMIP.1 exQMIP.2
        (exOnes exQMIP.1) ↔
      ∃ c : Nat, exOnes exQMIP.1 c - exInteger.optimal_threshold_ > 1 / 1000000 ∧
        exQMIP.1.colNames[c]? = some n ∧ n ∈ exQMIP.2) ∧
    (∀ n ∈ exQMIP.2, SelectionName exWindow exMap n) ∧
    (∀ (g1 : String) (i : Nat) (g2 : String) (j : Nat),
      MRMFeatureSelectorQMIP.qpName g1 i g2 j ++ "-ABS" ∉
        MRMFeatureSelectorQMIP.extract exInteger exQMIP.1 exQMIP.2
          (exOnes exQMIP.1)) ∧
    (∀ (g1 : String) (i : Nat) (g2 : String) (j : Nat),
      MRMFeatureSelectorQMIP.qpName g1 i g2 j ∈
          MRMFeatureSelectorQMIP.extract exInteger exQMIP.1 exQMIP.2
            (exOnes exQMIP.1) →
        SelectionName exWindow exMap (MRMFeatureSelectorQMIP.qpName g1 i g2 j)) ∧
    ((∀ e ∈ exWindow, '-' ∉ e.2.data) →
      ∀ (g1 : String) (i : Nat) (g2 : String) (j : Nat),
        MRMFeatureSelectorQMIP.qpName g1 i g2 j ∉
          MRMFeatureSelectorQMIP.extract exInteger exQMIP.1 exQMIP.2
            (exOnes exQMIP.1)) :=
  C18_result_lists_selected_variables exInteger exMath exOnes exWindow exMap
    exQMIP.1 exQMIP.2 (by decide!)

/-- C18 does not hold as stated: in the window of the groups `A_0-B`, `A` and `B` the
pair variable of the candidates `0` of `A` and `0` of `B` is column `16`, with the name
`A_0-B_0`, and its rows refer to it. With the feasible assignment `exCollisionValues`
this column has the value `1`, and its name is in the result of `optimize`, although it
is a pair variable and the selection variable of the same name (column `0`) has the
value `0`. -/
theorem C18_counterexample :
    ∃ P vars,
      MRMFeatureSelectorQMIP.buildProblem exInteger exMath exCollisionWindow exCollisionMap =
        some (P, vars) ∧
      P.Feasible exCollisionValues ∧
      P.cols[16]? =
        some (exInteger.newColumn (MRMFeatureSelectorQMIP.qpName "A" 0 "B" 0) true 0) ∧
      (⟨[1, 16], [1, -1], MRMFeatureSelectorQMIP.qpName "A" 0 "B" 0 ++ "-QP1", 0, 1,
        LPType.LOWER_BOUND_ONLY⟩ : Row) ∈ P.rows ∧
      exCollisionValues 16 = 1 ∧
      P.getColumnIndex (varName "A_0-B" 0) = 0 ∧ exCollisionValues 0 = 0 ∧
      MRMFeatureSelectorQMIP.optimize exInteger exMath (fun _ => exCollisionValues)
          exCollisionWindow exCollisionMap =
        some [varName "A" 7, varName "B" 8, varName "A_0-B" 1,
          MRMFeatureSelectorQMIP.qpName "A" 0 "B" 0] :=
  ⟨_, _, rfl, by decide!, by decide!, by decide!, by decide!, by decide!, by decide!,
    by decide!⟩

/-- C19: over the reals, with `log` the natural logarithm, the linear score
`make_score` is strictly increasing in the peak area above `1` for every positive
signal-to-noise ratio, and strictly increasing in the signal-to-noise ratio above `1` for
every positive peak area: for `1 < p < p'` and `0 < s` the feature with peak area `p'`
has a greater score than the feature with peak area `p` and the same signal-to-noise
ratio `s`, and symmetrically. -/
theorem C19_linear_score_increases_above_one (m : CMath ℝ) (hlog : m.log = Real.log)
    (f f' g g' : Feature ℝ)
    (hp : 1 < f.peak_apices_sum) (hpp : f.peak_apices_sum < f'.peak_apices_sum)
    (hsn : f'.sn_ratio = f.sn_ratio) (hsnpos : 0 < f.sn_ratio)
    (hs : 1 < g.sn_ratio) (hss : g.sn_ratio < g'.sn_ratio)
    (hpk : g'.peak_apices_sum = g.peak_apices_sum) (hpkpos : 0 < g.peak_apices_sum) :
    MRMFeatureSelectorScore.make_score m f < MRMFeatureSelectorScore.make_score m f' ∧
    MRMFeatureSelectorScore.make_score m g < MRMFeatureSelectorScore.make_score m g' := by
  have hfs : 0 < (if Real.log f.sn_ratio ≤ 0 then 1 else Real.log f.sn_ratio) :=
    floored_log_pos hsnpos
  have hfp : 0 < (if Real.log g.peak_apices_sum ≤ 0 then 1 else Real.log g.peak_apices_sum) :=
    floored_log_pos hpkpos
  simp only [MRMFeatureSelectorScore.make_score_real m hlog]
  constructor
  · rw [hsn]
    exact mul_lt_mul_of_pos_right (floored_log_strictMono hp hpp) hfs
  · rw [hpk]
    exact mul_lt_mul_of_pos_left (floored_log_strictMono hs hss) hfp

/-- C19 on the peak areas `2 < 3` at signal-to-noise ratio `3`, and on the
signal-to-noise ratios `2 < 3` at peak area `3`. -/
theorem C19_linear_score_increases_above_one_witness :
    MRMFeatureSelectorScore.make_score (CMath.mk Real.log Real.log fun x _ => x)
        (Feature.mk 0 0 "" "" 0 2 3 []) <
      MRMFeatureSelectorScore.make_score (CMath.mk Real.log Real.log fun x _ => x)
        (Feature.mk 0 0 "" "" 0 3 3 []) ∧
    MRMFeatureSelectorScore.make_score (CMath.mk Real.log Real.log fun x _ => x)
        (Feature.mk 0 0 "" "" 0 3 2 []) <
      MRMFeatureSelectorScore.make_score (CMath.mk Real.log Real.log fun x _ => x)
        (Feature.mk 0 0 "" "" 0 3 3 []) :=
  C19_linear_score_increases_above_one (CMath.mk Real.log Real.log fun x _ => x) rfl
    (Feature.mk 0 0 "" "" 0 2 3 []) (Feature.mk 0 0 "" "" 0 3 3 [])
    (Feature.mk 0 0 "" "" 0 3 2 []) (Feature.mk 0 0 "" "" 0 3 3 [])
    (show (1 : ℝ) < 2 by norm_num) (show (2 : ℝ) < 3 by norm_num) rfl
    (show (0 : ℝ) < 3 by norm_num)
    (show (1 : ℝ) < 2 by norm_num) (show (2 : ℝ) < 3 by norm_num) rfl
    (show (0 : ℝ) < 3 by norm_num)

/-- C19 does not hold as stated: the peak areas `1 < exp (1/2)` are positive and the
signal-to-noise ratio `1` is positive, but the score of the feature with the greater
peak area is `1/2`, less than the score `1` of the other one: the logarithm `0` of the
peak area `1` is replaced by `1`, the logarithm `1/2` is kept. -/
theorem C19_counterexample :
    (0 : ℝ) < 1 ∧ (1 : ℝ) < Real.exp (1 / 2) ∧
    MRMFeatureSelectorScore.make_score (CMath.mk Real.log Real.log fun x _ => x)
        (Feature.mk 0 0 "" "" 0 (Real.exp (1 / 2)) 1 []) = 1 / 2 ∧
    MRMFeatureSelectorScore.make_score (CMath.mk Real.log Real.log fun x _ => x)
        (Feature.mk 0 0 "" "" 0 1 1 []) = 1 ∧
    MRMFeatureSelectorScore.make_score (CMath.mk Real.log Real.log fun x _ => x)
        (Feature.mk 0 0 "" "" 0 (Real.exp (1 / 2)) 1 []) <
      MRMFeatureSelectorScore.make_score (CMath.mk Real.log Real.log fun x _ => x)
        (Feature.mk 0 0 "" "" 0 1 1 []) := by
  have e1 : MRMFeatureSelectorScore.make_score (CMath.mk Real.log Real.log fun x _ => x)
      (Feature.mk 0 0 "" "" 0 (Real.exp (1 / 2)) 1 []) = 1 / 2 := by
    rw [MRMFeatureSelectorScore.make_score_real _ rfl]
    simp only [Feature.peak_apices_sum, Feature.sn_ratio, Real.log_exp, Real.log_one]
    norm_num
  have e2 : MRMFeatureSelectorScore.make_score (CMath.mk Real.log Real.log fun x _ => x)
      (Feature.mk 0 0 "" "" 0 1 1 []) = 1 := by
    rw [MRMFeatureSelectorScore.make_score_real _ rfl]
    simp only [Feature.peak_apices_sum, Feature.sn_ratio, Real.log_one]
    norm_num
  refine ⟨one_pos, ?_, e1, e2, ?_⟩
  · rw [← Real.exp_zero]
    exact Real.exp_lt_exp.2 (by norm_num)
  · rw [e1, e2]
    norm_num

/-- C20: for every window of pairwise distinct group names none of which contains the
character `-`, no two columns of the model built by `MRMFeatureSelectorQMIP::optimize`
(selection, pair and deviation variables together) carry the same name. -/
theorem C20_columns_have_distinct_names (self : MRMFeatureSelector) (m : CMath ℚ)
    (time_to_name : List (ℚ × String)) (fm : String → Option (List (Feature ℚ)))
    (P : LPWrapper) (vars : List String)
    (hb : MRMFeatureSelectorQMIP.buildProblem self m time_to_name fm = some (P, vars))
    (hnd : (time_to_name.map Prod.snd).Nodup)
    (hdash : ∀ e ∈ time_to_name, '-' ∉ e.2.data) :
    P.colNames.Nodup := by
  rw [List.nodup_iff_count_le_one]
  intro n
  rw [MRMFeatureSelectorQMIP.colNames_count hb n]
  by_cases hn : n ∈ vars
  · have hsel := MRMFeatureSelectorQMIP.variables_are_selection_names hb n hn
    have hnot : n ∉ auxNames self time_to_name fm := by
      intro hmem
      obtain ⟨e1, i, e2, j, _, _, hp⟩ := mem_auxNames hmem
      exact selectionName_no_dash hdash hsel (pairNames_has_dash hp)
    rw [List.count_eq_zero.2 hnot, if_pos hn]
  · rw [if_neg hn, Nat.add_zero]
    exact List.nodup_iff_count_le_one.1 (auxNames_nodup self fm hnd hdash) n

/-- C20 on the example window of the groups `A` and `B`. -/
theorem C20_columns_have_distinct_names_witness : exQMIP.1.colNames.Nodup :=
  C20_columns_have_distinct_names exInteger exMath exWindow exMap exQMIP.1 exQMIP.2
    (by decide!) (by decide!) (by decide!)

/-- C20 does not hold as stated. In the window of the distinct groups `A_0-B`, `A` and
`B` the columns `0` (selection variable of candidate `0` of `A_0-B`) and `16` (pair
variable of the candidates `0` of `A` and `0` of `B`) both carry the name `A_0-B_0`. In
the window that refers to the group `A` twice, the pair variables of the two positions
carry the same names. -/
theorem C20_counterexample :
    (∃ P vars,
      MRMFeatureSelectorQMIP.buildProblem exInteger exMath exCollisionWindow exCollisionMap =
        some (P, vars) ∧
      (exCollisionWindow.map Prod.snd).Nodup ∧
      P.colNames[0]? = some "A_0-B_0" ∧ P.colNames[16]? = some "A_0-B_0" ∧
      ¬ P.colNames.Nodup) ∧
    (∃ P vars,
      MRMFeatureSelectorQMIP.buildProblem exInteger exMath exRepeated exMap = some (P, vars) ∧
      (∀ e ∈ exRepeated, '-' ∉ e.2.data) ∧
      ¬ P.colNames.Nodup) :=
  ⟨⟨_, _, rfl, by decide!, by decide!, by decide!, by decide!⟩,
    ⟨_, _, rfl, by decide!, by decide!⟩⟩

/-- C21 fails on the code: with the locality weighting on and `nn_threshold_ = 1`, in a
window of four groups the neighbour `3` is visited for the position `2`, `start_iter` is
`1`, and the divisor `nn_threshold_ - |start_iter + 3 - 2| + 1` of the locality weight is
`0`. In a window of five groups the neighbour `4` of the position `3` has the divisor
`-1` and the weight `-1`. The code adds `start_iter` to `cnt2 - cnt1`, although `cnt2`
is a position of the window already; the distance `|cnt2 - cnt1|` is at most
`nn_threshold_`. -/
theorem C21_locality_divisor_not_positive :
    exNarrow.locality_weight_ = true ∧ exNarrow.nn_threshold_ = 1 ∧
    3 ∈ exNarrow.neighbours 2 4 ∧ exNarrow.start_iter 2 = 1 ∧
    exNarrow.locality_denominator (exNarrow.start_iter 2) 2 3 = 0 ∧
    exNarrow.locality_weight (exNarrow.start_iter 2) 2 3 =
      1 / exNarrow.locality_denominator (exNarrow.start_iter 2) 2 3 ∧
    4 ∈ exNarrow.neighbours 3 5 ∧ exNarrow.start_iter 3 = 2 ∧
    exNarrow.locality_denominator (exNarrow.start_iter 3) 3 4 = -1 ∧
    exNarrow.locality_weight (exNarrow.start_iter 3) 3 4 = -1 := by
  decide!

/-- C22 fails on the code: with `select_transition_group_` on, the top-level feature with
`PeptideRef` `A B`, unique id `1` and one subordinate is registered for the optimization
under the group name `AB` (`remove_spaces`), its variable is `AB_1`, and Strategy A with
the solver that returns `1` for every column returns `AB_1`. The name looked up when the
feature is filtered is `A B_1`, built from the `PeptideRef` as it is; it is not in the
set of the returned names, and the output of `select_MRMFeature` is empty. -/
theorem C22_spaced_group_name_not_found :
    getDefaultParameters.select_transition_group_ = true ∧
    exSpaced.getSubordinates.length ≠ 0 ∧
    sort (buildSeries getDefaultParameters [exSpaced]).time_to_name = [(5, "AB")] ∧
    varName (remove_spaces exSpaced.PeptideRef) exSpaced.getUniqueId = "AB_1" ∧
    run_segments (MRMFeatureSelectorScore.optimize getDefaultParameters exMath exOnes)
      getDefaultParameters (sort (buildSeries getDefaultParameters [exSpaced]).time_to_name)
      (buildSeries getDefaultParameters [exSpaced]).feature_name_map = some ["AB_1"] ∧
    feature_name getDefaultParameters exSpaced (exSub 11 "a1") = "A B_1" ∧
    feature_name getDefaultParameters exSpaced (exSub 11 "a1") ∉ ["AB_1"] ∧
    MRMFeatureSelectorScore.select_MRMFeature getDefaultParameters exMath exOnes [exSpaced] =
      some [] := by
  have h : run_segments (MRMFeatureSelectorScore.optimize getDefaultParameters exMath exOnes)
      getDefaultParameters (sort (buildSeries getDefaultParameters [exSpaced]).time_to_name)
      (buildSeries getDefaultParameters [exSpaced]).feature_name_map = some ["AB_1"] := by
    decide!
  refine ⟨rfl, by decide!, by decide!, by decide!, h, by decide!, by decide!, ?_⟩
  unfold MRMFeatureSelectorScore.select_MRMFeature MRMFeatureSelector.select_MRMFeature
  simp only [h]
  rfl

end OpenMS
